import Mathlib

/-!
Limited stock exchange: order lists, matching and the in-memory store.

A shallow embedding of the Go sources `util.go`/`store.go` (data model, store),
`list.go` (price-time ordered linked list) and `orderbooks.go` (matching).

Modelling conventions.
* Go `string` identifiers are `String`; Go `int`/`Usd` values are `Int`. The product
  `Usd(int(limit) * size)` of `getTotalAssetCost` is taken modulo `2^64` into
  `[-2^63, 2^63)` (`wrap64`), as Go computes it: it decides what a BUY costs, what
  `validateOrderReq` compares with the cash, and what a fill credits. Sums and
  differences of balances, inventories and sizes are kept exact; a Go variable holds
  `wrap64` of the exact value, the same number while it lies in `[-2^63, 2^63)`
  (`fits64`). Statements about amounts name the products they need within 64 bits.
* `time.Time` is a `Nat` instant; the zero time is `0`.
* `BuyOrSell` is a Go `int` with `BUY = 0`, `SELL = 1`; other values exist. The Go types
  `BuyOrSell` and `Usd` are written `Int` throughout.
* The singly linked `OrdersList` is the `List Order` of its node values, front first.
* A Go map is an association list with distinct keys; reading a missing key gives
  the zero value, writing replaces in place or appends.
* A key missing from `Store.db` yields the zero `UserData`, whose maps are nil;
  a write to a nil map panics, which is the fault `Fault.nilMapWrite`.
* The per-book mutex is not modelled: every operation runs to completion.
* The buffered channel `OCh` is the list of the requests sent and not yet received,
  oldest first (Go channels are first-in-first-out): a send appends while fewer than
  100 are buffered, the one consumer goroutine receives the head. A run interleaves
  the sends of the producers with the statements of the consumer as events.
-/

namespace Exchange

/-- Go `type UserId string`. -/
abbrev UserId := String
/-- Go `type AssetId string`. -/
abbrev AssetId := String
/-- Go `type OrderId string`. -/
abbrev OrderId := String
/-- Go `type OrderStatus string`. -/
abbrev OrderStatus := String

/-- Go constant `BUY` (iota 0). -/
abbrev BUY : Int := 0
/-- Go constant `SELL` (iota 1). -/
abbrev SELL : Int := 1

/-- Go constant `Working`. -/
abbrev Working : OrderStatus := "WORKING"
/-- Go constant `Complete`. -/
abbrev Complete : OrderStatus := "COMPLETE"
/-- Go constant `Canceled`. -/
abbrev Canceled : OrderStatus := "CANCELED"

/-- Go struct `Order`. -/
structure Order where
  orderId : OrderId
  userId : UserId
  limit : Int
  assetId : AssetId
  size : Int
  buyOrSell : Int
  eventAt : Nat
  status : OrderStatus
  filled : Int
  deriving DecidableEq, Repr

/-- The Go zero value `Order{}`. -/
def Order.zero : Order :=
  { orderId := "", userId := "", limit := 0, assetId := "", size := 0,
    buyOrSell := 0, eventAt := 0, status := "", filled := 0 }

/-- A Go map as an association list (keys distinct in a well-formed map). -/
abbrev GoMap (κ : Type) (ν : Type) := List (κ × ν)

/-- Map read `m[k]` with the comma-ok result. -/
def GoMap.get? {κ ν : Type} [DecidableEq κ] : GoMap κ ν → κ → Option ν
  | [], _ => none
  | (k', v) :: rest, k => if k' = k then some v else GoMap.get? rest k

/-- Map write `m[k] = v`. -/
def GoMap.set {κ ν : Type} [DecidableEq κ] : GoMap κ ν → κ → ν → GoMap κ ν
  | [], k, v => [(k, v)]
  | (k', v') :: rest, k, v =>
    if k' = k then (k, v) :: rest else (k', v') :: GoMap.set rest k v

/-! ## list.go -/

/-- Go `newOrdersList`. -/
def newOrdersList : List Order := []

/-- The BUY scan loop of `AddOrder`: starting at node `t`, insert after the first node whose
successor is absent or has a limit strictly below the new order's. -/
def AddOrder.scanBuy (newOrder : Order) : List Order → List Order
  | [] => []
  | [t] => [t, newOrder]
  | t :: n :: rest =>
    if newOrder.limit > n.limit then t :: newOrder :: n :: rest
    else t :: AddOrder.scanBuy newOrder (n :: rest)

/-- The SELL scan loop of `AddOrder`: as `scanBuy` with the comparison reversed. -/
def AddOrder.scanSell (newOrder : Order) : List Order → List Order
  | [] => []
  | [t] => [t, newOrder]
  | t :: n :: rest =>
    if newOrder.limit < n.limit then t :: newOrder :: n :: rest
    else t :: AddOrder.scanSell newOrder (n :: rest)

/-- Go `OrdersList.AddOrder`. -/
def AddOrder (l : List Order) (newOrder : Order) : List Order :=
  match l with
  | [] => [newOrder]
  | front :: rest =>
    if newOrder.buyOrSell = BUY then
      if newOrder.limit > front.limit then newOrder :: front :: rest
      else AddOrder.scanBuy newOrder (front :: rest)
    else
      if newOrder.limit < front.limit then newOrder :: front :: rest
      else AddOrder.scanSell newOrder (front :: rest)

/-- Go `OrdersList.GetTopOrder`. -/
def GetTopOrder (l : List Order) : Order :=
  match l with
  | front :: _ => front
  | [] => Order.zero

/-- The scan loop of `DeleteOrder`: at node `t`, unlink the successor when it carries the id,
then move to the (new) successor. -/
def DeleteOrder.scan (oid : OrderId) : List Order → List Order
  | [] => []
  | [t] => [t]
  | t :: n :: rest =>
    if n.orderId = oid then t :: DeleteOrder.scan oid rest
    else t :: DeleteOrder.scan oid (n :: rest)

/-- Go `OrdersList.DeleteOrder`. -/
def DeleteOrder (l : List Order) (oid : OrderId) : List Order :=
  match l with
  | [] => []
  | front :: rest =>
    if front.orderId = oid then rest
    else DeleteOrder.scan oid (front :: rest)

/-- Go `OrdersList.UpdateOrder`. -/
def UpdateOrder (l : List Order) (order : Order) : List Order :=
  l.map (fun t => if t.orderId = order.orderId then { t with size := order.size } else t)

/-- Go `OrdersList.getOrder`. -/
def getOrder (l : List Order) (oid : OrderId) : Order :=
  match l with
  | [] => Order.zero
  | t :: rest => if t.orderId = oid then t else getOrder rest oid

/-- Go `OrdersList.getSize`. -/
def getSize (l : List Order) : Int := l.length

/-- Go `OrdersList.isEmpty`. -/
def isEmpty (l : List Order) : Bool :=
  match l with
  | [] => true
  | _ :: _ => false

/-! ## util.go -/

/-- The value a Go `int` (64 bits, two's complement) holds for an arithmetic result: the
result itself when it lies in `[-2^63, 2^63)`, wrapped around otherwise. -/
def wrap64 (x : Int) : Int :=
  (x + 9223372036854775808) % 18446744073709551616 - 9223372036854775808

/-- Whether a value lies in the range `[-2^63, 2^63)` of a Go `int`. -/
def fits64 (x : Int) : Prop := -9223372036854775808 ≤ x ∧ x < 9223372036854775808

instance (x : Int) : Decidable (fits64 x) := by
  unfold fits64
  infer_instance

/-- Go `getTotalAssetCost`: `Usd(int(limit) * size)`, the product as a 64-bit `int`. -/
def getTotalAssetCost (limit : Int) (size : Int) : Int := wrap64 (limit * size)

/-- Go `min`. -/
def min (a b : Int) : Int := if a < b then a else b

/-! ## store.go -/

/-- Go struct `UserData`; the maps of a stored record are non-nil. -/
structure UserData where
  userId : UserId
  cash : Int
  assets : GoMap AssetId Int
  orders : GoMap OrderId Order
  deriving DecidableEq, Repr

/-- The Go zero value `UserData{}` as seen by reads (its nil maps read as empty). -/
def UserData.zero : UserData := { userId := "", cash := 0, assets := [], orders := [] }

/-- Go struct `Store`. -/
structure Store where
  db : GoMap UserId UserData
  deriving DecidableEq, Repr

/-- Ways a call can fail to return: a Go panic on a write to a nil map, or the
iteration budget of the model of a loop being exhausted. -/
inductive Fault where
  | nilMapWrite
  | outOfFuel
  deriving DecidableEq, Repr

/-- Go `newStore`. -/
def newStore : Store := { db := [] }

/-- Go `Store.GetUserData` (read view: a missing user gives the zero record). -/
def GetUserData (s : Store) (userId : UserId) : UserData :=
  (s.db.get? userId).getD UserData.zero

/-- Go `Store.AddUserOrder`. -/
def AddUserOrder (s : Store) (order : Order) : Except Fault Store :=
  match s.db.get? order.userId with
  | none => .error .nilMapWrite
  | some userData =>
    let userData := { userData with orders := userData.orders.set order.orderId order }
    let userData :=
      if order.buyOrSell = BUY then
        { userData with cash := userData.cash - getTotalAssetCost order.limit order.size }
      else
        { userData with
          assets := userData.assets.set order.assetId
            ((userData.assets.get? order.assetId).getD 0 - order.size) }
    .ok { db := s.db.set order.userId userData }

/-- Go `Store.UpdateUserAssetOnSuccessBuy`. -/
def UpdateUserAssetOnSuccessBuy (s : Store) (userId : UserId) (assetId : AssetId)
    (orderId : OrderId) (tradeAssetSize : Int) (status : OrderStatus) : Except Fault Store :=
  match s.db.get? userId with
  | none => .error .nilMapWrite
  | some userData =>
    let assets := userData.assets.set assetId
      ((userData.assets.get? assetId).getD 0 + tradeAssetSize)
    let order := (userData.orders.get? orderId).getD Order.zero
    let order := { order with status := status, filled := order.filled + tradeAssetSize }
    .ok { db := s.db.set userId
            { userData with assets := assets, orders := userData.orders.set orderId order } }

/-- Go `Store.UpdateUserAssetOnSuccessSell`. -/
def UpdateUserAssetOnSuccessSell (s : Store) (userId : UserId) (orderId : OrderId)
    (cashGain : Int) (status : OrderStatus) (tradeAssetSize : Int) : Except Fault Store :=
  match s.db.get? userId with
  | none => .error .nilMapWrite
  | some userData =>
    let order := (userData.orders.get? orderId).getD Order.zero
    let order := { order with status := status, filled := order.filled + tradeAssetSize }
    .ok { db := s.db.set userId
            { userData with
              cash := userData.cash + cashGain, orders := userData.orders.set orderId order } }

/-- Go `Store.UpdateUserAsset`. -/
def UpdateUserAsset (s : Store) (order : Order) (matchedPrice : Int) (tradeAssetsSize : Int)
    (orderType : Int) (status : OrderStatus) : Except Fault Store :=
  if (orderType = BUY ∧ order.buyOrSell = SELL) ∨ (orderType = SELL ∧ order.buyOrSell = SELL) then
    UpdateUserAssetOnSuccessSell s order.userId order.orderId
      (getTotalAssetCost matchedPrice tradeAssetsSize) status tradeAssetsSize
  else
    UpdateUserAssetOnSuccessBuy s order.userId order.assetId order.orderId tradeAssetsSize status

/-! ## orderbooks.go -/

/-- Go struct `OrderBook` (without its mutex). -/
structure OrderBook where
  BuyList : List Order
  SellList : List Order
  deriving DecidableEq, Repr

/-- Go struct `OrderBooks`. -/
structure OrderBooks where
  orderBooks : GoMap AssetId OrderBook
  deriving DecidableEq, Repr

/-- Go `newOrderBooks`. -/
def newOrderBooks : OrderBooks := { orderBooks := [] }

/-- Go `OrderBooks.getOrderBook`: the book of the asset, created empty when missing; returns
the (possibly extended) map together with the book. -/
def getOrderBook (ob : OrderBooks) (assetId : AssetId) : OrderBooks × OrderBook :=
  match ob.orderBooks.get? assetId with
  | some book => (ob, book)
  | none =>
    let book : OrderBook := { BuyList := newOrdersList, SellList := newOrdersList }
    ({ orderBooks := ob.orderBooks.set assetId book }, book)

/-- Go `getMatchedPrice`. -/
def getMatchedPrice (buyOrSell : Int) (matchedOrder : Order) (newOrder : Order) : Int :=
  if buyOrSell = BUY then matchedOrder.limit else newOrder.limit

/-- Go `orderMatchAvailable`. -/
def orderMatchAvailable (orderList : List Order) (newOrder : Order) (orderType : Int) :
    Bool :=
  (!isEmpty orderList && decide (orderType = BUY)
      && decide ((GetTopOrder orderList).limit ≤ newOrder.limit)) ||
  (!isEmpty orderList && decide (orderType = SELL)
      && decide ((GetTopOrder orderList).limit ≥ newOrder.limit))

/-- The `for` loop of Go `executeOrder`, with an iteration budget: one unit per evaluation of
the loop condition. Returns the list, the incoming order and the store as the loop leaves
them. -/
def executeOrderLoop : Nat → List Order → Order → Store → Int →
    Except Fault (List Order × Order × Store)
  | 0, _, _, _, _ => .error .outOfFuel
  | fuel + 1, orderList, newOrder, store, buyOrSell =>
    if orderMatchAvailable orderList newOrder buyOrSell then
      let matchedOrder := GetTopOrder orderList
      let matchedPrice := getMatchedPrice buyOrSell matchedOrder newOrder
      let tradeAssetsSize := min matchedOrder.size newOrder.size
      let newOrder := { newOrder with size := newOrder.size - tradeAssetsSize }
      let matchedOrder := { matchedOrder with size := matchedOrder.size - tradeAssetsSize }
      if newOrder.size = 0 then
        if matchedOrder.size = 0 then
          let orderList := DeleteOrder orderList matchedOrder.orderId
          match UpdateUserAsset store matchedOrder matchedPrice tradeAssetsSize buyOrSell
              Complete with
          | .error e => .error e
          | .ok store =>
            match UpdateUserAsset store newOrder matchedPrice tradeAssetsSize buyOrSell
                Complete with
            | .error e => .error e
            | .ok store => .ok (orderList, newOrder, store)
        else
          let orderList := UpdateOrder orderList matchedOrder
          match UpdateUserAsset store matchedOrder matchedPrice tradeAssetsSize buyOrSell
              Working with
          | .error e => .error e
          | .ok store =>
            match UpdateUserAsset store newOrder matchedPrice tradeAssetsSize buyOrSell
                Complete with
            | .error e => .error e
            | .ok store => .ok (orderList, newOrder, store)
      else
        let orderList := DeleteOrder orderList matchedOrder.orderId
        match UpdateUserAsset store newOrder matchedPrice tradeAssetsSize buyOrSell
            Working with
        | .error e => .error e
        | .ok store =>
          match UpdateUserAsset store matchedOrder matchedPrice tradeAssetsSize buyOrSell
              Complete with
          | .error e => .error e
          | .ok store => executeOrderLoop fuel orderList newOrder store buyOrSell
    else
      .ok (orderList, newOrder, store)

/-- Go `executeOrder`: the loop run with a budget of one condition check per resting order
plus the final one. -/
def executeOrder (orderList : List Order) (newOrder : Order) (store : Store)
    (buyOrSell : Int) : Except Fault (List Order × Order × Store) :=
  executeOrderLoop (orderList.length + 1) orderList newOrder store buyOrSell

/-- Go `OrderBooks.AddOrder`. -/
def OrderBooks.AddOrder (ob : OrderBooks) (order : Order) : OrderBooks :=
  let (ob, orderBook) := getOrderBook ob order.assetId
  if order.buyOrSell = BUY then
    { orderBooks := ob.orderBooks.set order.assetId
        { orderBook with BuyList := Exchange.AddOrder orderBook.BuyList order } }
  else
    { orderBooks := ob.orderBooks.set order.assetId
        { orderBook with SellList := Exchange.AddOrder orderBook.SellList order } }

/-- Go `OrderBooks.ExecuteOrder`. -/
def OrderBooks.ExecuteOrder (ob : OrderBooks) (newOrder : Order) (store : Store) :
    Except Fault (OrderBooks × Store) :=
  let (ob, orderBook) := getOrderBook ob newOrder.assetId
  if newOrder.buyOrSell = BUY then
    match executeOrder orderBook.SellList newOrder store BUY with
    | .error e => .error e
    | .ok (sellList, buyOrder, store) =>
      let orderBook := { orderBook with SellList := sellList }
      let orderBook :=
        if buyOrder.size > 0 then
          { orderBook with BuyList := Exchange.AddOrder orderBook.BuyList buyOrder }
        else orderBook
      .ok ({ orderBooks := ob.orderBooks.set newOrder.assetId orderBook }, store)
  else
    match executeOrder orderBook.BuyList newOrder store SELL with
    | .error e => .error e
    | .ok (buyList, sellOrder, store) =>
      let orderBook := { orderBook with BuyList := buyList }
      let orderBook :=
        if sellOrder.size > 0 then
          { orderBook with SellList := Exchange.AddOrder orderBook.SellList sellOrder }
        else orderBook
      .ok ({ orderBooks := ob.orderBooks.set newOrder.assetId orderBook }, store)

/-- Go `OrderBooks.DeleteOrder`. -/
def OrderBooks.DeleteOrder (ob : OrderBooks) (order : Order) : OrderBooks :=
  let (ob, orderBook) := getOrderBook ob order.assetId
  if order.buyOrSell = BUY then
    { orderBooks := ob.orderBooks.set order.assetId
        { orderBook with BuyList := Exchange.DeleteOrder orderBook.BuyList order.orderId } }
  else
    { orderBooks := ob.orderBooks.set order.assetId
        { orderBook with SellList := Exchange.DeleteOrder orderBook.SellList order.orderId } }

/-- Go `OrderBooks.UpdateOrder`. -/
def OrderBooks.UpdateOrder (ob : OrderBooks) (order : Order) : OrderBooks :=
  let (ob, orderBook) := getOrderBook ob order.assetId
  if order.buyOrSell = BUY then
    { orderBooks := ob.orderBooks.set order.assetId
        { orderBook with BuyList := Exchange.UpdateOrder orderBook.BuyList order } }
  else
    { orderBooks := ob.orderBooks.set order.assetId
        { orderBook with SellList := Exchange.UpdateOrder orderBook.SellList order } }

/-- Go `OrderBooks.GetTopOrder`: the books (with the asset's book created when missing) and
the top order of the side asked for. -/
def OrderBooks.GetTopOrder (ob : OrderBooks) (assetId : AssetId) (buyOrSell : Int) :
    OrderBooks × Order :=
  let (ob, orderBook) := getOrderBook ob assetId
  if buyOrSell = BUY then (ob, Exchange.GetTopOrder orderBook.BuyList)
  else (ob, Exchange.GetTopOrder orderBook.SellList)

/-! ## handler.go, store.go: users -/

/-- Go struct `Asset`. -/
structure Asset where
  AssetId : Exchange.AssetId
  Size : Int
  deriving DecidableEq, Repr

/-- Go struct `InitExchangeReq`. -/
structure InitExchangeReq where
  UserId : Exchange.UserId
  Assets : List Asset
  Cash : Int
  deriving DecidableEq, Repr

/-- Go `Store.CreateUser`: a fresh record with empty maps, the listed assets written in
order, stored under the user id. -/
def CreateUser (s : Store) (req : InitExchangeReq) : Store :=
  let userData : UserData :=
    { userId := req.UserId, cash := req.Cash, assets := [], orders := [] }
  let userData := req.Assets.foldl
    (fun (ud : UserData) asset => { ud with assets := ud.assets.set asset.AssetId asset.Size })
    userData
  { db := s.db.set req.UserId userData }

/-! ## handler.go, util.go: order requests -/

/-- Go struct `OrderReq`. -/
structure OrderReq where
  UserId : Exchange.UserId
  Limit : Int
  AssetId : Exchange.AssetId
  Size : Int
  BuyOrSell : Int
  deriving DecidableEq, Repr

/-- Go `validateOrderReq`: `none` is the nil error, `some msg` an error with that message. -/
def validateOrderReq (userData : UserData) (req : OrderReq) : Option String :=
  if userData.userId = "" then
    some ("userId: " ++ req.UserId ++ " not an actual user")
  else if (userData.assets.get? req.AssetId).isNone then
    some ("user doesn't own AssetId:" ++ req.AssetId)
  else if req.BuyOrSell = BUY ∧ userData.cash < getTotalAssetCost req.Limit req.Size then
    some "user doesn't have enough cash"
  else if req.BuyOrSell = SELL ∧ (userData.assets.get? req.AssetId).getD 0 < req.Size then
    some "user doesn't have enough assets to sell"
  else
    none

/-- Go `createOrderFromOrderReq`; the fresh id of `createOrderId` and the reading of
`time.Now` are parameters. -/
def createOrderFromOrderReq (req : OrderReq) (oid : OrderId) (now : Nat) : Order :=
  { orderId := oid, userId := req.UserId, limit := req.Limit, assetId := req.AssetId,
    size := req.Size, buyOrSell := req.BuyOrSell, eventAt := now, status := Working,
    filled := 0 }

/-! ## store.go: cancel -/

/-- Go `Store.UpdateUserAssetOnOrderCancel`. -/
def UpdateUserAssetOnOrderCancel (s : Store) (userId : UserId) (assetId : AssetId)
    (orderId : OrderId) : Except Fault Store :=
  match s.db.get? userId with
  | none => .error .nilMapWrite
  | some userData =>
    let order := (userData.orders.get? orderId).getD Order.zero
    let userData :=
      if order.buyOrSell = BUY then
        { userData with cash := userData.cash + getTotalAssetCost order.limit order.size }
      else
        { userData with
          assets := userData.assets.set assetId
            ((userData.assets.get? assetId).getD 0 + order.size) }
    let order := { order with status := Canceled }
    .ok { db := s.db.set userId
            { userData with orders := userData.orders.set orderId order } }

/-! ## service.go -/

/-- Go struct `OrderMatchingService` (without the request channel). -/
structure OrderMatchingService where
  Store : Exchange.Store
  OrderBooks : Exchange.OrderBooks
  deriving DecidableEq, Repr

/-- Go `OrderMatchingService.SaveOrderToStore`. -/
def OrderMatchingService.SaveOrderToStore (svc : OrderMatchingService) (order : Order) :
    Except Fault OrderMatchingService :=
  match AddUserOrder svc.Store order with
  | .error e => .error e
  | .ok store => .ok { svc with Store := store }

/-- Go `OrderMatchingService.ExecuteOrder`. -/
def OrderMatchingService.ExecuteOrder (svc : OrderMatchingService) (order : Order) :
    Except Fault OrderMatchingService :=
  match svc.OrderBooks.ExecuteOrder order svc.Store with
  | .error e => .error e
  | .ok (orderBooks, store) => .ok { Store := store, OrderBooks := orderBooks }

/-- Go `OrderMatchingService.CancelUserOrder`: the returned order and the service after the
call. The guard `orders != nil` holds exactly for a user with a record. -/
def OrderMatchingService.CancelUserOrder (svc : OrderMatchingService) (userId : UserId)
    (orderId : OrderId) : Except Fault (Order × OrderMatchingService) :=
  match svc.Store.db.get? userId with
  | none => .ok (Order.zero, svc)
  | some userData =>
    let order := (userData.orders.get? orderId).getD Order.zero
    let orderBooks := svc.OrderBooks.DeleteOrder order
    match UpdateUserAssetOnOrderCancel svc.Store userId order.assetId order.orderId with
    | .error e => .error e
    | .ok store => .ok (Order.zero, { Store := store, OrderBooks := orderBooks })

/-- Go `OrderMatchingService.InitExchange`. -/
def OrderMatchingService.InitExchange (svc : OrderMatchingService)
    (reqs : List InitExchangeReq) : OrderMatchingService :=
  { svc with Store := reqs.foldl CreateUser svc.Store }

/-- One turn of the loop of Go `OrderMatchingService.ProcessOrderReqs`: the request becomes an
order (with the id and time drawn for it), is saved to the store, and is executed. -/
def OrderMatchingService.ProcessOrderReq (svc : OrderMatchingService) (req : OrderReq)
    (oid : OrderId) (now : Nat) : Except Fault OrderMatchingService :=
  let order := createOrderFromOrderReq req oid now
  match svc.SaveOrderToStore order with
  | .error e => .error e
  | .ok svc => svc.ExecuteOrder order

/-! ## service.go, handler.go: the request channel and its consumer -/

/-- Where the goroutine of `ProcessOrderReqs` stands in its loop: waiting at the channel,
holding a request it has received, or holding the order it has saved to the store and not
yet executed. -/
inductive Consumer where
  | waiting
  | received (req : OrderReq)
  | saved (req : OrderReq) (order : Order)
  deriving DecidableEq, Repr

/-- The running service: the service state, the buffered channel `OCh` as the requests sent
and not yet received (oldest first), the consumer goroutine, and two histories kept for the
statements: the requests in the order their sends completed, and the requests whose turn of
the loop is complete, each with the id and the time drawn for its order. -/
structure Running where
  svc : OrderMatchingService
  OCh : List OrderReq
  consumer : Consumer
  sent : List OrderReq
  processed : List (OrderReq × OrderId × Nat)
  deriving DecidableEq, Repr

/-- Go `newOrderMatchingService` on a given service state: empty channel, the one consumer
goroutine started and waiting. -/
def Running.start (svc : OrderMatchingService) : Running :=
  { svc := svc, OCh := [], consumer := .waiting, sent := [], processed := [] }

/-- Capacity of the channel: `make(chan OrderReq, 100)`. -/
def OChCapacity : Nat := 100

/-- The events of a run. A producer (`CreateOrderHandler`) completes the send `s.OCh <- or`;
the consumer receives the next request (`range s.OCh`), builds the order and saves it
(`createOrderFromOrderReq`, `SaveOrderToStore`), and executes it (`ExecuteOrder`). Producers
and the consumer are interleaved in any order. -/
inductive Event where
  | send (req : OrderReq)
  | receive
  | save (oid : OrderId) (now : Nat)
  | execute
  deriving DecidableEq, Repr

/-- One event. `none` when the event cannot happen in the state (the send blocks on a full
channel, the receive blocks on an empty one, the consumer is at another statement) or the
call of the consumer panics, which ends the program. -/
def Running.step (st : Running) : Event → Option Running
  | .send req =>
    if st.OCh.length < OChCapacity then
      some { st with OCh := st.OCh ++ [req], sent := st.sent ++ [req] }
    else none
  | .receive =>
    match st.consumer, st.OCh with
    | .waiting, req :: rest => some { st with OCh := rest, consumer := .received req }
    | _, _ => none
  | .save oid now =>
    match st.consumer with
    | .received req =>
      match st.svc.SaveOrderToStore (createOrderFromOrderReq req oid now) with
      | .ok svc =>
        some { st with svc := svc,
                       consumer := .saved req (createOrderFromOrderReq req oid now) }
      | .error _ => none
    | _ => none
  | .execute =>
    match st.consumer with
    | .saved req order =>
      match st.svc.ExecuteOrder order with
      | .ok svc =>
        some { st with svc := svc, consumer := .waiting,
                       processed := st.processed ++ [(req, order.orderId, order.eventAt)] }
      | .error _ => none
    | _ => none

/-- A run: the events one after the other. -/
def Running.run (st : Running) : List Event → Option Running
  | [] => some st
  | e :: es =>
    match st.step e with
    | some st => st.run es
    | none => none

/-- The request the consumer holds, if any. -/
def Consumer.holding : Consumer → List OrderReq
  | .waiting => []
  | .received req => [req]
  | .saved req _ => [req]

/-- The requests processed one after the other from a service state, each turn
(`ProcessOrderReq`: save, then execute) complete before the next begins. -/
def processAll (svc : OrderMatchingService) :
    List (OrderReq × OrderId × Nat) → Except Fault OrderMatchingService
  | [] => .ok svc
  | (req, oid, now) :: rest =>
    match svc.ProcessOrderReq req oid now with
    | .error e => .error e
    | .ok svc => processAll svc rest

/-- What holds of a running service started on `svc₀`: the requests sent are, in order, those
whose turn is complete, then the one the consumer holds, then those waiting in the channel;
and the service state is the one reached by processing the completed requests one after the
other, followed by the save of the order in hand when the consumer has saved it. -/
def Running.Serialized (svc₀ : OrderMatchingService) (st : Running) : Prop :=
  st.sent = st.processed.map (fun p => p.1) ++ st.consumer.holding ++ st.OCh ∧
  match st.consumer with
  | .waiting => processAll svc₀ st.processed = .ok st.svc
  | .received _ => processAll svc₀ st.processed = .ok st.svc
  | .saved req order =>
    order = createOrderFromOrderReq req order.orderId order.eventAt ∧
    ∃ svc₁, processAll svc₀ st.processed = .ok svc₁ ∧
      svc₁.SaveOrderToStore order = .ok st.svc

/-! ## Observations used in the statements -/

/-- Cash of a user as read through `GetUserData`. -/
def Store.cashOf (s : Store) (u : UserId) : Int := (GetUserData s u).cash

/-- Inventory `GetUserData(u).assets[a]`. -/
def Store.assetOf (s : Store) (u : UserId) (a : AssetId) : Int :=
  ((GetUserData s u).assets.get? a).getD 0

/-- Order record `GetUserData(u).orders[oid]`. -/
def Store.orderOf (s : Store) (u : UserId) (oid : OrderId) : Order :=
  ((GetUserData s u).orders.get? oid).getD Order.zero

/-- Whether the user has a record in the store. -/
def Store.hasUser (s : Store) (u : UserId) : Prop := (s.db.get? u).isSome

instance (s : Store) (u : UserId) : Decidable (s.hasUser u) := by
  unfold Store.hasUser
  infer_instance

/-- Sum of the cash of all users. -/
def Store.totalCash (s : Store) : Int := (s.db.map (fun p => p.2.cash)).sum

/-- Sum over all users of the inventory of asset `a`. -/
def Store.totalAsset (s : Store) (a : AssetId) : Int :=
  (s.db.map (fun p => (p.2.assets.get? a).getD 0)).sum

/-- Sum of the remaining sizes of the orders of a list. -/
def sumSizes (l : List Order) : Int := (l.map (fun o => o.size)).sum

/-- Sum of `limit × remaining` over the orders of a list. -/
def sumReserved (l : List Order) : Int := (l.map (fun o => o.limit * o.size)).sum

/-! ## Data of the Go tests -/

/-- A user of the Go tests: cash 10000, 100 units of COIN, the given orders on record. -/
def testUser (userId : UserId) (orders : List Order) : UserData :=
  { userId := userId, cash := 10000, assets := [("COIN", 100)],
    orders := orders.map (fun o => (o.orderId, o)) }

/-- Go test helper `setupTestData`: users `userId1` and `userId2` holding the given orders. -/
def setupTestData (orders1 orders2 : List Order) : Store :=
  { db := [("userId1", testUser "userId1" orders1), ("userId2", testUser "userId2" orders2)] }

/-- A WORKING order for COIN as the Go tests build them. -/
def testOrder (orderId : OrderId) (userId : UserId) (limit size side : Int) : Order :=
  { orderId := orderId, userId := userId, limit := limit, assetId := "COIN", size := size,
    buyOrSell := side, eventAt := 0, status := Working, filled := 0 }

/-- A list is non-increasing by limit (the BUY side rule). -/
def BuySorted (l : List Order) : Prop := l.Pairwise (fun x y => x.limit ≥ y.limit)

/-- A list is non-decreasing by limit (the SELL side rule). -/
def SellSorted (l : List Order) : Prop := l.Pairwise (fun x y => x.limit ≤ y.limit)

/-- Price-time priority between neighbours of a BUY list: strictly better price, or the same
price and arrival no later. -/
def BuyPriority (x y : Order) : Prop :=
  x.limit > y.limit ∨ (x.limit = y.limit ∧ x.eventAt ≤ y.eventAt)

/-- Price-time priority between neighbours of a SELL list. -/
def SellPriority (x y : Order) : Prop :=
  x.limit < y.limit ∨ (x.limit = y.limit ∧ x.eventAt ≤ y.eventAt)

/-- The book of an asset as `getOrderBook` returns it (empty when the asset has none yet). -/
def OrderBooks.bookOf (ob : OrderBooks) (a : AssetId) : OrderBook := (getOrderBook ob a).2

/-- The list `ExecuteOrder` inserts the residual of `o` into: the buy list for a BUY order,
the sell list otherwise. -/
def OrderBook.sameSide (b : OrderBook) (o : Order) : List Order :=
  if o.buyOrSell = BUY then b.BuyList else b.SellList

/-- The list `ExecuteOrder` matches `o` against: the sell list for a BUY order, the buy list
otherwise. -/
def OrderBook.oppositeSide (b : OrderBook) (o : Order) : List Order :=
  if o.buyOrSell = BUY then b.SellList else b.BuyList

/-- The `orderType` constant `ExecuteOrder` passes to `executeOrder` for `o`. -/
def matchSide (o : Order) : Int := if o.buyOrSell = BUY then BUY else SELL

/-- Sum of `limit × remaining` over the orders of a list owned by user `v`. -/
def sumReservedOf (v : UserId) (l : List Order) : Int :=
  (l.map (fun o => if o.userId = v then o.limit * o.size else 0)).sum

/-- The stored record of an order after a fill: status replaced, `filled` increased. -/
def Order.fill (r : Order) (st : OrderStatus) (n : Int) : Order :=
  { r with status := st, filled := r.filled + n }

/-- What one `UpdateUserAsset` call for `order` does to the store: a SELL order credits cash
by `getTotalAssetCost price trade`, any other order credits inventory by `trade`; the order's record gets the
new status and `filled`; nothing else moves. -/
structure FillEffect (s s' : Store) (order : Order) (price trade : Int) (st : OrderStatus) :
    Prop where
  hasUser : ∀ v, s'.hasUser v ↔ s.hasUser v
  orderOf : ∀ v oid, s'.orderOf v oid =
    if v = order.userId ∧ oid = order.orderId then (s.orderOf v oid).fill st trade
    else s.orderOf v oid
  cashOf : ∀ v, s'.cashOf v =
    s.cashOf v +
      if order.buyOrSell = SELL ∧ v = order.userId then getTotalAssetCost price trade else 0
  assetOf : ∀ v a, s'.assetOf v a =
    s.assetOf v a +
      if order.buyOrSell ≠ SELL ∧ v = order.userId ∧ a = order.assetId then trade else 0
  totalCash : s'.totalCash =
    s.totalCash + if order.buyOrSell = SELL then getTotalAssetCost price trade else 0
  totalAsset : ∀ a, s'.totalAsset a =
    s.totalAsset a + if order.buyOrSell ≠ SELL ∧ a = order.assetId then trade else 0

/-- Outcome of `executeOrder` on a resting list `l` for the incoming order `new`, from store
`s` to the result `r`: a prefix `done` of `l` is filled completely and removed, at most the next
order is filled in part and stays at the head with the rest `k` of its size, the orders behind
it are untouched; the store records follow (`Order.fill`). -/
structure MatchShape (l : List Order) (new : Order) (s : Store)
    (r : List Order × Order × Store) : Prop where
  size_nonneg : 0 ≤ r.2.1.size
  size_le : r.2.1.size ≤ new.size
  incoming : r.2.2.orderOf new.userId new.orderId =
    if r.2.1.size = new.size then s.orderOf new.userId new.orderId
    else (s.orderOf new.userId new.orderId).fill
      (if r.2.1.size = 0 then Complete else Working) (new.size - r.2.1.size)
  others : ∀ v oid, oid ≠ new.orderId → (∀ o ∈ l, o.orderId ≠ oid) →
    r.2.2.orderOf v oid = s.orderOf v oid
  split : ∃ done rest, l = done ++ rest ∧
    (∀ o ∈ done, r.2.2.orderOf o.userId o.orderId =
      (s.orderOf o.userId o.orderId).fill Complete o.size) ∧
    ((r.1 = rest ∧
        ∀ o ∈ rest, r.2.2.orderOf o.userId o.orderId = s.orderOf o.userId o.orderId) ∨
     (∃ h t k, rest = h :: t ∧ 0 < k ∧ k < h.size ∧ r.1 = { h with size := k } :: t ∧
        r.2.1.size = 0 ∧
        r.2.2.orderOf h.userId h.orderId =
          (s.orderOf h.userId h.orderId).fill Working (h.size - k) ∧
        ∀ o ∈ t, r.2.2.orderOf o.userId o.orderId = s.orderOf o.userId o.orderId))

/-- One trading iteration of the loop of `executeOrder`: the head of the resting list and the
incoming order as the iteration finds them, the matched price and the traded size. -/
structure Fill where
  resting : Order
  incoming : Order
  price : Int
  size : Int
  deriving DecidableEq, Repr

/-- The trading iterations of the loop of `executeOrder` on a resting list and an incoming
order, in order: while the head is marketable, trade `min` of the two sizes at the matched
price; stop when the incoming order is exhausted, else go on behind the head. -/
def fillsOf (side : Int) : List Order → Order → List Fill
  | [], _ => []
  | h :: t, newOrder =>
    if orderMatchAvailable (h :: t) newOrder side then
      { resting := h, incoming := newOrder, price := getMatchedPrice side h newOrder,
        size := min h.size newOrder.size } ::
        (if newOrder.size - min h.size newOrder.size = 0 then []
         else fillsOf side t { newOrder with size := newOrder.size - min h.size newOrder.size })
    else []

/-- The two `UpdateUserAsset` calls of one trading iteration of the loop of `executeOrder`,
in the order and with the statuses of the branch the iteration takes. -/
def Fill.apply (side : Int) (s : Store) (f : Fill) : Except Fault Store :=
  if f.incoming.size - f.size = 0 then
    match UpdateUserAsset s { f.resting with size := f.resting.size - f.size } f.price f.size
        side (if f.resting.size - f.size = 0 then Complete else Working) with
    | .error e => .error e
    | .ok s =>
      UpdateUserAsset s { f.incoming with size := f.incoming.size - f.size } f.price f.size
        side Complete
  else
    match UpdateUserAsset s { f.incoming with size := f.incoming.size - f.size } f.price f.size
        side Working with
    | .error e => .error e
    | .ok s =>
      UpdateUserAsset s { f.resting with size := f.resting.size - f.size } f.price f.size
        side Complete

/-- The store updates of a sequence of fills, one after the other. -/
def applyFills (side : Int) : Store → List Fill → Except Fault Store
  | s, [] => .ok s
  | s, f :: fs =>
    match Fill.apply side s f with
    | .error e => .error e
    | .ok s => applyFills side s fs

/-- The book is not crossed: a side is empty, or the best bid is strictly below the best
ask. -/
def OrderBook.Uncrossed (b : OrderBook) : Prop :=
  b.BuyList = [] ∨ b.SellList = [] ∨
    (GetTopOrder b.BuyList).limit < (GetTopOrder b.SellList).limit

/-- Whether the limit of a resting order is marketable against the incoming order: at most
the incoming limit for an incoming BUY, at least the incoming limit otherwise. -/
def marketable (side : Int) (newOrder o : Order) : Bool :=
  if side = BUY then decide (o.limit ≤ newOrder.limit) else decide (o.limit ≥ newOrder.limit)

/-- Sum of the sizes of the resting orders whose limit is marketable against the incoming
order. -/
def marketableSize (side : Int) (l : List Order) (newOrder : Order) : Int :=
  sumSizes (l.filter (marketable side newOrder))

/-- The side rule of the list an incoming order of the given side is matched against: the
SELL rule for an incoming BUY, the BUY rule otherwise. -/
def OppositeSorted (side : Int) (l : List Order) : Prop :=
  if side = BUY then SellSorted l else BuySorted l

/-! ## Insertion keeps the side ordering -/

theorem scanBuy_cons (o t : Order) (rest : List Order) :
    AddOrder.scanBuy o (t :: rest) =
      t :: (rest.takeWhile (fun x => decide (x.limit ≥ o.limit)) ++
        o :: rest.dropWhile (fun x => decide (x.limit ≥ o.limit))) := by
  induction rest generalizing t with
  | nil => simp [AddOrder.scanBuy]
  | cons n rest ih =>
    by_cases h : o.limit > n.limit
    · have h' : ¬ n.limit ≥ o.limit := by omega
      simp [AddOrder.scanBuy, h, List.takeWhile_cons, List.dropWhile_cons, h']
    · have h' : n.limit ≥ o.limit := by omega
      simp [AddOrder.scanBuy, h, List.takeWhile_cons, List.dropWhile_cons, h', ih n]

theorem scanSell_cons (o t : Order) (rest : List Order) :
    AddOrder.scanSell o (t :: rest) =
      t :: (rest.takeWhile (fun x => decide (x.limit ≤ o.limit)) ++
        o :: rest.dropWhile (fun x => decide (x.limit ≤ o.limit))) := by
  induction rest generalizing t with
  | nil => simp [AddOrder.scanSell]
  | cons n rest ih =>
    by_cases h : o.limit < n.limit
    · have h' : ¬ n.limit ≤ o.limit := by omega
      simp [AddOrder.scanSell, h, List.takeWhile_cons, List.dropWhile_cons, h']
    · have h' : n.limit ≤ o.limit := by omega
      simp [AddOrder.scanSell, h, List.takeWhile_cons, List.dropWhile_cons, h', ih n]

/-- Closed form of `AddOrder` for a BUY order: after the longest prefix of limits `≥` its own. -/
theorem AddOrder_buy_eq (l : List Order) (o : Order) (hs : o.buyOrSell = BUY) :
    AddOrder l o = l.takeWhile (fun x => decide (x.limit ≥ o.limit)) ++
      o :: l.dropWhile (fun x => decide (x.limit ≥ o.limit)) := by
  cases l with
  | nil => simp [AddOrder]
  | cons front rest =>
    by_cases h : o.limit > front.limit
    · have h' : ¬ front.limit ≥ o.limit := by omega
      simp [AddOrder, hs, h, List.takeWhile_cons, List.dropWhile_cons, h']
    · have h' : front.limit ≥ o.limit := by omega
      simp [AddOrder, hs, h, List.takeWhile_cons, List.dropWhile_cons, h', scanBuy_cons]

/-- Closed form of `AddOrder` for a non-BUY order: after the longest prefix of limits `≤` its
own. -/
theorem AddOrder_sell_eq (l : List Order) (o : Order) (hs : o.buyOrSell ≠ BUY) :
    AddOrder l o = l.takeWhile (fun x => decide (x.limit ≤ o.limit)) ++
      o :: l.dropWhile (fun x => decide (x.limit ≤ o.limit)) := by
  cases l with
  | nil => simp [AddOrder]
  | cons front rest =>
    by_cases h : o.limit < front.limit
    · have h' : ¬ front.limit ≤ o.limit := by omega
      simp [AddOrder, hs, h, List.takeWhile_cons, List.dropWhile_cons, h']
    · have h' : front.limit ≤ o.limit := by omega
      simp [AddOrder, hs, h, List.takeWhile_cons, List.dropWhile_cons, h', scanSell_cons]

theorem BuySorted.dropWhile_lt {l : List Order} (h : BuySorted l) (c : Int) :
    ∀ y ∈ l.dropWhile (fun x => decide (x.limit ≥ c)), y.limit < c := by
  induction l with
  | nil => simp
  | cons a l ih =>
    have hp := List.pairwise_cons.1 h
    by_cases ha : a.limit ≥ c
    · simpa [List.dropWhile_cons, ha] using ih hp.2
    · intro y hy
      simp only [List.dropWhile_cons, ha, decide_False] at hy
      rcases List.mem_cons.1 hy with rfl | hy
      · omega
      · have := hp.1 y hy
        omega

theorem SellSorted.dropWhile_gt {l : List Order} (h : SellSorted l) (c : Int) :
    ∀ y ∈ l.dropWhile (fun x => decide (x.limit ≤ c)), c < y.limit := by
  induction l with
  | nil => simp
  | cons a l ih =>
    have hp := List.pairwise_cons.1 h
    by_cases ha : a.limit ≤ c
    · simpa [List.dropWhile_cons, ha] using ih hp.2
    · intro y hy
      simp only [List.dropWhile_cons, ha, decide_False] at hy
      rcases List.mem_cons.1 hy with rfl | hy
      · omega
      · have := hp.1 y hy
        omega

theorem takeWhile_ge_limit (l : List Order) (c : Int) :
    ∀ x ∈ l.takeWhile (fun x => decide (x.limit ≥ c)), x.limit ≥ c := by
  intro x hx
  simpa using List.mem_takeWhile_imp hx

theorem takeWhile_le_limit (l : List Order) (c : Int) :
    ∀ x ∈ l.takeWhile (fun x => decide (x.limit ≤ c)), x.limit ≤ c := by
  intro x hx
  simpa using List.mem_takeWhile_imp hx

theorem AddOrder_buy_sorted (l : List Order) (o : Order) (hs : o.buyOrSell = BUY)
    (h : BuySorted l) : BuySorted (AddOrder l o) := by
  rw [AddOrder_buy_eq l o hs]
  have hsplit := List.takeWhile_append_dropWhile (fun x : Order => decide (x.limit ≥ o.limit)) l
  have h' : BuySorted (l.takeWhile (fun x => decide (x.limit ≥ o.limit)) ++
      l.dropWhile (fun x => decide (x.limit ≥ o.limit))) := by rw [hsplit]; exact h
  have hp := List.pairwise_append.1 h'
  have htw := takeWhile_ge_limit l o.limit
  have hdw := h.dropWhile_lt o.limit
  refine List.pairwise_append.2 ⟨hp.1, List.pairwise_cons.2 ⟨?_, hp.2.1⟩, ?_⟩
  · intro y hy
    have := hdw y hy
    omega
  · intro x hx y hy
    rcases List.mem_cons.1 hy with rfl | hy
    · exact htw x hx
    · exact hp.2.2 x hx y hy

theorem AddOrder_sell_sorted (l : List Order) (o : Order) (hs : o.buyOrSell ≠ BUY)
    (h : SellSorted l) : SellSorted (AddOrder l o) := by
  rw [AddOrder_sell_eq l o hs]
  have hsplit := List.takeWhile_append_dropWhile (fun x : Order => decide (x.limit ≤ o.limit)) l
  have h' : SellSorted (l.takeWhile (fun x => decide (x.limit ≤ o.limit)) ++
      l.dropWhile (fun x => decide (x.limit ≤ o.limit))) := by rw [hsplit]; exact h
  have hp := List.pairwise_append.1 h'
  have htw := takeWhile_le_limit l o.limit
  have hdw := h.dropWhile_gt o.limit
  refine List.pairwise_append.2 ⟨hp.1, List.pairwise_cons.2 ⟨?_, hp.2.1⟩, ?_⟩
  · intro y hy
    have := hdw y hy
    omega
  · intro x hx y hy
    rcases List.mem_cons.1 hy with rfl | hy
    · exact htw x hx
    · exact hp.2.2 x hx y hy

theorem foldl_AddOrder_buy_sorted (os : List Order) (hos : ∀ o ∈ os, o.buyOrSell = BUY)
    (l : List Order) (h : BuySorted l) : BuySorted (os.foldl AddOrder l) := by
  induction os generalizing l with
  | nil => simpa using h
  | cons o os ih =>
    simp only [List.foldl_cons]
    exact ih (fun x hx => hos x (List.mem_cons_of_mem _ hx)) _
      (AddOrder_buy_sorted l o (hos o (List.mem_cons_self _ _)) h)

theorem foldl_AddOrder_sell_sorted (os : List Order) (hos : ∀ o ∈ os, o.buyOrSell = SELL)
    (l : List Order) (h : SellSorted l) : SellSorted (os.foldl AddOrder l) := by
  induction os generalizing l with
  | nil => simpa using h
  | cons o os ih =>
    simp only [List.foldl_cons]
    have hne : o.buyOrSell ≠ BUY := by rw [hos o (List.mem_cons_self _ _)]; decide
    exact ih (fun x hx => hos x (List.mem_cons_of_mem _ hx)) _ (AddOrder_sell_sorted l o hne h)

/-- C1: `AddOrder` keeps a BUY list non-increasing by limit and a SELL list non-decreasing by
limit, so any sequence of same-side `AddOrder` calls from the empty list gives a sorted
list. -/
theorem AddOrder_preserves_price_order :
    (∀ (l : List Order) (o : Order), o.buyOrSell = BUY → BuySorted l →
        BuySorted (AddOrder l o)) ∧
    (∀ (l : List Order) (o : Order), o.buyOrSell = SELL → SellSorted l →
        SellSorted (AddOrder l o)) ∧
    (∀ os : List Order, (∀ o ∈ os, o.buyOrSell = BUY) →
        BuySorted (os.foldl AddOrder newOrdersList)) ∧
    (∀ os : List Order, (∀ o ∈ os, o.buyOrSell = SELL) →
        SellSorted (os.foldl AddOrder newOrdersList)) := by
  refine ⟨fun l o hs h => AddOrder_buy_sorted l o hs h, fun l o hs h => ?_, fun os hos => ?_,
    fun os hos => ?_⟩
  · exact AddOrder_sell_sorted l o (by rw [hs]; decide) h
  · exact foldl_AddOrder_buy_sorted os hos _ List.Pairwise.nil
  · exact foldl_AddOrder_sell_sorted os hos _ List.Pairwise.nil

/-- C1, instance: inserting a BUY at 300 into the sorted BUY list 400, 200. -/
theorem AddOrder_preserves_price_order_witness :
    BuySorted [testOrder "4" "userId1" 400 1 BUY, testOrder "2" "userId1" 200 1 BUY] ∧
    BuySorted (AddOrder [testOrder "4" "userId1" 400 1 BUY, testOrder "2" "userId1" 200 1 BUY]
      (testOrder "3" "userId1" 300 1 BUY)) :=
  ⟨by unfold BuySorted; decide,
   AddOrder_preserves_price_order.1 _ (testOrder "3" "userId1" 300 1 BUY) (by decide)
    (by unfold BuySorted; decide)⟩

/-! ## Ties are broken first-in first-out -/

theorem BuyPriority.limit_ge {x y : Order} (h : BuyPriority x y) : x.limit ≥ y.limit := by
  rcases h with h | ⟨h, _⟩ <;> omega

theorem SellPriority.limit_le {x y : Order} (h : SellPriority x y) : x.limit ≤ y.limit := by
  rcases h with h | ⟨h, _⟩ <;> omega

theorem buySorted_of_chain {l : List Order} (h : l.Chain' BuyPriority) : BuySorted l := by
  induction l with
  | nil => exact List.Pairwise.nil
  | cons a l ih =>
    have hc := List.chain'_cons'.1 h
    have hl := ih hc.2
    refine List.pairwise_cons.2 ⟨?_, hl⟩
    intro y hy
    cases l with
    | nil => cases hy
    | cons b l =>
      have hab : a.limit ≥ b.limit := (hc.1 b (by simp)).limit_ge
      rcases List.mem_cons.1 hy with rfl | hy
      · exact hab
      · have := (List.pairwise_cons.1 hl).1 y hy
        omega

theorem sellSorted_of_chain {l : List Order} (h : l.Chain' SellPriority) : SellSorted l := by
  induction l with
  | nil => exact List.Pairwise.nil
  | cons a l ih =>
    have hc := List.chain'_cons'.1 h
    have hl := ih hc.2
    refine List.pairwise_cons.2 ⟨?_, hl⟩
    intro y hy
    cases l with
    | nil => cases hy
    | cons b l =>
      have hab : a.limit ≤ b.limit := (hc.1 b (by simp)).limit_le
      rcases List.mem_cons.1 hy with rfl | hy
      · exact hab
      · have := (List.pairwise_cons.1 hl).1 y hy
        omega

theorem AddOrder_buy_priority (l : List Order) (o : Order) (hs : o.buyOrSell = BUY)
    (h : l.Chain' BuyPriority) (ht : ∀ x ∈ l, x.eventAt ≤ o.eventAt) :
    (AddOrder l o).Chain' BuyPriority := by
  rw [AddOrder_buy_eq l o hs]
  have hsorted := buySorted_of_chain h
  refine List.chain'_split.2 ⟨List.chain'_append.2 ⟨?_, List.chain'_singleton _, ?_⟩,
    List.chain'_cons'.2 ⟨?_, ?_⟩⟩
  · exact h.prefix (List.takeWhile_prefix _)
  · intro x hx y hy
    have hxm := List.mem_of_mem_getLast? hx
    have hxl : x ∈ l := (List.takeWhile_prefix _).subset hxm
    have hge := takeWhile_ge_limit l o.limit x hxm
    have hte := ht x hxl
    simp only [List.head?_cons, Option.mem_def, Option.some.injEq] at hy
    subst hy
    rcases lt_or_eq_of_le hge with hlt | heq
    · exact Or.inl hlt
    · exact Or.inr ⟨heq.symm, hte⟩
  · intro y hy
    exact Or.inl (hsorted.dropWhile_lt o.limit y (List.mem_of_mem_head? hy))
  · exact h.suffix (List.dropWhile_suffix _)

theorem AddOrder_sell_priority (l : List Order) (o : Order) (hs : o.buyOrSell ≠ BUY)
    (h : l.Chain' SellPriority) (ht : ∀ x ∈ l, x.eventAt ≤ o.eventAt) :
    (AddOrder l o).Chain' SellPriority := by
  rw [AddOrder_sell_eq l o hs]
  have hsorted := sellSorted_of_chain h
  refine List.chain'_split.2 ⟨List.chain'_append.2 ⟨?_, List.chain'_singleton _, ?_⟩,
    List.chain'_cons'.2 ⟨?_, ?_⟩⟩
  · exact h.prefix (List.takeWhile_prefix _)
  · intro x hx y hy
    have hxm := List.mem_of_mem_getLast? hx
    have hxl : x ∈ l := (List.takeWhile_prefix _).subset hxm
    have hle := takeWhile_le_limit l o.limit x hxm
    have hte := ht x hxl
    simp only [List.head?_cons, Option.mem_def, Option.some.injEq] at hy
    subst hy
    rcases lt_or_eq_of_le hle with hlt | heq
    · exact Or.inl hlt
    · exact Or.inr ⟨heq, hte⟩
  · intro y hy
    exact Or.inl (hsorted.dropWhile_gt o.limit y (List.mem_of_mem_head? hy))
  · exact h.suffix (List.dropWhile_suffix _)

/-- C2: `AddOrder` breaks ties first-in first-out. On a sorted list the new order lands after
every resting order whose limit is equal to or better than its own and directly before the
orders with a strictly worse limit (BUY limits 4,2,1 plus a new 2 give 4,2,2,1 with the new
order second among the 2s). Hence a list in price-time priority stays so when the new order
arrived no earlier than every resting order. -/
theorem AddOrder_fifo_ties :
    (∀ (l : List Order) (o : Order), o.buyOrSell = BUY → BuySorted l →
      ∃ pre post, l = pre ++ post ∧ AddOrder l o = pre ++ o :: post ∧
        (∀ x ∈ pre, x.limit ≥ o.limit) ∧ (∀ y ∈ post, y.limit < o.limit)) ∧
    (∀ (l : List Order) (o : Order), o.buyOrSell = SELL → SellSorted l →
      ∃ pre post, l = pre ++ post ∧ AddOrder l o = pre ++ o :: post ∧
        (∀ x ∈ pre, x.limit ≤ o.limit) ∧ (∀ y ∈ post, y.limit > o.limit)) ∧
    (∀ (l : List Order) (o : Order), o.buyOrSell = BUY → l.Chain' BuyPriority →
      (∀ x ∈ l, x.eventAt ≤ o.eventAt) → (AddOrder l o).Chain' BuyPriority) ∧
    (∀ (l : List Order) (o : Order), o.buyOrSell = SELL → l.Chain' SellPriority →
      (∀ x ∈ l, x.eventAt ≤ o.eventAt) → (AddOrder l o).Chain' SellPriority) ∧
    (AddOrder
        [{ Order.zero with orderId := "a", limit := 4 },
         { Order.zero with orderId := "b", limit := 2 },
         { Order.zero with orderId := "c", limit := 1 }]
        { Order.zero with orderId := "new", limit := 2 }).map (fun x => (x.orderId, x.limit))
      = [("a", 4), ("b", 2), ("new", 2), ("c", 1)] := by
  refine ⟨fun l o hs h => ?_, fun l o hs h => ?_, fun l o hs h ht => ?_, fun l o hs h ht => ?_,
    by decide⟩
  · exact ⟨_, _, (List.takeWhile_append_dropWhile _ l).symm, AddOrder_buy_eq l o hs,
      takeWhile_ge_limit l o.limit, h.dropWhile_lt o.limit⟩
  · exact ⟨_, _, (List.takeWhile_append_dropWhile _ l).symm,
      AddOrder_sell_eq l o (by rw [hs]; decide),
      takeWhile_le_limit l o.limit, h.dropWhile_gt o.limit⟩
  · exact AddOrder_buy_priority l o hs h ht
  · exact AddOrder_sell_priority l o (by rw [hs]; decide) h ht

/-- C2, instance: a BUY at 2 arriving at time 5 joins the list 4, 2, 1 (arrivals 1, 2, 3) and
price-time priority still holds. -/
theorem AddOrder_fifo_ties_witness :
    (AddOrder
      [{ testOrder "a" "userId1" 4 1 BUY with eventAt := 1 },
       { testOrder "b" "userId1" 2 1 BUY with eventAt := 2 },
       { testOrder "c" "userId1" 1 1 BUY with eventAt := 3 }]
      { testOrder "new" "userId1" 2 1 BUY with eventAt := 5 }).Chain' BuyPriority :=
  AddOrder_fifo_ties.2.2.1 _ { testOrder "new" "userId1" 2 1 BUY with eventAt := 5 } (by decide)
    (by simp [BuyPriority, testOrder]) (by decide)

/-! ## Marketability -/

/-- C3: `orderMatchAvailable` holds exactly when the list has a head and either the side is
BUY with the head's limit at most the new order's, or the side is SELL with the head's limit
at least the new order's; it is false on the empty list. -/
theorem orderMatchAvailable_iff :
    (∀ (l : List Order) (newOrder : Order) (side : Int),
      orderMatchAvailable l newOrder side = true ↔
        ∃ head rest, l = head :: rest ∧
          ((side = BUY ∧ head.limit ≤ newOrder.limit) ∨
           (side = SELL ∧ head.limit ≥ newOrder.limit))) ∧
    (∀ (newOrder : Order) (side : Int), orderMatchAvailable [] newOrder side = false) := by
  constructor
  · intro l newOrder side
    cases l with
    | nil => simp [orderMatchAvailable, isEmpty]
    | cons head rest => simp [orderMatchAvailable, isEmpty, GetTopOrder]
  · intro newOrder side
    simp [orderMatchAvailable, isEmpty]

/-! ## Go maps and the store primitives -/

theorem GoMap.get?_set_self {κ ν : Type} [DecidableEq κ] (m : GoMap κ ν) (k : κ) (v : ν) :
    GoMap.get? (GoMap.set m k v) k = some v := by
  induction m with
  | nil => simp [GoMap.set, GoMap.get?]
  | cons p m ih =>
    obtain ⟨k', v'⟩ := p
    by_cases h : k' = k
    · simp [GoMap.set, GoMap.get?, h]
    · simp [GoMap.set, GoMap.get?, h, ih]

theorem GoMap.get?_set_ne {κ ν : Type} [DecidableEq κ] (m : GoMap κ ν) (k k₂ : κ) (v : ν)
    (hne : k₂ ≠ k) : GoMap.get? (GoMap.set m k v) k₂ = GoMap.get? m k₂ := by
  induction m with
  | nil => simp [GoMap.set, GoMap.get?, Ne.symm hne]
  | cons p m ih =>
    obtain ⟨k', v'⟩ := p
    by_cases h : k' = k
    · subst h
      simp [GoMap.set, GoMap.get?, Ne.symm hne]
    · by_cases h2 : k' = k₂
      · subst h2
        simp [GoMap.set, GoMap.get?, h]
      · simp [GoMap.set, GoMap.get?, h, h2, ih]

theorem GoMap.sum_set {κ ν : Type} [DecidableEq κ] (f : ν → Int) (m : GoMap κ ν) (k : κ)
    (v₀ v : ν) (h : GoMap.get? m k = some v₀) :
    ((GoMap.set m k v).map (fun p => f p.2)).sum = (m.map (fun p => f p.2)).sum - f v₀ + f v := by
  induction m with
  | nil => simp [GoMap.get?] at h
  | cons p m ih =>
    obtain ⟨k', v'⟩ := p
    by_cases hk : k' = k
    · simp only [GoMap.get?, hk, if_true, Option.some.injEq] at h
      subst h
      simp [GoMap.set, hk]
      omega
    · simp only [GoMap.get?, hk, if_false] at h
      simp [GoMap.set, hk, ih h]
      omega

theorem GetUserData_set (s : Store) (u v : UserId) (ud : UserData) :
    GetUserData { db := GoMap.set s.db u ud } v = if v = u then ud else GetUserData s v := by
  by_cases h : v = u
  · subst h
    simp [GetUserData, GoMap.get?_set_self]
  · simp [GetUserData, GoMap.get?_set_ne _ _ _ _ h, h]

theorem hasUser_set (s : Store) (u v : UserId) (ud : UserData) (hu : s.hasUser u) :
    Store.hasUser { db := GoMap.set s.db u ud } v ↔ s.hasUser v := by
  by_cases h : v = u
  · subst h
    simp [Store.hasUser, GoMap.get?_set_self] at hu ⊢
    exact hu
  · simp [Store.hasUser, GoMap.get?_set_ne _ _ _ _ h]

theorem hasUser_iff (s : Store) (u : UserId) :
    s.hasUser u ↔ ∃ ud, GoMap.get? s.db u = some ud := by
  simp [Store.hasUser, Option.isSome_iff_exists]

theorem orderOf_set (s : Store) (u v : UserId) (ud : UserData) (oid : OrderId) :
    Store.orderOf { db := GoMap.set s.db u ud } v oid =
      if v = u then (GoMap.get? ud.orders oid).getD Order.zero else s.orderOf v oid := by
  simp only [Store.orderOf, GetUserData_set]
  split <;> rfl

theorem cashOf_set (s : Store) (u v : UserId) (ud : UserData) :
    Store.cashOf { db := GoMap.set s.db u ud } v = if v = u then ud.cash else s.cashOf v := by
  simp only [Store.cashOf, GetUserData_set]
  split <;> rfl

theorem assetOf_set (s : Store) (u v : UserId) (ud : UserData) (a : AssetId) :
    Store.assetOf { db := GoMap.set s.db u ud } v a =
      if v = u then (GoMap.get? ud.assets a).getD 0 else s.assetOf v a := by
  simp only [Store.assetOf, GetUserData_set]
  split <;> rfl

theorem UpdateUserAssetOnSuccessSell_effect (s : Store) (order : Order) (price trade : Int)
    (st : OrderStatus) (hs : order.buyOrSell = SELL) (hu : s.hasUser order.userId) :
    ∃ s', UpdateUserAssetOnSuccessSell s order.userId order.orderId
        (getTotalAssetCost price trade) st trade = .ok s' ∧
      FillEffect s s' order price trade st := by
  obtain ⟨ud, hud⟩ := (hasUser_iff s order.userId).1 hu
  have hval : UpdateUserAssetOnSuccessSell s order.userId order.orderId
      (getTotalAssetCost price trade) st trade =
      .ok {
        db := GoMap.set s.db order.userId
          { ud with
            cash := ud.cash + getTotalAssetCost price trade,
            orders := GoMap.set ud.orders order.orderId
              (((GoMap.get? ud.orders order.orderId).getD Order.zero).fill st trade) } } := by
    simp only [UpdateUserAssetOnSuccessSell, hud]
    rfl
  refine ⟨_, hval, ?_⟩
  have hget : GetUserData s order.userId = ud := by simp [GetUserData, hud]
  refine ⟨fun v => hasUser_set s _ v _ hu, ?_, ?_, ?_, ?_, ?_⟩
  · intro v oid
    rw [orderOf_set]
    by_cases hv : v = order.userId
    · subst hv
      by_cases ho : oid = order.orderId
      · subst ho
        simp [GoMap.get?_set_self, Store.orderOf, hget, Order.fill]
      · simp [GoMap.get?_set_ne _ _ _ _ ho, Store.orderOf, hget, ho]
    · simp [hv]
  · intro v
    rw [cashOf_set]
    by_cases hv : v = order.userId
    · subst hv
      simp [hs, Store.cashOf, hget, getTotalAssetCost]
    · simp [hv]
  · intro v a
    rw [assetOf_set]
    by_cases hv : v = order.userId
    · subst hv
      simp [hs, Store.assetOf, hget]
    · simp [hv]
  · simp only [Store.totalCash, hs, if_true]
    rw [GoMap.sum_set (fun ud => ud.cash) s.db order.userId ud _ hud]
    simp only [getTotalAssetCost]
    ring
  · intro a
    simp only [Store.totalAsset, hs, ne_eq, not_true_eq_false, false_and, if_false, add_zero]
    rw [GoMap.sum_set (fun ud => (GoMap.get? ud.assets a).getD 0) s.db order.userId ud _ hud]
    simp

theorem UpdateUserAssetOnSuccessBuy_effect (s : Store) (order : Order) (price trade : Int)
    (st : OrderStatus) (hs : order.buyOrSell ≠ SELL) (hu : s.hasUser order.userId) :
    ∃ s', UpdateUserAssetOnSuccessBuy s order.userId order.assetId order.orderId trade st
        = .ok s' ∧
      FillEffect s s' order price trade st := by
  obtain ⟨ud, hud⟩ := (hasUser_iff s order.userId).1 hu
  have hval : UpdateUserAssetOnSuccessBuy s order.userId order.assetId order.orderId trade st
      =
      .ok {
        db := GoMap.set s.db order.userId
          { ud with
            assets := GoMap.set ud.assets order.assetId
              ((GoMap.get? ud.assets order.assetId).getD 0 + trade),
            orders := GoMap.set ud.orders order.orderId
              (((GoMap.get? ud.orders order.orderId).getD Order.zero).fill st trade) } } := by
    simp only [UpdateUserAssetOnSuccessBuy, hud]
    rfl
  refine ⟨_, hval, ?_⟩
  have hget : GetUserData s order.userId = ud := by simp [GetUserData, hud]
  refine ⟨fun v => hasUser_set s _ v _ hu, ?_, ?_, ?_, ?_, ?_⟩
  · intro v oid
    rw [orderOf_set]
    by_cases hv : v = order.userId
    · subst hv
      by_cases ho : oid = order.orderId
      · subst ho
        simp [GoMap.get?_set_self, Store.orderOf, hget, Order.fill]
      · simp [GoMap.get?_set_ne _ _ _ _ ho, Store.orderOf, hget, ho]
    · simp [hv]
  · intro v
    rw [cashOf_set]
    by_cases hv : v = order.userId
    · subst hv
      simp [hs, Store.cashOf, hget]
    · simp [hv]
  · intro v a
    rw [assetOf_set]
    by_cases hv : v = order.userId
    · subst hv
      by_cases ha : a = order.assetId
      · subst ha
        simp [hs, Store.assetOf, hget, GoMap.get?_set_self]
      · simp [hs, Store.assetOf, hget, GoMap.get?_set_ne _ _ _ _ ha, ha]
    · simp [hv]
  · simp only [Store.totalCash, hs, if_false, add_zero]
    rw [GoMap.sum_set (fun ud => ud.cash) s.db order.userId ud _ hud]
    simp
  · intro a
    simp only [Store.totalAsset]
    rw [GoMap.sum_set (fun ud => (GoMap.get? ud.assets a).getD 0) s.db order.userId ud _ hud]
    by_cases ha : a = order.assetId
    · subst ha
      simp [hs, GoMap.get?_set_self]
      omega
    · simp [hs, GoMap.get?_set_ne _ _ _ _ ha, ha]

/-- Effect of `UpdateUserAsset` when called, as `executeOrder` does, with `orderType` BUY or
SELL, for an order whose owner has a record. -/
theorem UpdateUserAsset_effect (s : Store) (order : Order) (price trade : Int)
    (side : Int) (st : OrderStatus) (hside : side = BUY ∨ side = SELL)
    (hu : s.hasUser order.userId) :
    ∃ s', UpdateUserAsset s order price trade side st = .ok s' ∧
      FillEffect s s' order price trade st := by
  by_cases hs : order.buyOrSell = SELL
  · have hc : (side = BUY ∧ order.buyOrSell = SELL) ∨ (side = SELL ∧ order.buyOrSell = SELL) := by
      rcases hside with h | h
      · exact Or.inl ⟨h, hs⟩
      · exact Or.inr ⟨h, hs⟩
    simp only [UpdateUserAsset, hc, if_true]
    exact UpdateUserAssetOnSuccessSell_effect s order price trade st hs hu
  · have hc : ¬((side = BUY ∧ order.buyOrSell = SELL) ∨
        (side = SELL ∧ order.buyOrSell = SELL)) := by
      rintro (h | h) <;> exact hs h.2
    simp only [UpdateUserAsset, hc, if_false]
    exact UpdateUserAssetOnSuccessBuy_effect s order price trade st hs hu

/-! ## The matching loop -/

theorem min_eq_cases (a b : Int) : (a < b ∧ min a b = a) ∨ (b ≤ a ∧ min a b = b) := by
  unfold min
  by_cases h : a < b
  · left; simp [h]
  · right; simp [h]; omega

theorem DeleteOrder_head (h : Order) (t : List Order) : DeleteOrder (h :: t) h.orderId = t := by
  simp [DeleteOrder]

theorem executeOrderLoop_stop (fuel : Nat) (l : List Order) (newOrder : Order) (s : Store)
    (side : Int) (hm : orderMatchAvailable l newOrder side = false) :
    executeOrderLoop (fuel + 1) l newOrder s side = .ok (l, newOrder, s) := by
  simp [executeOrderLoop, hm]

/-- Induction along the loop of `executeOrder`, for stores in which every owner has a record:
the loop returns, and a property established for the exit without a match, for the final
fill of the incoming order, and transported across a fill that exhausts the head, holds of
the result. -/
theorem executeOrderLoop_induct (side : Int) (hside : side = BUY ∨ side = SELL)
    (P : List Order → Order → Store → List Order × Order × Store → Prop)
    (stop : ∀ l newOrder s, orderMatchAvailable l newOrder side = false →
      P l newOrder s (l, newOrder, s))
    (last : ∀ h t newOrder s s1 s2 trade,
      orderMatchAvailable (h :: t) newOrder side = true → trade = min h.size newOrder.size →
      newOrder.size - trade = 0 →
      FillEffect s s1 { h with size := h.size - trade } (getMatchedPrice side h newOrder) trade
        (if h.size - trade = 0 then Complete else Working) →
      FillEffect s1 s2 { newOrder with size := newOrder.size - trade }
        (getMatchedPrice side h newOrder) trade Complete →
      P (h :: t) newOrder s
        (if h.size - trade = 0 then t else UpdateOrder (h :: t) { h with size := h.size - trade },
          { newOrder with size := newOrder.size - trade }, s2))
    (step : ∀ h t newOrder s s1 s2 trade r,
      orderMatchAvailable (h :: t) newOrder side = true → trade = min h.size newOrder.size →
      newOrder.size - trade ≠ 0 →
      FillEffect s s1 { newOrder with size := newOrder.size - trade }
        (getMatchedPrice side h newOrder) trade Working →
      FillEffect s1 s2 { h with size := h.size - trade } (getMatchedPrice side h newOrder) trade
        Complete →
      P t { newOrder with size := newOrder.size - trade } s2 r → P (h :: t) newOrder s r) :
    ∀ (l : List Order) (newOrder : Order) (s : Store) (fuel : Nat), l.length < fuel →
      s.hasUser newOrder.userId → (∀ o ∈ l, s.hasUser o.userId) →
      ∃ r, executeOrderLoop fuel l newOrder s side = .ok r ∧ P l newOrder s r := by
  intro l
  induction l with
  | nil =>
    intro newOrder s fuel hf _ _
    obtain ⟨f, rfl⟩ : ∃ f, fuel = f + 1 := ⟨fuel - 1, by omega⟩
    have hm : orderMatchAvailable [] newOrder side = false := by
      simp [orderMatchAvailable, isEmpty]
    exact ⟨_, executeOrderLoop_stop f [] newOrder s side hm, stop _ _ _ hm⟩
  | cons h t ih =>
    intro newOrder s fuel hf hnew hown
    obtain ⟨f, rfl⟩ : ∃ f, fuel = f + 1 := ⟨fuel - 1, by omega⟩
    have hft : t.length < f := by simpa using hf
    by_cases hm : orderMatchAvailable (h :: t) newOrder side = true
    · have hh : s.hasUser h.userId := hown h (List.mem_cons_self _ _)
      by_cases hz : newOrder.size - min h.size newOrder.size = 0
      · by_cases hz' : h.size - min h.size newOrder.size = 0
        · obtain ⟨s1, e1, f1⟩ := UpdateUserAsset_effect s
            { h with size := h.size - min h.size newOrder.size }
            (getMatchedPrice side h newOrder) (min h.size newOrder.size) side Complete hside hh
          obtain ⟨s2, e2, f2⟩ := UpdateUserAsset_effect s1
            { newOrder with size := newOrder.size - min h.size newOrder.size }
            (getMatchedPrice side h newOrder) (min h.size newOrder.size) side Complete hside
            ((f1.hasUser _).2 hnew)
          have hl := last h t newOrder s s1 s2 _ hm rfl hz (by simpa [hz'] using f1) f2
          simp only [hz', if_true] at hl
          refine ⟨_, ?_, hl⟩
          simp only [hz, hz'] at e1 e2
          simp [executeOrderLoop, hm, GetTopOrder, hz, hz', e1, e2, DeleteOrder]
        · obtain ⟨s1, e1, f1⟩ := UpdateUserAsset_effect s
            { h with size := h.size - min h.size newOrder.size }
            (getMatchedPrice side h newOrder) (min h.size newOrder.size) side Working hside hh
          obtain ⟨s2, e2, f2⟩ := UpdateUserAsset_effect s1
            { newOrder with size := newOrder.size - min h.size newOrder.size }
            (getMatchedPrice side h newOrder) (min h.size newOrder.size) side Complete hside
            ((f1.hasUser _).2 hnew)
          have hl := last h t newOrder s s1 s2 _ hm rfl hz (by simpa [hz'] using f1) f2
          simp only [hz', if_false] at hl
          refine ⟨_, ?_, hl⟩
          simp only [hz] at e2
          simp [executeOrderLoop, hm, GetTopOrder, hz, hz', e1, e2]
      · obtain ⟨s1, e1, f1⟩ := UpdateUserAsset_effect s
          { newOrder with size := newOrder.size - min h.size newOrder.size }
          (getMatchedPrice side h newOrder) (min h.size newOrder.size) side Working hside hnew
        obtain ⟨s2, e2, f2⟩ := UpdateUserAsset_effect s1
          { h with size := h.size - min h.size newOrder.size }
          (getMatchedPrice side h newOrder) (min h.size newOrder.size) side Complete hside
          ((f1.hasUser _).2 hh)
        have hu2 : ∀ v, s2.hasUser v ↔ s.hasUser v := fun v =>
          (f2.hasUser v).trans (f1.hasUser v)
        obtain ⟨r, er, hr⟩ := ih { newOrder with size := newOrder.size - min h.size newOrder.size }
          s2 f hft ((hu2 _).2 hnew)
          (fun o ho => (hu2 _).2 (hown o (List.mem_cons_of_mem _ ho)))
        refine ⟨r, ?_, step h t newOrder s s1 s2 _ r hm rfl hz f1 f2 hr⟩
        simp [executeOrderLoop, hm, GetTopOrder, hz, e1, e2, DeleteOrder, er]
    · have hm' : orderMatchAvailable (h :: t) newOrder side = false := by
        simpa using hm
      exact ⟨_, executeOrderLoop_stop f _ newOrder s side hm', stop _ _ _ hm'⟩

/-- The loop of `executeOrder` returns whenever every owner involved has a record. -/
theorem executeOrder_returns (l : List Order) (newOrder : Order) (s : Store) (side : Int)
    (hside : side = BUY ∨ side = SELL) (hnew : s.hasUser newOrder.userId)
    (hown : ∀ o ∈ l, s.hasUser o.userId) :
    ∃ r, executeOrder l newOrder s side = .ok r := by
  obtain ⟨r, hr, _⟩ := executeOrderLoop_induct side hside (fun _ _ _ _ => True)
    (fun _ _ _ _ => trivial) (fun _ _ _ _ _ _ _ _ _ _ _ _ => trivial)
    (fun _ _ _ _ _ _ _ _ _ _ _ _ _ _ => trivial) l newOrder s (l.length + 1)
    (Nat.lt_succ_self _) hnew hown
  exact ⟨r, hr⟩

/-- Partial-correctness form of `executeOrderLoop_induct` for `executeOrder`. -/
theorem executeOrder_induct (side : Int) (hside : side = BUY ∨ side = SELL)
    (P : List Order → Order → Store → List Order × Order × Store → Prop)
    (stop : ∀ l newOrder s, orderMatchAvailable l newOrder side = false →
      P l newOrder s (l, newOrder, s))
    (last : ∀ h t newOrder s s1 s2 trade,
      orderMatchAvailable (h :: t) newOrder side = true → trade = min h.size newOrder.size →
      newOrder.size - trade = 0 →
      FillEffect s s1 { h with size := h.size - trade } (getMatchedPrice side h newOrder) trade
        (if h.size - trade = 0 then Complete else Working) →
      FillEffect s1 s2 { newOrder with size := newOrder.size - trade }
        (getMatchedPrice side h newOrder) trade Complete →
      P (h :: t) newOrder s
        (if h.size - trade = 0 then t else UpdateOrder (h :: t) { h with size := h.size - trade },
          { newOrder with size := newOrder.size - trade }, s2))
    (step : ∀ h t newOrder s s1 s2 trade r,
      orderMatchAvailable (h :: t) newOrder side = true → trade = min h.size newOrder.size →
      newOrder.size - trade ≠ 0 →
      FillEffect s s1 { newOrder with size := newOrder.size - trade }
        (getMatchedPrice side h newOrder) trade Working →
      FillEffect s1 s2 { h with size := h.size - trade } (getMatchedPrice side h newOrder) trade
        Complete →
      P t { newOrder with size := newOrder.size - trade } s2 r → P (h :: t) newOrder s r)
    (l : List Order) (newOrder : Order) (s : Store) (hnew : s.hasUser newOrder.userId)
    (hown : ∀ o ∈ l, s.hasUser o.userId) (r : List Order × Order × Store)
    (hr : executeOrder l newOrder s side = .ok r) : P l newOrder s r := by
  obtain ⟨r', hr', hP⟩ := executeOrderLoop_induct side hside P stop last step l newOrder s
    (l.length + 1) (Nat.lt_succ_self _) hnew hown
  have : r = r' := by
    have h := hr.symm.trans hr'
    exact Except.ok.inj h
  rw [this]
  exact hP

/-- A fill that does not exhaust the incoming order exhausts the head. -/
theorem trade_eq_head_of_residual {a b trade : Int} (ht : trade = min a b) (hz : b - trade ≠ 0) :
    trade = a ∧ a < b := by
  rcases min_eq_cases a b with ⟨h1, h2⟩ | ⟨h1, h2⟩
  · exact ⟨by rw [ht, h2], h1⟩
  · exfalso; apply hz; rw [ht, h2]; omega

theorem UpdateOrder_head (h : Order) (t : List Order) (x : Int)
    (hnd : ∀ o ∈ t, o.orderId ≠ h.orderId) :
    UpdateOrder (h :: t) { h with size := x } = { h with size := x } :: t := by
  simp only [UpdateOrder, List.map_cons, if_true, List.cons.injEq, true_and]
  have : ∀ o ∈ t, (if o.orderId = h.orderId then { o with size := x } else o) = o := by
    intro o ho
    simp [hnd o ho]
  calc t.map _ = t.map id := List.map_congr_left this
    _ = t := List.map_id t

theorem nodup_ids_cons {h : Order} {t : List Order}
    (hnd : ((h :: t).map (fun o => o.orderId)).Nodup) :
    (∀ o ∈ t, o.orderId ≠ h.orderId) ∧ (t.map (fun o => o.orderId)).Nodup := by
  simp only [List.map_cons, List.nodup_cons, List.mem_map, not_exists, not_and] at hnd
  exact ⟨fun o ho => hnd.1 o ho, hnd.2⟩

/-- The incoming order comes back from `executeOrder` changed in its size only. -/
theorem executeOrder_residual_fields (side : Int) (hside : side = BUY ∨ side = SELL)
    (l : List Order) (newOrder : Order) (s : Store) (hnew : s.hasUser newOrder.userId)
    (hown : ∀ o ∈ l, s.hasUser o.userId) (r : List Order × Order × Store)
    (hr : executeOrder l newOrder s side = .ok r) :
    r.2.1 = { newOrder with size := r.2.1.size } := by
  refine executeOrder_induct side hside
    (fun _ newOrder _ r => r.2.1 = { newOrder with size := r.2.1.size })
    ?_ ?_ ?_ l newOrder s hnew hown r hr
  · intro l newOrder s _
    rfl
  · intro h t newOrder s s1 s2 trade _ _ _ _ _
    rfl
  · intro h t newOrder s s1 s2 trade r _ _ _ _ _ ih
    rw [ih]

/-- The units leaving the resting list are the units taken off the incoming order. -/
theorem executeOrder_sizes (side : Int) (hside : side = BUY ∨ side = SELL)
    (l : List Order) (newOrder : Order) (s : Store) (hnew : s.hasUser newOrder.userId)
    (hown : ∀ o ∈ l, s.hasUser o.userId) (hnd : (l.map (fun o => o.orderId)).Nodup)
    (r : List Order × Order × Store) (hr : executeOrder l newOrder s side = .ok r) :
    sumSizes l - sumSizes r.1 = newOrder.size - r.2.1.size := by
  refine executeOrder_induct side hside
    (fun l newOrder _ r => (l.map (fun o => o.orderId)).Nodup →
      sumSizes l - sumSizes r.1 = newOrder.size - r.2.1.size)
    ?_ ?_ ?_ l newOrder s hnew hown r hr hnd
  · intro l newOrder s _ _
    simp
  · intro h t newOrder s s1 s2 trade _ _ _ _ _ hnd
    by_cases hz : h.size - trade = 0
    · simp only [hz, if_true, sumSizes, List.map_cons, List.sum_cons]
      omega
    · simp only [hz, if_false, UpdateOrder_head h t _ (nodup_ids_cons hnd).1, sumSizes,
        List.map_cons, List.sum_cons]
      omega
  · intro h t newOrder s s1 s2 trade r _ ht hz _ _ ih hnd
    have := ih (nodup_ids_cons hnd).2
    have htr := (trade_eq_head_of_residual ht hz).1
    simp only [sumSizes, List.map_cons, List.sum_cons] at this ⊢
    omega

theorem Order.fill_fill (x : Order) (st₁ st₂ : OrderStatus) (n₁ n₂ : Int) :
    (x.fill st₁ n₁).fill st₂ n₂ = x.fill st₂ (n₁ + n₂) := by
  simp [Order.fill, add_assoc]

/-- Shape of the result of `executeOrder` for distinct order ids and positive sizes. -/
theorem executeOrder_shape (side : Int) (hside : side = BUY ∨ side = SELL)
    (l : List Order) (newOrder : Order) (s : Store) (hnew : s.hasUser newOrder.userId)
    (hown : ∀ o ∈ l, s.hasUser o.userId)
    (hnd : (newOrder.orderId :: l.map (fun o => o.orderId)).Nodup)
    (hpos : ∀ o ∈ l, 0 < o.size) (hsz : 0 < newOrder.size)
    (r : List Order × Order × Store) (hr : executeOrder l newOrder s side = .ok r) :
    MatchShape l newOrder s r := by
  refine executeOrder_induct side hside
    (fun l newOrder s r => (newOrder.orderId :: l.map (fun o => o.orderId)).Nodup →
      (∀ o ∈ l, 0 < o.size) → 0 < newOrder.size → MatchShape l newOrder s r)
    ?_ ?_ ?_ l newOrder s hnew hown r hr hnd hpos hsz
  · intro l newOrder s _ _ _ hsz
    exact ⟨le_of_lt hsz, le_refl _, by simp, fun _ _ _ _ => rfl,
      [], l, rfl, by simp, Or.inl ⟨rfl, fun _ _ => rfl⟩⟩
  · intro h t newOrder s s1 s2 trade _ ht hz f1 f2 hnd hpos hsz
    have hnd' := List.nodup_cons.1 hnd
    have hnh : h.orderId ≠ newOrder.orderId := fun e =>
      hnd'.1 (by simp [e.symm])
    have hndl := nodup_ids_cons hnd'.2
    have hnt : ∀ o ∈ t, o.orderId ≠ newOrder.orderId := fun o ho e =>
      hnd'.1 (by simp only [List.map_cons, List.mem_cons, List.mem_map]; exact Or.inr ⟨o, ho, e⟩)
    have htr : trade = newOrder.size := by omega
    have hhp : 0 < h.size := hpos h (List.mem_cons_self _ _)
    have hle : newOrder.size ≤ h.size := by
      rcases min_eq_cases h.size newOrder.size with ⟨h1, h2⟩ | ⟨h1, _⟩
      · rw [ht, h2] at htr; omega
      · exact h1
    have hrec : ∀ v oid, s2.orderOf v oid =
        if v = newOrder.userId ∧ oid = newOrder.orderId then
          (s.orderOf v oid).fill Complete trade
        else if v = h.userId ∧ oid = h.orderId then
          (s.orderOf v oid).fill (if h.size - trade = 0 then Complete else Working) trade
        else s.orderOf v oid := by
      intro v oid
      rw [f2.orderOf, f1.orderOf]
      by_cases c1 : v = newOrder.userId ∧ oid = newOrder.orderId
      · obtain ⟨rfl, rfl⟩ := c1
        have c2 : ¬(newOrder.userId = h.userId ∧ newOrder.orderId = h.orderId) :=
          fun c => hnh c.2.symm
        simp [c2]
      · simp [c1]
    have hinc : s2.orderOf newOrder.userId newOrder.orderId =
        (s.orderOf newOrder.userId newOrder.orderId).fill Complete newOrder.size := by
      rw [hrec]; simp [htr]
    have hoth : ∀ v oid, oid ≠ newOrder.orderId → oid ≠ h.orderId →
        s2.orderOf v oid = s.orderOf v oid := by
      intro v oid h1 h2
      rw [hrec]; simp [h1, h2]
    have hhd : s2.orderOf h.userId h.orderId = (s.orderOf h.userId h.orderId).fill
        (if h.size - trade = 0 then Complete else Working) trade := by
      rw [hrec]; simp [hnh]
    refine ⟨by show (0 : Int) ≤ newOrder.size - trade; omega,
      by show newOrder.size - trade ≤ newOrder.size; omega, ?_, ?_, ?_⟩
    · show s2.orderOf _ _ = _
      have e0 : newOrder.size - trade = 0 := hz
      have e1 : ¬ (newOrder.size - trade = newOrder.size) := by omega
      simp only [e0, e1, if_true, if_false, sub_zero]
      rw [hinc]
      have : (0 : Int) ≠ newOrder.size := by omega
      simp [this]
    · intro v oid h1 h2
      exact hoth v oid h1 (fun e => h2 h (List.mem_cons_self _ _) e.symm)
    · by_cases hz' : h.size - trade = 0
      · refine ⟨[h], t, rfl, ?_, Or.inl ⟨by simp [hz'], ?_⟩⟩
        · intro o ho
          rw [List.mem_singleton.1 ho, hhd]
          have : trade = h.size := by omega
          simp [hz', this]
        · intro o ho
          exact hoth _ _ (hnt o ho) (hndl.1 o ho)
      · refine ⟨[], h :: t, rfl, by simp, Or.inr ⟨h, t, h.size - trade, rfl, by omega, by omega,
          ?_, hz, ?_, ?_⟩⟩
        · simp [hz', UpdateOrder_head h t _ hndl.1]
        · show s2.orderOf _ _ = _
          rw [hhd]
          have : h.size - (h.size - trade) = trade := by omega
          simp [hz', this]
        · intro o ho
          exact hoth _ _ (hnt o ho) (hndl.1 o ho)
  · intro h t newOrder s s1 s2 trade r _ ht hz f1 f2 ih hnd hpos hsz
    have hnd' := List.nodup_cons.1 hnd
    have hnh : h.orderId ≠ newOrder.orderId := fun e =>
      hnd'.1 (by simp [e.symm])
    have hndl := nodup_ids_cons hnd'.2
    have hnt : ∀ o ∈ t, o.orderId ≠ newOrder.orderId := fun o ho e =>
      hnd'.1 (by simp only [List.map_cons, List.mem_cons, List.mem_map]; exact Or.inr ⟨o, ho, e⟩)
    obtain ⟨htr, hlt⟩ := trade_eq_head_of_residual ht hz
    have hhp : 0 < h.size := hpos h (List.mem_cons_self _ _)
    have hndt : (newOrder.orderId :: t.map (fun o => o.orderId)).Nodup :=
      List.nodup_cons.2 ⟨fun hm => by
        obtain ⟨o, ho, e⟩ := List.mem_map.1 hm
        exact hnt o ho e, hndl.2⟩
    have sh := ih hndt (fun o ho => hpos o (List.mem_cons_of_mem _ ho))
      (by show 0 < newOrder.size - trade; omega)
    have hrec : ∀ v oid, s2.orderOf v oid =
        if v = h.userId ∧ oid = h.orderId then (s.orderOf v oid).fill Complete trade
        else if v = newOrder.userId ∧ oid = newOrder.orderId then
          (s.orderOf v oid).fill Working trade
        else s.orderOf v oid := by
      intro v oid
      rw [f2.orderOf, f1.orderOf]
      by_cases c1 : v = h.userId ∧ oid = h.orderId
      · obtain ⟨rfl, rfl⟩ := c1
        have c2 : ¬(h.userId = newOrder.userId ∧ h.orderId = newOrder.orderId) :=
          fun c => hnh c.2
        simp [c2]
      · simp [c1]
    have hoth : ∀ v oid, oid ≠ newOrder.orderId → oid ≠ h.orderId →
        s2.orderOf v oid = s.orderOf v oid := by
      intro v oid h1 h2
      rw [hrec]; simp [h1, h2]
    have hs1 := sh.size_nonneg
    have hs2 : r.2.1.size ≤ newOrder.size - trade := sh.size_le
    refine ⟨hs1, by omega, ?_, ?_, ?_⟩
    · have hi := sh.incoming
      have e2 : s2.orderOf newOrder.userId newOrder.orderId =
          (s.orderOf newOrder.userId newOrder.orderId).fill Working trade := by
        rw [hrec]; simp [Ne.symm hnh]
      have e1 : ¬ (r.2.1.size = newOrder.size) := by omega
      simp only [e1, if_false]
      rw [show ({ newOrder with size := newOrder.size - trade } : Order).userId
        = newOrder.userId from rfl, show ({ newOrder with size := newOrder.size - trade }
          : Order).orderId = newOrder.orderId from rfl, e2] at hi
      rw [hi]
      by_cases c : r.2.1.size = newOrder.size - trade
      · have c0 : ¬ r.2.1.size = 0 := by omega
        have : newOrder.size - r.2.1.size = trade := by omega
        rw [if_pos c, if_neg c0, this]
      · have : trade + (newOrder.size - trade - r.2.1.size) = newOrder.size - r.2.1.size := by
          omega
        simp only [show ({ newOrder with size := newOrder.size - trade } : Order).size
          = newOrder.size - trade from rfl, c, if_false, Order.fill_fill, this]
    · intro v oid h1 h2
      rw [sh.others v oid h1 (fun o ho => h2 o (List.mem_cons_of_mem _ ho))]
      exact hoth v oid h1 (fun e => h2 h (List.mem_cons_self _ _) e.symm)
    · obtain ⟨done, rest, hsplit, hdone, hrest⟩ := sh.split
      have hunch : ∀ o ∈ t, s2.orderOf o.userId o.orderId = s.orderOf o.userId o.orderId :=
        fun o ho => hoth _ _ (hnt o ho) (hndl.1 o ho)
      have hsub_done : ∀ o ∈ done, o ∈ t := fun o ho => by rw [hsplit]; simp [ho]
      have hsub_rest : ∀ o ∈ rest, o ∈ t := fun o ho => by rw [hsplit]; simp [ho]
      refine ⟨h :: done, rest, by simp [hsplit], ?_, ?_⟩
      · intro o ho
        rcases List.mem_cons.1 ho with rfl | ho
        · rw [sh.others _ _ hnh (fun x hx => hndl.1 x hx), hrec]
          simp [htr]
        · rw [hdone o ho, hunch o (hsub_done o ho)]
      · rcases hrest with ⟨e, hu⟩ | ⟨h', t', k, e, hk0, hk1, el, ez, eh, hu⟩
        · exact Or.inl ⟨e, fun o ho => by rw [hu o ho, hunch o (hsub_rest o ho)]⟩
        · refine Or.inr ⟨h', t', k, e, hk0, hk1, el, ez, ?_, ?_⟩
          · rw [eh, hunch h' (hsub_rest h' (by rw [e]; exact List.mem_cons_self _ _))]
          · intro o ho
            rw [hu o ho, hunch o (hsub_rest o (by rw [e]; exact List.mem_cons_of_mem _ ho))]

/-! ## Cash and inventory along the matching loop -/

theorem getMatchedPrice_buy (matchedOrder newOrder : Order) :
    getMatchedPrice BUY matchedOrder newOrder = matchedOrder.limit := by
  simp [getMatchedPrice]

theorem getMatchedPrice_sell (matchedOrder newOrder : Order) :
    getMatchedPrice SELL matchedOrder newOrder = newOrder.limit := by
  simp [getMatchedPrice]

/-! ## Amounts as 64-bit products -/

theorem wrap64_of_fits {x : Int} (h : fits64 x) : wrap64 x = x := by
  unfold fits64 at h
  unfold wrap64
  omega

theorem fits64_wrap64 (x : Int) : fits64 (wrap64 x) := by
  unfold fits64 wrap64
  omega

theorem getTotalAssetCost_of_fits {limit size : Int} (h : fits64 (limit * size)) :
    getTotalAssetCost limit size = limit * size :=
  wrap64_of_fits h

/-- A product that fits in 64 bits still fits when the second factor is replaced by a part
of it. -/
theorem fits64_mul_part {limit size part : Int} (h : fits64 (limit * size)) (h0 : 0 ≤ part)
    (h1 : part ≤ size) : fits64 (limit * part) := by
  unfold fits64 at h ⊢
  rcases le_total 0 limit with hl | hl
  · have a : 0 ≤ limit * part := mul_nonneg hl h0
    have b : limit * part ≤ limit * size := mul_le_mul_of_nonneg_left h1 hl
    omega
  · have a : limit * part ≤ 0 := mul_nonpos_of_nonpos_of_nonneg hl h0
    have b : limit * size ≤ limit * part := mul_le_mul_of_nonpos_left h1 hl
    omega

/-- Whatever the amounts, a call of `executeOrder` changes the cash of nobody but the owners
of the SELL orders it handles. -/
theorem executeOrder_cash_frame (side : Int) (hside : side = BUY ∨ side = SELL)
    (l : List Order) (newOrder : Order) (s : Store) (hnew : s.hasUser newOrder.userId)
    (hown : ∀ o ∈ l, s.hasUser o.userId)
    (r : List Order × Order × Store) (hr : executeOrder l newOrder s side = .ok r) (v : UserId)
    (hl : ∀ o ∈ l, o.buyOrSell = SELL → o.userId ≠ v)
    (hn : newOrder.buyOrSell = SELL → newOrder.userId ≠ v) :
    r.2.2.cashOf v = s.cashOf v := by
  refine executeOrder_induct side hside
    (fun l newOrder s r => (∀ o ∈ l, o.buyOrSell = SELL → o.userId ≠ v) →
      (newOrder.buyOrSell = SELL → newOrder.userId ≠ v) → r.2.2.cashOf v = s.cashOf v)
    ?_ ?_ ?_ l newOrder s hnew hown r hr hl hn
  · intro l newOrder s _ _ _
    rfl
  · intro h t newOrder s s1 s2 trade _ _ _ f1 f2 hl hn
    have c1 := f1.cashOf v
    have c2 := f2.cashOf v
    simp only at c1 c2
    rw [if_neg (fun c => hl h (List.mem_cons_self _ _) c.1 c.2.symm)] at c1
    rw [if_neg (fun c => hn c.1 c.2.symm)] at c2
    show s2.cashOf v = s.cashOf v
    omega
  · intro h t newOrder s s1 s2 trade r _ _ _ f1 f2 ih hl hn
    have c1 := f1.cashOf v
    have c2 := f2.cashOf v
    simp only at c1 c2
    rw [if_neg (fun c => hn c.1 c.2.symm)] at c1
    rw [if_neg (fun c => hl h (List.mem_cons_self _ _) c.1 c.2.symm)] at c2
    have := ih (fun o ho => hl o (List.mem_cons_of_mem _ ho)) hn
    omega

/-- Incoming BUY against resting SELL orders whose reservations `limit × size` fit in 64
bits: every unit taken from a resting order is paid to its owner at that order's limit, and
nobody else's cash moves. -/
theorem executeOrder_buy_cash (l : List Order) (newOrder : Order) (s : Store)
    (hnew : s.hasUser newOrder.userId) (hown : ∀ o ∈ l, s.hasUser o.userId)
    (hnd : (l.map (fun o => o.orderId)).Nodup) (hl : ∀ o ∈ l, o.buyOrSell = SELL)
    (hb : newOrder.buyOrSell ≠ SELL)
    (hfit : ∀ o ∈ l, fits64 (o.limit * o.size)) (hsz : 0 < newOrder.size)
    (r : List Order × Order × Store) (hr : executeOrder l newOrder s BUY = .ok r) :
    r.2.2.totalCash = s.totalCash + sumReserved l - sumReserved r.1 ∧
    ∀ v, r.2.2.cashOf v = s.cashOf v + sumReservedOf v l - sumReservedOf v r.1 := by
  refine executeOrder_induct BUY (Or.inl rfl)
    (fun l newOrder s r => (l.map (fun o => o.orderId)).Nodup → (∀ o ∈ l, o.buyOrSell = SELL) →
      newOrder.buyOrSell ≠ SELL → (∀ o ∈ l, fits64 (o.limit * o.size)) → 0 < newOrder.size →
      r.2.2.totalCash = s.totalCash + sumReserved l - sumReserved r.1 ∧
      ∀ v, r.2.2.cashOf v = s.cashOf v + sumReservedOf v l - sumReservedOf v r.1)
    ?_ ?_ ?_ l newOrder s hnew hown r hr hnd hl hb hfit hsz
  · intro l newOrder s _ _ _ _ _ _
    simp
  · intro h t newOrder s s1 s2 trade _ ht hz0 f1 f2 hnd hl hb hfit hsz
    have hh : h.buyOrSell = SELL := hl h (List.mem_cons_self _ _)
    have htn : trade = newOrder.size := by omega
    have hle : trade ≤ h.size := by
      rcases min_eq_cases h.size newOrder.size with ⟨_, c⟩ | ⟨c, _⟩
      · rw [ht, c]
      · omega
    have hcost : getTotalAssetCost h.limit trade = h.limit * trade :=
      getTotalAssetCost_of_fits
        (fits64_mul_part (hfit h (List.mem_cons_self _ _)) (by omega) hle)
    have e1 := f1.totalCash
    have e2 := f2.totalCash
    have c1 := f1.cashOf
    have c2 := f2.cashOf
    simp only [hh, hb, if_true, if_false, add_zero, getMatchedPrice_buy, true_and,
      false_and, hcost] at e1 e2 c1 c2
    have hmul : h.limit * (h.size - trade) = h.limit * h.size - h.limit * trade := by ring
    by_cases hz : h.size - trade = 0
    · have hsz : h.size = trade := by omega
      simp only [hz, if_true, sumReserved, sumReservedOf, List.map_cons, List.sum_cons]
      refine ⟨by rw [e2, e1, hsz]; ring, fun v => ?_⟩
      rw [c2, c1, hsz]
      by_cases hv : v = h.userId
      · simp [hv]; ring
      · simp [hv, Ne.symm hv]
    · simp only [hz, if_false, UpdateOrder_head h t _ (nodup_ids_cons hnd).1, sumReserved,
        sumReservedOf, List.map_cons, List.sum_cons]
      refine ⟨by rw [e2, e1, hmul]; ring, fun v => ?_⟩
      rw [c2, c1]
      by_cases hv : v = h.userId
      · simp [hv, hmul]; ring
      · simp [hv, Ne.symm hv]
  · intro h t newOrder s s1 s2 trade r _ ht hz f1 f2 ih hnd hl hb hfit hsz
    have hh : h.buyOrSell = SELL := hl h (List.mem_cons_self _ _)
    obtain ⟨hsz', hlt⟩ := trade_eq_head_of_residual ht hz
    have hcost : getTotalAssetCost h.limit trade = h.limit * trade := by
      rw [hsz']
      exact getTotalAssetCost_of_fits (hfit h (List.mem_cons_self _ _))
    have e1 := f1.totalCash
    have e2 := f2.totalCash
    have c1 := f1.cashOf
    have c2 := f2.cashOf
    simp only [hh, hb, if_true, if_false, add_zero, getMatchedPrice_buy, true_and,
      false_and, hcost] at e1 e2 c1 c2
    obtain ⟨i1, i2⟩ := ih (nodup_ids_cons hnd).2 (fun o ho => hl o (List.mem_cons_of_mem _ ho)) hb
      (fun o ho => hfit o (List.mem_cons_of_mem _ ho)) (by show 0 < newOrder.size - trade; omega)
    have hsz : trade = h.size := hsz'
    simp only [sumReserved, sumReservedOf, List.map_cons, List.sum_cons] at i1 i2 ⊢
    refine ⟨by rw [i1, e2, e1, hsz]; ring, fun v => ?_⟩
    rw [i2 v, c2, c1, hsz]
    by_cases hv : v = h.userId
    · simp [hv]; ring
    · simp [hv, Ne.symm hv]

/-- Incoming SELL whose own `limit × size` fits in 64 bits, against resting non-SELL orders
of positive sizes: the seller is credited its own limit for every unit it sells, and nobody
else's cash moves. -/
theorem executeOrder_sell_cash (l : List Order) (newOrder : Order) (s : Store)
    (hnew : s.hasUser newOrder.userId) (hown : ∀ o ∈ l, s.hasUser o.userId)
    (hl : ∀ o ∈ l, o.buyOrSell ≠ SELL) (hb : newOrder.buyOrSell = SELL)
    (hfit : fits64 (newOrder.limit * newOrder.size)) (hpos : ∀ o ∈ l, 0 < o.size)
    (hsz : 0 < newOrder.size)
    (r : List Order × Order × Store) (hr : executeOrder l newOrder s SELL = .ok r) :
    r.2.2.totalCash = s.totalCash + newOrder.limit * (newOrder.size - r.2.1.size) ∧
    ∀ v, r.2.2.cashOf v = s.cashOf v +
      if v = newOrder.userId then newOrder.limit * (newOrder.size - r.2.1.size) else 0 := by
  refine executeOrder_induct SELL (Or.inr rfl)
    (fun l newOrder s r => (∀ o ∈ l, o.buyOrSell ≠ SELL) → newOrder.buyOrSell = SELL →
      fits64 (newOrder.limit * newOrder.size) → (∀ o ∈ l, 0 < o.size) → 0 < newOrder.size →
      r.2.2.totalCash = s.totalCash + newOrder.limit * (newOrder.size - r.2.1.size) ∧
      ∀ v, r.2.2.cashOf v = s.cashOf v +
        if v = newOrder.userId then newOrder.limit * (newOrder.size - r.2.1.size) else 0)
    ?_ ?_ ?_ l newOrder s hnew hown r hr hl hb hfit hpos hsz
  · intro l newOrder s _ _ _ _ _ _
    simp
  · intro h t newOrder s s1 s2 trade _ _ hz f1 f2 hl hb hfit _ hsz
    have hh : h.buyOrSell ≠ SELL := hl h (List.mem_cons_self _ _)
    have htn : trade = newOrder.size := by omega
    have hcost : getTotalAssetCost newOrder.limit trade = newOrder.limit * trade := by
      rw [htn]; exact getTotalAssetCost_of_fits hfit
    have e1 := f1.totalCash
    have e2 := f2.totalCash
    have c1 := f1.cashOf
    have c2 := f2.cashOf
    simp only [hh, hb, if_true, if_false, add_zero, getMatchedPrice_sell, true_and,
      false_and, hcost] at e1 e2 c1 c2
    have hsz : newOrder.size - (newOrder.size - trade) = trade := by omega
    refine ⟨by show s2.totalCash = _; rw [e2, e1]; simp only [hsz], fun v => ?_⟩
    show s2.cashOf v = _
    rw [c2, c1]
    simp only [hsz]
  · intro h t newOrder s s1 s2 trade r _ ht hz f1 f2 ih hl hb hfit hpos hsz
    have hh : h.buyOrSell ≠ SELL := hl h (List.mem_cons_self _ _)
    obtain ⟨hsz', hlt⟩ := trade_eq_head_of_residual ht hz
    have hhp : 0 < h.size := hpos h (List.mem_cons_self _ _)
    have hcost : getTotalAssetCost newOrder.limit trade = newOrder.limit * trade :=
      getTotalAssetCost_of_fits (fits64_mul_part hfit (by omega) (by omega))
    have e1 := f1.totalCash
    have e2 := f2.totalCash
    have c1 := f1.cashOf
    have c2 := f2.cashOf
    simp only [hh, hb, if_true, if_false, add_zero, getMatchedPrice_sell, true_and,
      false_and, hcost] at e1 e2 c1 c2
    obtain ⟨i1, i2⟩ := ih (fun o ho => hl o (List.mem_cons_of_mem _ ho)) hb
      (by show fits64 (newOrder.limit * (newOrder.size - trade))
          exact fits64_mul_part hfit (by omega) (by omega))
      (fun o ho => hpos o (List.mem_cons_of_mem _ ho))
      (by show 0 < newOrder.size - trade; omega)
    have hmul : newOrder.limit * (newOrder.size - r.2.1.size) =
        newOrder.limit * trade + newOrder.limit * (newOrder.size - trade - r.2.1.size) := by ring
    refine ⟨by rw [i1, e2, e1, hmul]; ring, fun v => ?_⟩
    rw [i2 v, c2, c1]
    by_cases hv : v = newOrder.userId
    · simp only [hv, if_true, hmul]; ring
    · simp [hv]

theorem orderMatchAvailable_cons (h : Order) (t : List Order) (newOrder : Order) (side : Int) :
    orderMatchAvailable (h :: t) newOrder side = true ↔
      (side = BUY ∧ h.limit ≤ newOrder.limit) ∨ (side = SELL ∧ h.limit ≥ newOrder.limit) := by
  simp [orderMatchAvailable, isEmpty, GetTopOrder]

/-- Incoming BUY: the buyer's inventory of the asset grows by the units bought. -/
theorem executeOrder_buy_asset (l : List Order) (newOrder : Order) (s : Store)
    (hnew : s.hasUser newOrder.userId) (hown : ∀ o ∈ l, s.hasUser o.userId)
    (hl : ∀ o ∈ l, o.buyOrSell = SELL) (hb : newOrder.buyOrSell ≠ SELL)
    (r : List Order × Order × Store) (hr : executeOrder l newOrder s BUY = .ok r) :
    ∀ a, r.2.2.totalAsset a = s.totalAsset a +
      if a = newOrder.assetId then newOrder.size - r.2.1.size else 0 := by
  refine executeOrder_induct BUY (Or.inl rfl)
    (fun l newOrder s r => (∀ o ∈ l, o.buyOrSell = SELL) → newOrder.buyOrSell ≠ SELL →
      ∀ a, r.2.2.totalAsset a = s.totalAsset a +
        if a = newOrder.assetId then newOrder.size - r.2.1.size else 0)
    ?_ ?_ ?_ l newOrder s hnew hown r hr hl hb
  · intro l newOrder s _ _ _ a
    simp
  · intro h t newOrder s s1 s2 trade _ _ _ f1 f2 hl hb a
    have hh : h.buyOrSell = SELL := hl h (List.mem_cons_self _ _)
    have e1 := f1.totalAsset a
    have e2 := f2.totalAsset a
    simp only [hh, hb, ne_eq, not_true_eq_false, not_false_eq_true, false_and, true_and,
      if_false, add_zero] at e1 e2
    show s2.totalAsset a = _
    rw [e2, e1]
    have hsz : newOrder.size - (newOrder.size - trade) = trade := by omega
    simp only [hsz]
  · intro h t newOrder s s1 s2 trade r _ _ _ f1 f2 ih hl hb a
    have hh : h.buyOrSell = SELL := hl h (List.mem_cons_self _ _)
    have e1 := f1.totalAsset a
    have e2 := f2.totalAsset a
    simp only [hh, hb, ne_eq, not_true_eq_false, not_false_eq_true, false_and, true_and,
      if_false, add_zero] at e1 e2
    have i := ih (fun o ho => hl o (List.mem_cons_of_mem _ ho)) hb a
    rw [i, e2, e1]
    by_cases ha : a = newOrder.assetId
    · simp only [ha, if_true]
      show _ + trade + (newOrder.size - trade - r.2.1.size) = _
      omega
    · show _ + (if a = newOrder.assetId then trade else 0) +
        (if a = newOrder.assetId then _ else 0) = _
      simp [ha]

/-- Incoming SELL against resting orders for asset `A`: their owners' inventories of `A`
grow by the units sold. -/
theorem executeOrder_sell_asset (A : AssetId) (l : List Order) (newOrder : Order) (s : Store)
    (hnew : s.hasUser newOrder.userId) (hown : ∀ o ∈ l, s.hasUser o.userId)
    (hl : ∀ o ∈ l, o.buyOrSell ≠ SELL) (hA : ∀ o ∈ l, o.assetId = A)
    (hb : newOrder.buyOrSell = SELL)
    (r : List Order × Order × Store) (hr : executeOrder l newOrder s SELL = .ok r) :
    ∀ a, r.2.2.totalAsset a = s.totalAsset a +
      if a = A then newOrder.size - r.2.1.size else 0 := by
  refine executeOrder_induct SELL (Or.inr rfl)
    (fun l newOrder s r => (∀ o ∈ l, o.buyOrSell ≠ SELL) → (∀ o ∈ l, o.assetId = A) →
      newOrder.buyOrSell = SELL →
      ∀ a, r.2.2.totalAsset a = s.totalAsset a +
        if a = A then newOrder.size - r.2.1.size else 0)
    ?_ ?_ ?_ l newOrder s hnew hown r hr hl hA hb
  · intro l newOrder s _ _ _ _ a
    simp
  · intro h t newOrder s s1 s2 trade _ _ _ f1 f2 hl hA hb a
    have hh : h.buyOrSell ≠ SELL := hl h (List.mem_cons_self _ _)
    have hha : h.assetId = A := hA h (List.mem_cons_self _ _)
    have e1 := f1.totalAsset a
    have e2 := f2.totalAsset a
    simp only [hh, hb, hha, ne_eq, not_true_eq_false, not_false_eq_true, false_and, true_and,
      if_false, add_zero] at e1 e2
    show s2.totalAsset a = _
    rw [e2, e1]
    have hsz : newOrder.size - (newOrder.size - trade) = trade := by omega
    simp only [hsz]
  · intro h t newOrder s s1 s2 trade r _ _ _ f1 f2 ih hl hA hb a
    have hh : h.buyOrSell ≠ SELL := hl h (List.mem_cons_self _ _)
    have hha : h.assetId = A := hA h (List.mem_cons_self _ _)
    have e1 := f1.totalAsset a
    have e2 := f2.totalAsset a
    simp only [hh, hb, hha, ne_eq, not_true_eq_false, not_false_eq_true, false_and, true_and,
      if_false, add_zero] at e1 e2
    have i := ih (fun o ho => hl o (List.mem_cons_of_mem _ ho))
      (fun o ho => hA o (List.mem_cons_of_mem _ ho)) hb a
    rw [i, e2, e1]
    by_cases ha : a = A
    · simp only [ha, if_true]
      show _ + trade + (newOrder.size - trade - r.2.1.size) = _
      omega
    · simp [ha]

/-- What the fills pay against what was reserved for them: an incoming BUY pays the sellers
at most its own limit per unit, an incoming SELL is paid at most the resting limits per unit;
with equal limits the two amounts agree. -/
theorem executeOrder_paid_vs_reserved (side : Int) (hside : side = BUY ∨ side = SELL)
    (l : List Order) (newOrder : Order) (s : Store) (hnew : s.hasUser newOrder.userId)
    (hown : ∀ o ∈ l, s.hasUser o.userId) (hnd : (l.map (fun o => o.orderId)).Nodup)
    (hpos : ∀ o ∈ l, 0 < o.size) (hsz : 0 < newOrder.size)
    (r : List Order × Order × Store) (hr : executeOrder l newOrder s side = .ok r) :
    (side = BUY →
      sumReserved l - sumReserved r.1 ≤ newOrder.limit * (newOrder.size - r.2.1.size)) ∧
    (side = SELL →
      newOrder.limit * (newOrder.size - r.2.1.size) ≤ sumReserved l - sumReserved r.1) ∧
    ((∀ o ∈ l, o.limit = newOrder.limit) →
      sumReserved l - sumReserved r.1 = newOrder.limit * (newOrder.size - r.2.1.size)) := by
  refine executeOrder_induct side hside
    (fun l newOrder _ r => (l.map (fun o => o.orderId)).Nodup → (∀ o ∈ l, 0 < o.size) →
      0 < newOrder.size →
      (side = BUY →
        sumReserved l - sumReserved r.1 ≤ newOrder.limit * (newOrder.size - r.2.1.size)) ∧
      (side = SELL →
        newOrder.limit * (newOrder.size - r.2.1.size) ≤ sumReserved l - sumReserved r.1) ∧
      ((∀ o ∈ l, o.limit = newOrder.limit) →
        sumReserved l - sumReserved r.1 = newOrder.limit * (newOrder.size - r.2.1.size)))
    ?_ ?_ ?_ l newOrder s hnew hown r hr hnd hpos hsz
  · intro l newOrder s _ _ _ _
    simp
  · intro h t newOrder s s1 s2 trade hm ht hz _ _ hnd hpos hsz
    have hm' := (orderMatchAvailable_cons h t newOrder side).1 hm
    have htr : trade = newOrder.size := by omega
    have hD : sumReserved (h :: t) - sumReserved
        (if h.size - trade = 0 then t else UpdateOrder (h :: t) { h with size := h.size - trade })
        = h.limit * trade := by
      by_cases hz' : h.size - trade = 0
      · have : h.size = trade := by omega
        rw [if_pos hz']
        simp only [sumReserved, List.map_cons, List.sum_cons, this]
        ring
      · rw [if_neg hz', UpdateOrder_head h t _ (nodup_ids_cons hnd).1]
        simp only [sumReserved, List.map_cons, List.sum_cons]
        ring
    have hR : newOrder.limit * (newOrder.size - (newOrder.size - trade)) =
        newOrder.limit * trade := by ring
    show (side = BUY → sumReserved (h :: t) - sumReserved _ ≤
        newOrder.limit * (newOrder.size - (newOrder.size - trade))) ∧
      (side = SELL → newOrder.limit * (newOrder.size - (newOrder.size - trade)) ≤
        sumReserved (h :: t) - sumReserved _) ∧
      ((∀ o ∈ h :: t, o.limit = newOrder.limit) → sumReserved (h :: t) - sumReserved _ =
        newOrder.limit * (newOrder.size - (newOrder.size - trade)))
    rw [hD, hR]
    have htp : 0 ≤ trade := by omega
    refine ⟨fun hs => ?_, fun hs => ?_, fun he => ?_⟩
    · rcases hm' with ⟨_, hle⟩ | ⟨hs', _⟩
      · exact mul_le_mul_of_nonneg_right hle htp
      · rw [hs] at hs'; exact absurd hs' (by decide)
    · rcases hm' with ⟨hs', _⟩ | ⟨_, hle⟩
      · rw [hs] at hs'; exact absurd hs' (by decide)
      · exact mul_le_mul_of_nonneg_right hle htp
    · rw [he h (List.mem_cons_self _ _)]
  · intro h t newOrder s s1 s2 trade r hm ht hz _ _ ih hnd hpos hsz
    have hm' := (orderMatchAvailable_cons h t newOrder side).1 hm
    obtain ⟨htr, hlt⟩ := trade_eq_head_of_residual ht hz
    have hhp : 0 < h.size := hpos h (List.mem_cons_self _ _)
    have htp : 0 ≤ trade := by omega
    obtain ⟨i1, i2, i3⟩ := ih (nodup_ids_cons hnd).2
      (fun o ho => hpos o (List.mem_cons_of_mem _ ho)) (by show 0 < newOrder.size - trade; omega)
    have hR : newOrder.limit * (newOrder.size - r.2.1.size) =
        newOrder.limit * trade + newOrder.limit * (newOrder.size - trade - r.2.1.size) := by ring
    have hD : sumReserved (h :: t) - sumReserved r.1 =
        h.limit * trade + (sumReserved t - sumReserved r.1) := by
      simp only [sumReserved, List.map_cons, List.sum_cons, htr]
      ring
    rw [hD, hR]
    refine ⟨fun hs => ?_, fun hs => ?_, fun he => ?_⟩
    · rcases hm' with ⟨_, hle⟩ | ⟨hs', _⟩
      · exact add_le_add (mul_le_mul_of_nonneg_right hle htp) (i1 hs)
      · rw [hs] at hs'; exact absurd hs' (by decide)
    · rcases hm' with ⟨hs', _⟩ | ⟨_, hle⟩
      · rw [hs] at hs'; exact absurd hs' (by decide)
      · exact add_le_add (mul_le_mul_of_nonneg_right hle htp) (i2 hs)
    · rw [he h (List.mem_cons_self _ _), i3 (fun o ho => he o (List.mem_cons_of_mem _ ho))]

/-! ## `OrderBooks.ExecuteOrder` in terms of `executeOrder` -/

theorem bookOf_eq (ob : OrderBooks) (a : AssetId) :
    ob.bookOf a = (GoMap.get? ob.orderBooks a).getD { BuyList := [], SellList := [] } := by
  unfold OrderBooks.bookOf getOrderBook
  cases h : GoMap.get? ob.orderBooks a <;> simp [newOrdersList]

theorem getOrderBook_get? (ob : OrderBooks) (a a' : AssetId) (h : a' ≠ a) :
    GoMap.get? (getOrderBook ob a).1.orderBooks a' = GoMap.get? ob.orderBooks a' := by
  unfold getOrderBook
  cases hg : GoMap.get? ob.orderBooks a
  · simp [GoMap.get?_set_ne _ _ _ _ h]
  · simp

theorem bookOf_set (ob : OrderBooks) (a a' : AssetId) (b : OrderBook) :
    OrderBooks.bookOf { orderBooks := GoMap.set (getOrderBook ob a).1.orderBooks a b } a' =
      if a' = a then b else ob.bookOf a' := by
  rw [bookOf_eq, bookOf_eq]
  by_cases h : a' = a
  · subst h
    simp [GoMap.get?_set_self]
  · simp [GoMap.get?_set_ne _ _ _ _ h, getOrderBook_get? ob a a' h, h]

theorem matchSide_cases (o : Order) : matchSide o = BUY ∨ matchSide o = SELL := by
  unfold matchSide
  split
  · exact Or.inl rfl
  · exact Or.inr rfl

/-- `OrderBooks.ExecuteOrder` runs `executeOrder` on the opposite list of the asset's book,
stores the list it leaves, inserts the residual into the same-side list when its size is
positive, and leaves every other book alone. -/
theorem ExecuteOrder_of_executeOrder (ob : OrderBooks) (newOrder : Order) (s : Store)
    (r : List Order × Order × Store)
    (hr : executeOrder ((ob.bookOf newOrder.assetId).oppositeSide newOrder) newOrder s
      (matchSide newOrder) = .ok r) :
    ∃ ob', ob.ExecuteOrder newOrder s = .ok (ob', r.2.2) ∧
      (ob'.bookOf newOrder.assetId).oppositeSide newOrder = r.1 ∧
      (ob'.bookOf newOrder.assetId).sameSide newOrder =
        (if r.2.1.size > 0 then AddOrder ((ob.bookOf newOrder.assetId).sameSide newOrder) r.2.1
         else (ob.bookOf newOrder.assetId).sameSide newOrder) ∧
      ∀ a, a ≠ newOrder.assetId → ob'.bookOf a = ob.bookOf a := by
  obtain ⟨l', res, s'⟩ := r
  by_cases hb : newOrder.buyOrSell = BUY
  · simp only [OrderBook.oppositeSide, matchSide, hb, if_true, OrderBooks.bookOf] at hr
    have hE : ob.ExecuteOrder newOrder s = .ok
        ({ orderBooks :=
            GoMap.set (getOrderBook ob newOrder.assetId).1.orderBooks newOrder.assetId
              (if res.size > 0 then
                { BuyList := AddOrder (getOrderBook ob newOrder.assetId).2.BuyList res,
                  SellList := l' }
              else { BuyList := (getOrderBook ob newOrder.assetId).2.BuyList, SellList := l' }) },
          s') := by
      simp only [OrderBooks.ExecuteOrder, hb, if_true, hr]
    refine ⟨_, hE, ?_, ?_, ?_⟩
    · rw [bookOf_set]
      by_cases hp : res.size > 0 <;> simp [OrderBook.oppositeSide, hb, hp]
    · rw [bookOf_set]
      by_cases hp : res.size > 0 <;> simp [OrderBook.sameSide, hb, hp, OrderBooks.bookOf]
    · intro a ha
      rw [bookOf_set]
      simp [ha]
  · simp only [OrderBook.oppositeSide, matchSide, hb, if_false, OrderBooks.bookOf] at hr
    have hE : ob.ExecuteOrder newOrder s = .ok
        ({ orderBooks :=
            GoMap.set (getOrderBook ob newOrder.assetId).1.orderBooks newOrder.assetId
              (if res.size > 0 then
                { BuyList := l',
                  SellList := AddOrder (getOrderBook ob newOrder.assetId).2.SellList res }
              else { BuyList := l', SellList := (getOrderBook ob newOrder.assetId).2.SellList }) },
          s') := by
      simp only [OrderBooks.ExecuteOrder, hb, if_false, hr]
    refine ⟨_, hE, ?_, ?_, ?_⟩
    · rw [bookOf_set]
      by_cases hp : res.size > 0 <;> simp [OrderBook.oppositeSide, hb, hp]
    · rw [bookOf_set]
      by_cases hp : res.size > 0 <;> simp [OrderBook.sameSide, hb, hp, OrderBooks.bookOf]
    · intro a ha
      rw [bookOf_set]
      simp [ha]

/-! ## Further facts on the lists -/

/-- Every order `executeOrder` leaves in the resting list is an order of the original list,
changed at most in its size. -/
theorem executeOrder_result_mem (side : Int) (hside : side = BUY ∨ side = SELL)
    (l : List Order) (newOrder : Order) (s : Store) (hnew : s.hasUser newOrder.userId)
    (hown : ∀ o ∈ l, s.hasUser o.userId) (hnd : (l.map (fun o => o.orderId)).Nodup)
    (r : List Order × Order × Store) (hr : executeOrder l newOrder s side = .ok r) :
    ∀ o ∈ r.1, ∃ o₀ ∈ l, o = { o₀ with size := o.size } := by
  refine executeOrder_induct side hside
    (fun l _ _ r => (l.map (fun o => o.orderId)).Nodup →
      ∀ o ∈ r.1, ∃ o₀ ∈ l, o = { o₀ with size := o.size })
    ?_ ?_ ?_ l newOrder s hnew hown r hr hnd
  · intro l newOrder s _ _ o ho
    exact ⟨o, ho, rfl⟩
  · intro h t newOrder s s1 s2 trade _ _ _ _ _ hnd o ho
    by_cases hz : h.size - trade = 0
    · simp only [hz, if_true] at ho
      exact ⟨o, List.mem_cons_of_mem _ ho, rfl⟩
    · simp only [hz, if_false, UpdateOrder_head h t _ (nodup_ids_cons hnd).1] at ho
      rcases List.mem_cons.1 ho with rfl | ho
      · exact ⟨h, List.mem_cons_self _ _, rfl⟩
      · exact ⟨o, List.mem_cons_of_mem _ ho, rfl⟩
  · intro h t newOrder s s1 s2 trade r _ _ _ _ _ ih hnd o ho
    obtain ⟨o₀, h0, e⟩ := ih (nodup_ids_cons hnd).2 o ho
    exact ⟨o₀, List.mem_cons_of_mem _ h0, e⟩

/-- The residual size is never negative for an incoming order of non-negative size. -/
theorem executeOrder_residual_nonneg (side : Int) (hside : side = BUY ∨ side = SELL)
    (l : List Order) (newOrder : Order) (s : Store) (hnew : s.hasUser newOrder.userId)
    (hown : ∀ o ∈ l, s.hasUser o.userId) (hsz : 0 ≤ newOrder.size)
    (r : List Order × Order × Store) (hr : executeOrder l newOrder s side = .ok r) :
    0 ≤ r.2.1.size := by
  refine executeOrder_induct side hside
    (fun _ newOrder _ r => 0 ≤ newOrder.size → 0 ≤ r.2.1.size)
    ?_ ?_ ?_ l newOrder s hnew hown r hr hsz
  · intro l newOrder s _ h
    exact h
  · intro h t newOrder s s1 s2 trade _ _ hz _ _ _
    show (0 : Int) ≤ newOrder.size - trade
    omega
  · intro h t newOrder s s1 s2 trade r _ ht hz _ _ ih _
    have := (trade_eq_head_of_residual ht hz).2
    have htr := (trade_eq_head_of_residual ht hz).1
    exact ih (by show (0 : Int) ≤ newOrder.size - trade; omega)

theorem AddOrder_split (l : List Order) (o : Order) :
    ∃ pre post, l = pre ++ post ∧ AddOrder l o = pre ++ o :: post := by
  by_cases hs : o.buyOrSell = BUY
  · exact ⟨_, _, (List.takeWhile_append_dropWhile _ l).symm, AddOrder_buy_eq l o hs⟩
  · exact ⟨_, _, (List.takeWhile_append_dropWhile _ l).symm, AddOrder_sell_eq l o hs⟩

theorem mem_AddOrder (l : List Order) (o x : Order) : x ∈ AddOrder l o ↔ x = o ∨ x ∈ l := by
  obtain ⟨pre, post, hl, ha⟩ := AddOrder_split l o
  rw [ha, hl]
  simp only [List.mem_append, List.mem_cons]
  tauto

theorem sumSizes_AddOrder (l : List Order) (o : Order) :
    sumSizes (AddOrder l o) = sumSizes l + o.size := by
  obtain ⟨pre, post, hl, ha⟩ := AddOrder_split l o
  rw [ha, hl]
  simp only [sumSizes, List.map_append, List.map_cons, List.sum_append, List.sum_cons]
  omega

theorem sumReserved_AddOrder (l : List Order) (o : Order) :
    sumReserved (AddOrder l o) = sumReserved l + o.limit * o.size := by
  obtain ⟨pre, post, hl, ha⟩ := AddOrder_split l o
  rw [ha, hl]
  simp only [sumReserved, List.map_append, List.map_cons, List.sum_append, List.sum_cons]
  ring

theorem getOrder_append_of_absent (l₁ l₂ : List Order) (oid : OrderId)
    (h : ∀ x ∈ l₁, x.orderId ≠ oid) : getOrder (l₁ ++ l₂) oid = getOrder l₂ oid := by
  induction l₁ with
  | nil => rfl
  | cons a l₁ ih =>
    have ha : a.orderId ≠ oid := h a (List.mem_cons_self _ _)
    simp only [List.cons_append, getOrder, ha, if_false]
    exact ih (fun x hx => h x (List.mem_cons_of_mem _ hx))

theorem getOrder_AddOrder (l : List Order) (o : Order) (h : ∀ x ∈ l, x.orderId ≠ o.orderId) :
    getOrder (AddOrder l o) o.orderId = o := by
  obtain ⟨pre, post, hl, ha⟩ := AddOrder_split l o
  rw [ha, getOrder_append_of_absent pre _ _ (fun x hx => h x (by rw [hl]; simp [hx]))]
  simp [getOrder]

/-! ## Matched price -/

/-- C4, counterexample: a SELL at 100 for 30 units hitting a resting BUY at 101 trades at 100,
not at the resting order's limit, and the seller is credited 3000, not 101 x 30. A SELL at
limit 2^60 for 16 units, resting, is filled by a BUY at the same limit: the price is the
resting limit, and the seller is credited the 64-bit product of 2^60 and 16, which is 0. -/
theorem maker_price_counterexample :
    (getMatchedPrice SELL (testOrder "bo2" "userId1" 101 30 BUY)
        (testOrder "so1" "userId2" 100 30 SELL) ≠ (testOrder "bo2" "userId1" 101 30 BUY).limit ∧
    ∃ r, executeOrder [testOrder "bo2" "userId1" 101 30 BUY]
          (testOrder "so1" "userId2" 100 30 SELL)
          (setupTestData [testOrder "bo2" "userId1" 101 30 BUY]
            [testOrder "so1" "userId2" 100 30 SELL]) SELL = .ok r ∧
      r.1 = [] ∧ r.2.1.size = 0 ∧ r.2.2.cashOf "userId2" = 10000 + 100 * 30 ∧
      r.2.2.cashOf "userId2" ≠ 10000 + 101 * 30) ∧
    (getMatchedPrice BUY (testOrder "so1" "userId1" 1152921504606846976 16 SELL)
        (testOrder "bo1" "userId2" 1152921504606846976 16 BUY) = 1152921504606846976 ∧
    ∃ r, executeOrder [testOrder "so1" "userId1" 1152921504606846976 16 SELL]
          (testOrder "bo1" "userId2" 1152921504606846976 16 BUY) (setupTestData [] []) BUY
          = .ok r ∧
      r.1 = [] ∧ r.2.1.size = 0 ∧ r.2.2.cashOf "userId1" = 10000 ∧
      r.2.2.cashOf "userId1" ≠ 10000 + 1152921504606846976 * 16) := by
  refine ⟨⟨by decide, _, rfl, ?_, ?_, ?_, ?_⟩, ⟨by decide, _, rfl, ?_, ?_, ?_, ?_⟩⟩ <;> decide

/-- C4, as amended: the matched price is the limit of the SELL order of the fill. An incoming
BUY trades at the resting SELL's limit, so each seller is credited, for every unit taken from
an order of theirs, that order's limit. An incoming SELL trades at its own limit, which at
every fill is at most the resting BUY's limit, so the seller is credited its own limit per
unit sold, at most what the BUY makers reserved for those units. The amounts credited are
those of `getTotalAssetCost`, a 64-bit product: they are stated for positive sizes and SELL
orders whose `limit × size` is within 64 bits. -/
theorem matched_price_is_sell_limit :
    (∀ matched newOrder : Order, getMatchedPrice BUY matched newOrder = matched.limit) ∧
    (∀ matched newOrder : Order, getMatchedPrice SELL matched newOrder = newOrder.limit) ∧
    (∀ (h : Order) (t : List Order) (newOrder : Order),
      orderMatchAvailable (h :: t) newOrder SELL = true →
        getMatchedPrice SELL h newOrder ≤ h.limit) ∧
    (∀ (l : List Order) (newOrder : Order) (s : Store), s.hasUser newOrder.userId →
      (∀ o ∈ l, s.hasUser o.userId) → (l.map (fun o => o.orderId)).Nodup →
      (∀ o ∈ l, o.buyOrSell = SELL) → newOrder.buyOrSell = BUY →
      (∀ o ∈ l, fits64 (o.limit * o.size)) → 0 < newOrder.size →
      ∃ r, executeOrder l newOrder s BUY = .ok r ∧
        ∀ v, r.2.2.cashOf v = s.cashOf v + sumReservedOf v l - sumReservedOf v r.1) ∧
    (∀ (l : List Order) (newOrder : Order) (s : Store), s.hasUser newOrder.userId →
      (∀ o ∈ l, s.hasUser o.userId) → (l.map (fun o => o.orderId)).Nodup →
      (∀ o ∈ l, 0 < o.size) → 0 < newOrder.size →
      (∀ o ∈ l, o.buyOrSell = BUY) → newOrder.buyOrSell = SELL →
      fits64 (newOrder.limit * newOrder.size) →
      ∃ r, executeOrder l newOrder s SELL = .ok r ∧
        r.2.2.cashOf newOrder.userId =
          s.cashOf newOrder.userId + newOrder.limit * (sumSizes l - sumSizes r.1) ∧
        newOrder.limit * (sumSizes l - sumSizes r.1) ≤ sumReserved l - sumReserved r.1) := by
  refine ⟨getMatchedPrice_buy, getMatchedPrice_sell, ?_, ?_, ?_⟩
  · intro h t newOrder hm
    rw [getMatchedPrice_sell]
    rcases (orderMatchAvailable_cons h t newOrder SELL).1 hm with ⟨hs, _⟩ | ⟨_, hle⟩
    · exact absurd hs (by decide)
    · exact hle
  · intro l newOrder s hnew hown hnd hl hb hfit hsz
    obtain ⟨r, hr⟩ := executeOrder_returns l newOrder s BUY (Or.inl rfl) hnew hown
    exact ⟨r, hr, (executeOrder_buy_cash l newOrder s hnew hown hnd hl
      (by rw [hb]; decide) hfit hsz r hr).2⟩
  · intro l newOrder s hnew hown hnd hpos hsz hl hb hfit
    obtain ⟨r, hr⟩ := executeOrder_returns l newOrder s SELL (Or.inr rfl) hnew hown
    have hc := (executeOrder_sell_cash l newOrder s hnew hown
      (fun o ho => by rw [hl o ho]; decide) hb hfit hpos hsz r hr).2 newOrder.userId
    have hk := executeOrder_sizes SELL (Or.inr rfl) l newOrder s hnew hown hnd r hr
    have hp := (executeOrder_paid_vs_reserved SELL (Or.inr rfl) l newOrder s hnew hown hnd hpos
      hsz r hr).2.1 rfl
    rw [if_pos rfl] at hc
    refine ⟨r, hr, ?_, ?_⟩
    · rw [hk]; exact hc
    · rw [hk]; exact hp

/-- C4, instance of the amended statement: a resting SELL at 100 hit by a BUY at 105; the
seller is credited at 100. -/
theorem matched_price_is_sell_limit_witness :
    ∃ r, executeOrder [testOrder "so1" "userId1" 100 10 SELL]
        (testOrder "bo1" "userId2" 105 10 BUY) (setupTestData [] []) BUY = .ok r ∧
      ∀ v, r.2.2.cashOf v = (setupTestData [] []).cashOf v +
        sumReservedOf v [testOrder "so1" "userId1" 100 10 SELL] - sumReservedOf v r.1 :=
  matched_price_is_sell_limit.2.2.2.1 [testOrder "so1" "userId1" 100 10 SELL]
    (testOrder "bo1" "userId2" 105 10 BUY) (setupTestData [] []) (by decide) (by decide)
    (by decide) (by decide) (by decide) (by decide) (by decide)

/-- C5, counterexample: a SELL at limit 2^62 for 4 units is filled completely by a resting BUY
at the same limit. `getTotalAssetCost` multiplies in 64 bits, 2^62 × 4 wraps to 0, and the
seller's cash stays 10000: it does not rise by `L × N` = 2^64. With sizes below 0, a SELL at
limit 2^62 of size -1 against a resting BUY of size -8 trades -8 units, is credited the 64-bit
product 0 and is left with a residual of 7, although its own `L × size` is within 64 bits. -/
theorem incoming_sell_overflow_counterexample :
    (getTotalAssetCost 4611686018427387904 4 = 0 ∧
    ∃ r, executeOrder [testOrder "bo1" "userId1" 4611686018427387904 4 BUY]
          (testOrder "so1" "userId2" 4611686018427387904 4 SELL) (setupTestData [] []) SELL
          = .ok r ∧
      r.1 = [] ∧ r.2.1.size = 0 ∧ r.2.2.cashOf "userId2" = 10000 ∧
      r.2.2.cashOf "userId2" ≠ 10000 + 4611686018427387904 * (4 - r.2.1.size)) ∧
    (fits64 (4611686018427387904 * (-1)) ∧
    ∃ r, executeOrder [testOrder "bo1" "userId1" 4611686018427387904 (-8) BUY]
          (testOrder "so1" "userId2" 4611686018427387904 (-1) SELL) (setupTestData [] []) SELL
          = .ok r ∧
      r.1 = [] ∧ r.2.1.size = 7 ∧ r.2.2.cashOf "userId2" = 10000 ∧
      r.2.2.cashOf "userId2" ≠ 10000 + 4611686018427387904 * (-1 - r.2.1.size)) := by
  refine ⟨⟨by decide, _, rfl, ?_, ?_, ?_, ?_⟩, ⟨by decide, _, rfl, ?_, ?_, ?_, ?_⟩⟩ <;> decide

/-- C5, as amended: `getMatchedPrice` is the limit of the SELL order in both directions, the
resting order's for an incoming BUY and the incoming order's own for an incoming SELL; so an
incoming SELL with limit `L` and a size for which `L × size` fits in 64 bits, filling `N`
units against resting BUY orders of positive sizes, raises its owner's cash by exactly
`L × N` (SELL at 100 for 35 against BUY 101 x30 and BUY 100 x10: 10000 to 13500). -/
theorem incoming_sell_credited_at_own_limit :
    (∀ (side : Int) (matched newOrder : Order), getMatchedPrice side matched newOrder =
      if side = BUY then matched.limit else newOrder.limit) ∧
    (∀ (l : List Order) (newOrder : Order) (s : Store), s.hasUser newOrder.userId →
      (∀ o ∈ l, s.hasUser o.userId) → (∀ o ∈ l, o.buyOrSell = BUY) →
      newOrder.buyOrSell = SELL →
      fits64 (newOrder.limit * newOrder.size) → (∀ o ∈ l, 0 < o.size) → 0 < newOrder.size →
      ∃ r, executeOrder l newOrder s SELL = .ok r ∧
        r.2.2.cashOf newOrder.userId =
          s.cashOf newOrder.userId + newOrder.limit * (newOrder.size - r.2.1.size)) ∧
    (∃ ob' s',
      ((newOrderBooks.AddOrder (testOrder "bo1" "userId1" 100 10 BUY)).AddOrder
          (testOrder "bo2" "userId1" 101 30 BUY)).ExecuteOrder
        (testOrder "so1" "userId2" 100 35 SELL)
        (setupTestData [testOrder "bo1" "userId1" 100 10 BUY,
          testOrder "bo2" "userId1" 101 30 BUY] [testOrder "so1" "userId2" 100 35 SELL])
        = .ok (ob', s') ∧
      s'.cashOf "userId2" = 13500 ∧
      (ob'.bookOf "COIN").BuyList.map (fun o => (o.orderId, o.size)) = [("bo1", 5)]) := by
  refine ⟨fun side matched newOrder => rfl, ?_, ⟨_, _, rfl, by decide, by decide⟩⟩
  intro l newOrder s hnew hown hl hb hfit hpos hsz
  obtain ⟨r, hr⟩ := executeOrder_returns l newOrder s SELL (Or.inr rfl) hnew hown
  have hc := (executeOrder_sell_cash l newOrder s hnew hown
    (fun o ho => by rw [hl o ho]; decide) hb hfit hpos hsz r hr).2 newOrder.userId
  rw [if_pos rfl] at hc
  exact ⟨r, hr, hc⟩

/-- C5, instance: the SELL of the Go test `TestOrderBooks_ExecuteOrder_SELL_CASE1`. -/
theorem incoming_sell_credited_at_own_limit_witness :
    ∃ r, executeOrder [testOrder "bo2" "userId1" 101 30 BUY, testOrder "bo1" "userId1" 100 10 BUY]
        (testOrder "so1" "userId2" 100 35 SELL) (setupTestData [] []) SELL = .ok r ∧
      r.2.2.cashOf "userId2" = (setupTestData [] []).cashOf "userId2" +
        100 * (35 - r.2.1.size) :=
  incoming_sell_credited_at_own_limit.2.1
    [testOrder "bo2" "userId1" 101 30 BUY, testOrder "bo1" "userId1" 100 10 BUY]
    (testOrder "so1" "userId2" 100 35 SELL) (setupTestData [] []) (by decide) (by decide)
    (by decide) (by decide) (by decide) (by decide) (by decide)

/-! ## The residual of the incoming order -/

theorem executeOrder_no_match (l : List Order) (newOrder : Order) (s : Store) (side : Int)
    (hm : orderMatchAvailable l newOrder side = false) :
    executeOrder l newOrder s side = .ok (l, newOrder, s) :=
  executeOrderLoop_stop _ l newOrder s side hm

/-- C6: after `OrderBooks.ExecuteOrder` the incoming order is in the list of its own side of
its asset's book exactly when the residual size left by the matching is positive; it then
rests there with the residual size and all its other fields as submitted. When no match is
available (opposite list empty or its head not marketable) the residual is the order itself,
the opposite list and the store are unchanged, and the order is inserted with its full
size. -/
theorem ExecuteOrder_residual_rests (ob : OrderBooks) (newOrder : Order) (s : Store)
    (hnew : s.hasUser newOrder.userId)
    (hown : ∀ o ∈ (ob.bookOf newOrder.assetId).oppositeSide newOrder, s.hasUser o.userId)
    (hfresh : ∀ o ∈ (ob.bookOf newOrder.assetId).sameSide newOrder,
      o.orderId ≠ newOrder.orderId) :
    ∃ ob' s' opp' residual,
      ob.ExecuteOrder newOrder s = .ok (ob', s') ∧
      executeOrder ((ob.bookOf newOrder.assetId).oppositeSide newOrder) newOrder s
        (matchSide newOrder) = .ok (opp', residual, s') ∧
      (ob'.bookOf newOrder.assetId).oppositeSide newOrder = opp' ∧
      residual = { newOrder with size := residual.size } ∧
      ((∃ o ∈ (ob'.bookOf newOrder.assetId).sameSide newOrder, o.orderId = newOrder.orderId) ↔
        residual.size > 0) ∧
      (residual.size > 0 →
        (ob'.bookOf newOrder.assetId).sameSide newOrder =
          AddOrder ((ob.bookOf newOrder.assetId).sameSide newOrder)
            { newOrder with size := residual.size } ∧
        getOrder ((ob'.bookOf newOrder.assetId).sameSide newOrder) newOrder.orderId =
          { newOrder with size := residual.size }) ∧
      (¬ residual.size > 0 →
        (ob'.bookOf newOrder.assetId).sameSide newOrder =
          (ob.bookOf newOrder.assetId).sameSide newOrder) ∧
      (orderMatchAvailable ((ob.bookOf newOrder.assetId).oppositeSide newOrder) newOrder
          (matchSide newOrder) = false →
        residual = newOrder ∧
        opp' = (ob.bookOf newOrder.assetId).oppositeSide newOrder ∧ s' = s ∧
        (newOrder.size > 0 →
          (ob'.bookOf newOrder.assetId).sameSide newOrder =
            AddOrder ((ob.bookOf newOrder.assetId).sameSide newOrder) newOrder ∧
          getOrder ((ob'.bookOf newOrder.assetId).sameSide newOrder) newOrder.orderId
            = newOrder)) := by
  obtain ⟨r, hr⟩ := executeOrder_returns _ newOrder s (matchSide newOrder)
    (matchSide_cases newOrder) hnew hown
  obtain ⟨ob', hE, hopp, hsame, _⟩ := ExecuteOrder_of_executeOrder ob newOrder s r hr
  have hf := executeOrder_residual_fields (matchSide newOrder) (matchSide_cases newOrder) _
    newOrder s hnew hown r hr
  obtain ⟨opp', residual, s'⟩ := r
  simp only at hE hopp hsame hf
  have hpos : residual.size > 0 →
      (ob'.bookOf newOrder.assetId).sameSide newOrder =
        AddOrder ((ob.bookOf newOrder.assetId).sameSide newOrder)
          { newOrder with size := residual.size } ∧
      getOrder ((ob'.bookOf newOrder.assetId).sameSide newOrder) newOrder.orderId =
        { newOrder with size := residual.size } := by
    intro hp
    rw [hsame, if_pos hp, ← hf]
    refine ⟨rfl, ?_⟩
    have hid : residual.orderId = newOrder.orderId := by rw [hf]
    have := getOrder_AddOrder ((ob.bookOf newOrder.assetId).sameSide newOrder) residual
      (fun x hx => by rw [hid]; exact hfresh x hx)
    rw [hid] at this
    exact this
  have hneg : ¬ residual.size > 0 →
      (ob'.bookOf newOrder.assetId).sameSide newOrder =
        (ob.bookOf newOrder.assetId).sameSide newOrder := by
    intro hp
    rw [hsame, if_neg hp]
  refine ⟨ob', s', opp', residual, hE, hr, hopp, hf, ?_, hpos, hneg, ?_⟩
  · constructor
    · rintro ⟨o, ho, hid⟩
      by_contra hp
      rw [hneg hp] at ho
      exact hfresh o ho hid
    · intro hp
      refine ⟨{ newOrder with size := residual.size }, ?_, rfl⟩
      rw [(hpos hp).1, mem_AddOrder]
      exact Or.inl rfl
  · intro hm
    have e := (executeOrder_no_match _ newOrder s _ hm).symm.trans hr
    have e' := Except.ok.inj e
    simp only [Prod.mk.injEq] at e'
    obtain ⟨e1, e2, e3⟩ := e'
    refine ⟨e2.symm, e1.symm, e3.symm, fun hp => ?_⟩
    have := hpos (by rw [← e2]; exact hp)
    rw [← e2] at this
    exact this

/-- C6, instance: the SELL at 101 of the Go test `TestOrderBooks_ExecuteOrder_SELL_CASE4`
finds the resting BUY at 100 not marketable and rests with its full size. -/
theorem ExecuteOrder_residual_rests_witness :
    ∃ ob' s' opp' residual,
      (newOrderBooks.AddOrder (testOrder "bo1" "userId1" 100 10 BUY)).ExecuteOrder
        (testOrder "so1" "userId2" 101 35 SELL) (setupTestData [] []) = .ok (ob', s') ∧
      executeOrder (((newOrderBooks.AddOrder (testOrder "bo1" "userId1" 100 10 BUY)).bookOf
          "COIN").oppositeSide (testOrder "so1" "userId2" 101 35 SELL))
        (testOrder "so1" "userId2" 101 35 SELL) (setupTestData [] [])
        (matchSide (testOrder "so1" "userId2" 101 35 SELL)) = .ok (opp', residual, s') ∧
      (ob'.bookOf "COIN").oppositeSide (testOrder "so1" "userId2" 101 35 SELL) = opp' ∧
      residual = { testOrder "so1" "userId2" 101 35 SELL with size := residual.size } ∧
      ((∃ o ∈ (ob'.bookOf "COIN").sameSide (testOrder "so1" "userId2" 101 35 SELL),
          o.orderId = "so1") ↔ residual.size > 0) := by
  obtain ⟨ob', s', opp', residual, h1, h2, h3, h4, h5, _⟩ :=
    ExecuteOrder_residual_rests (newOrderBooks.AddOrder (testOrder "bo1" "userId1" 100 10 BUY))
      (testOrder "so1" "userId2" 101 35 SELL) (setupTestData [] []) (by decide) (by decide)
      (by decide)
  exact ⟨ob', s', opp', residual, h1, h2, h3, h4, h5⟩

/-! ## Statuses after matching -/

theorem residual_listed_iff (same same' : List Order) (residual newOrder : Order)
    (hid : residual.orderId = newOrder.orderId)
    (hsame : same' = if residual.size > 0 then AddOrder same residual else same)
    (hfresh : ∀ o ∈ same, o.orderId ≠ newOrder.orderId) :
    (∃ o ∈ same', o.orderId = newOrder.orderId) ↔ residual.size > 0 := by
  constructor
  · rintro ⟨o, ho, hoid⟩
    by_contra hp
    rw [hsame, if_neg hp] at ho
    exact hfresh o ho hoid
  · intro hp
    refine ⟨residual, ?_, hid⟩
    rw [hsame, if_pos hp, mem_AddOrder]
    exact Or.inl rfl

theorem status_fill (x : Order) (st : OrderStatus) (n : Int) : (x.fill st n).status = st := rfl

/-- C7: statuses kept by `ExecuteOrder`, for distinct order ids, positive sizes and owners
present in the store. The opposite list splits into the orders filled completely (`done`),
which end COMPLETE in the store and are gone from the list, and the rest, of which at most
the head is filled in part: it ends WORKING and stays at the head with its size reduced by
the fill. The incoming order ends COMPLETE exactly when its residual size is 0 and otherwise
stays WORKING. Hence a touched order is in a list exactly when its store status is WORKING
and its remaining size is positive. -/
theorem ExecuteOrder_status_bookkeeping (ob : OrderBooks) (newOrder : Order) (s : Store)
    (hnew : s.hasUser newOrder.userId)
    (hown : ∀ o ∈ (ob.bookOf newOrder.assetId).oppositeSide newOrder, s.hasUser o.userId)
    (hnd : (newOrder.orderId ::
      ((ob.bookOf newOrder.assetId).oppositeSide newOrder).map (fun o => o.orderId)).Nodup)
    (hfresh : ∀ o ∈ (ob.bookOf newOrder.assetId).sameSide newOrder,
      o.orderId ≠ newOrder.orderId)
    (hpos : ∀ o ∈ (ob.bookOf newOrder.assetId).oppositeSide newOrder, 0 < o.size)
    (hsz : 0 < newOrder.size)
    (hw : (s.orderOf newOrder.userId newOrder.orderId).status = Working) :
    ∃ ob' s' residual done rest,
      ob.ExecuteOrder newOrder s = .ok (ob', s') ∧
      executeOrder ((ob.bookOf newOrder.assetId).oppositeSide newOrder) newOrder s
        (matchSide newOrder) =
          .ok ((ob'.bookOf newOrder.assetId).oppositeSide newOrder, residual, s') ∧
      (ob.bookOf newOrder.assetId).oppositeSide newOrder = done ++ rest ∧
      (∀ o ∈ done,
        s'.orderOf o.userId o.orderId = (s.orderOf o.userId o.orderId).fill Complete o.size ∧
        (s'.orderOf o.userId o.orderId).status = Complete ∧
        ∀ x ∈ (ob'.bookOf newOrder.assetId).oppositeSide newOrder, x.orderId ≠ o.orderId) ∧
      (((ob'.bookOf newOrder.assetId).oppositeSide newOrder = rest ∧
          ∀ o ∈ rest, s'.orderOf o.userId o.orderId = s.orderOf o.userId o.orderId) ∨
       (∃ h t k, rest = h :: t ∧ 0 < k ∧ k < h.size ∧
          (ob'.bookOf newOrder.assetId).oppositeSide newOrder = { h with size := k } :: t ∧
          residual.size = 0 ∧
          s'.orderOf h.userId h.orderId =
            (s.orderOf h.userId h.orderId).fill Working (h.size - k) ∧
          (s'.orderOf h.userId h.orderId).status = Working ∧
          ∀ o ∈ t, s'.orderOf o.userId o.orderId = s.orderOf o.userId o.orderId)) ∧
      ((s'.orderOf newOrder.userId newOrder.orderId).status = Complete ↔ residual.size = 0) ∧
      (residual.size ≠ 0 → (s'.orderOf newOrder.userId newOrder.orderId).status = Working) ∧
      ((∃ x ∈ (ob'.bookOf newOrder.assetId).sameSide newOrder, x.orderId = newOrder.orderId) ↔
        ((s'.orderOf newOrder.userId newOrder.orderId).status = Working ∧ residual.size > 0)) ∧
      (∀ o ∈ (ob.bookOf newOrder.assetId).oppositeSide newOrder,
        o ∉ (ob'.bookOf newOrder.assetId).oppositeSide newOrder →
        ((∃ x ∈ (ob'.bookOf newOrder.assetId).oppositeSide newOrder,
            x.orderId = o.orderId ∧ x.size > 0) ↔
          (s'.orderOf o.userId o.orderId).status = Working)) := by
  obtain ⟨r, hr⟩ := executeOrder_returns _ newOrder s (matchSide newOrder)
    (matchSide_cases newOrder) hnew hown
  obtain ⟨ob', hE, hopp, hsame, _⟩ := ExecuteOrder_of_executeOrder ob newOrder s r hr
  have hf := executeOrder_residual_fields (matchSide newOrder) (matchSide_cases newOrder) _
    newOrder s hnew hown r hr
  have sh := executeOrder_shape (matchSide newOrder) (matchSide_cases newOrder) _ newOrder s
    hnew hown hnd hpos hsz r hr
  obtain ⟨opp', residual, s'⟩ := r
  simp only at hE hopp hsame hf
  subst hopp
  obtain ⟨done, rest, hsplit, hdone, hrest⟩ := sh.split
  have hs0 : 0 ≤ residual.size := sh.size_nonneg
  have hinc := sh.incoming
  simp only at hinc hdone hrest
  have hndl : (((ob.bookOf newOrder.assetId).oppositeSide newOrder).map
      (fun o => o.orderId)).Nodup := (List.nodup_cons.1 hnd).2
  rw [hsplit, List.map_append, List.nodup_append] at hndl
  have hdisj : ∀ o ∈ done, ∀ x ∈ rest, x.orderId ≠ o.orderId := by
    intro o ho x hx e
    exact hndl.2.2 (List.mem_map_of_mem _ ho) (by rw [← e]; exact List.mem_map_of_mem _ hx)
  have hgone : ∀ o ∈ done,
      ∀ x ∈ (ob'.bookOf newOrder.assetId).oppositeSide newOrder, x.orderId ≠ o.orderId := by
    intro o ho x hx
    rcases hrest with ⟨e, _⟩ | ⟨h, t, k, e, _, _, el, _⟩
    · rw [e] at hx
      exact hdisj o ho x hx
    · rw [el] at hx
      rcases List.mem_cons.1 hx with rfl | hx
      · exact hdisj o ho h (by rw [e]; exact List.mem_cons_self _ _)
      · exact hdisj o ho x (by rw [e]; exact List.mem_cons_of_mem _ hx)
  have hwc : Working ≠ Complete := by decide
  have hstC : (s'.orderOf newOrder.userId newOrder.orderId).status = Complete ↔
      residual.size = 0 := by
    rw [hinc]
    by_cases c : residual.size = newOrder.size
    · rw [if_pos c, hw]
      constructor
      · intro e; exact absurd e hwc
      · intro e; omega
    · rw [if_neg c, status_fill]
      by_cases c0 : residual.size = 0
      · simp [c0]
      · simp only [c0, if_false, iff_false]
        exact hwc
  have hstW : residual.size ≠ 0 →
      (s'.orderOf newOrder.userId newOrder.orderId).status = Working := by
    intro c0
    rw [hinc]
    by_cases c : residual.size = newOrder.size
    · rw [if_pos c, hw]
    · rw [if_neg c, status_fill, if_neg c0]
  have hlisted := residual_listed_iff _ _ residual newOrder (by rw [hf]) hsame hfresh
  refine ⟨ob', s', residual, done, rest, hE, hr, hsplit, ?_, ?_, hstC, hstW, ?_, ?_⟩
  · intro o ho
    exact ⟨hdone o ho, by rw [hdone o ho, status_fill], hgone o ho⟩
  · rcases hrest with ⟨e, hu⟩ | ⟨h, t, k, e, hk0, hk1, el, ez, eh, hu⟩
    · exact Or.inl ⟨e, hu⟩
    · exact Or.inr ⟨h, t, k, e, hk0, hk1, el, ez, eh, by rw [eh, status_fill], hu⟩
  · rw [hlisted]
    constructor
    · intro hp
      exact ⟨hstW (by omega), hp⟩
    · intro hp
      exact hp.2
  · intro o ho hno
    rw [hsplit, List.mem_append] at ho
    rcases ho with ho | ho
    · constructor
      · rintro ⟨x, hx, hid, _⟩
        exact absurd hid (hgone o ho x hx)
      · intro hst
        rw [hdone o ho, status_fill] at hst
        exact absurd hst.symm hwc
    · rcases hrest with ⟨e, _⟩ | ⟨h, t, k, e, hk0, _, el, _, eh, _⟩
      · exact absurd (by rw [e]; exact ho) hno
      · rw [e] at ho
        rcases List.mem_cons.1 ho with rfl | ho
        · constructor
          · intro _
            rw [eh, status_fill]
          · intro _
            exact ⟨{ o with size := k }, by rw [el]; exact List.mem_cons_self _ _, rfl, hk0⟩
        · exact absurd (by rw [el]; exact List.mem_cons_of_mem _ ho) hno

/-- C7, instance: the BUY at 100 for 25 of the Go test `TestOrderBooks_ExecuteOrder_BUY_CASE1`
against resting SELLs at 100 (10 units) and 101 (30 units). -/
theorem ExecuteOrder_status_bookkeeping_witness :
    ∃ (ob' : OrderBooks) (s' : Store) (residual : Order),
      ((newOrderBooks.AddOrder (testOrder "so1" "userId1" 100 10 SELL)).AddOrder
          (testOrder "so2" "userId1" 101 30 SELL)).ExecuteOrder
        (testOrder "bo1" "userId2" 100 25 BUY)
        (setupTestData [testOrder "so1" "userId1" 100 10 SELL,
          testOrder "so2" "userId1" 101 30 SELL] [testOrder "bo1" "userId2" 100 25 BUY])
        = .ok (ob', s') ∧
      ((s'.orderOf "userId2" "bo1").status = Complete ↔ residual.size = 0) ∧
      (residual.size ≠ 0 → (s'.orderOf "userId2" "bo1").status = Working) := by
  obtain ⟨ob', s', residual, _, _, h1, _, _, _, _, h2, h3, _⟩ :=
    ExecuteOrder_status_bookkeeping
      ((newOrderBooks.AddOrder (testOrder "so1" "userId1" 100 10 SELL)).AddOrder
        (testOrder "so2" "userId1" 101 30 SELL))
      (testOrder "bo1" "userId2" 100 25 BUY)
      (setupTestData [testOrder "so1" "userId1" 100 10 SELL,
        testOrder "so2" "userId1" 101 30 SELL] [testOrder "bo1" "userId2" 100 25 BUY])
      (by decide) (by decide) (by decide) (by decide) (by decide) (by decide) (by decide)
  exact ⟨ob', s', residual, h1, h2, h3⟩

/-! ## Conservation -/

theorem sumReservedOf_eq_zero (v : UserId) (l : List Order) (h : ∀ o ∈ l, o.userId ≠ v) :
    sumReservedOf v l = 0 := by
  induction l with
  | nil => rfl
  | cons a l ih =>
    have ha : a.userId ≠ v := h a (List.mem_cons_self _ _)
    simp only [sumReservedOf, List.map_cons, List.sum_cons, ha, if_false, zero_add]
    exact ih (fun o ho => h o (List.mem_cons_of_mem _ ho))

/-- With positive sizes the residual never exceeds the incoming size, and a marketable head
means at least one unit is filled. -/
theorem executeOrder_fills_when_marketable (side : Int) (hside : side = BUY ∨ side = SELL)
    (l : List Order) (newOrder : Order) (s : Store) (hnew : s.hasUser newOrder.userId)
    (hown : ∀ o ∈ l, s.hasUser o.userId) (hpos : ∀ o ∈ l, 0 < o.size)
    (hsz : 0 < newOrder.size)
    (r : List Order × Order × Store) (hr : executeOrder l newOrder s side = .ok r) :
    r.2.1.size ≤ newOrder.size ∧
    (orderMatchAvailable l newOrder side = true → r.2.1.size < newOrder.size) := by
  refine executeOrder_induct side hside
    (fun l newOrder _ r => (∀ o ∈ l, 0 < o.size) → 0 < newOrder.size →
      r.2.1.size ≤ newOrder.size ∧
      (orderMatchAvailable l newOrder side = true → r.2.1.size < newOrder.size))
    ?_ ?_ ?_ l newOrder s hnew hown r hr hpos hsz
  · intro l newOrder s hm _ _
    exact ⟨le_refl _, fun h => by rw [hm] at h; cases h⟩
  · intro h t newOrder s s1 s2 trade _ _ hz _ _ _ hsz
    have e : ({ newOrder with size := newOrder.size - trade } : Order).size = 0 := hz
    exact ⟨by show ({ newOrder with size := newOrder.size - trade } : Order).size ≤ _
              rw [e]; omega,
           fun _ => by
              show ({ newOrder with size := newOrder.size - trade } : Order).size < _
              rw [e]; exact hsz⟩
  · intro h t newOrder s s1 s2 trade r _ ht hz _ _ ih hpos hsz
    obtain ⟨htr, hlt⟩ := trade_eq_head_of_residual ht hz
    have hhp : 0 < h.size := hpos h (List.mem_cons_self _ _)
    have i := (ih (fun o ho => hpos o (List.mem_cons_of_mem _ ho))
      (by show 0 < newOrder.size - trade; omega)).1
    have i' : r.2.1.size ≤ newOrder.size - trade := i
    exact ⟨by omega, fun _ => by omega⟩

/-- C8, counterexample: a BUY at 100 for 10 of userId1 is reserved and rests. A request of
userId2 with side 2, limit 100 and size 10 is accepted by `validateOrderReq`; `AddUserOrder`
debits its size from the inventory (total COIN 200 to 190) and `ExecuteOrder` matches it
against the BUY list, where `UpdateUserAsset` credits 10 COIN to both owners: the total is 210
with an empty sell list, neither 190 nor 190 plus the incoming size. -/
theorem inventory_side_counterexample :
    validateOrderReq (GetUserData (setupTestData [] []) "userId2")
      { UserId := "userId2", Limit := 100, AssetId := "COIN", Size := 10, BuyOrSell := 2 }
      = none ∧
    ∃ (s₁ s₂ : Store) (ob' : OrderBooks) (s' : Store),
      AddUserOrder (setupTestData [] []) (testOrder "bo1" "userId1" 100 10 BUY) = .ok s₁ ∧
      AddUserOrder s₁ (testOrder "xo1" "userId2" 100 10 2) = .ok s₂ ∧
      (newOrderBooks.AddOrder (testOrder "bo1" "userId1" 100 10 BUY)).ExecuteOrder
        (testOrder "xo1" "userId2" 100 10 2) s₂ = .ok (ob', s') ∧
      s₁.totalAsset "COIN" = 200 ∧
      s₂.totalAsset "COIN" +
        sumSizes ((newOrderBooks.AddOrder (testOrder "bo1" "userId1" 100 10 BUY)).bookOf
          "COIN").SellList = 190 ∧
      (ob'.bookOf "COIN").SellList = [] ∧ (ob'.bookOf "COIN").BuyList = [] ∧
      s'.assetOf "userId1" "COIN" = 110 ∧ s'.assetOf "userId2" "COIN" = 100 ∧
      s'.totalAsset "COIN" + sumSizes (ob'.bookOf "COIN").SellList = 210 := by
  refine ⟨by decide, _, _, _, _, rfl, rfl, rfl, ?_, ?_, ?_, ?_, ?_, ?_, ?_⟩ <;> decide

/-- C8, as amended: inventory conservation. For an `ExecuteOrder` call on asset `A` of an order
whose side is BUY or SELL (positive incoming size, distinct order ids, owners present, the book
of `A` holding BUY orders for `A` in its buy list and SELL orders for `A` in its sell list),
the sum over all users of `inventory[A]` plus the sizes of the SELL list of `A` after the call
equals the same sum before the call plus the incoming order's size when it is a SELL; for
every other asset nothing changes. -/
theorem ExecuteOrder_inventory_conserved (ob : OrderBooks) (newOrder : Order) (s : Store)
    (hside : newOrder.buyOrSell = BUY ∨ newOrder.buyOrSell = SELL)
    (hnew : s.hasUser newOrder.userId)
    (hown : ∀ o ∈ (ob.bookOf newOrder.assetId).oppositeSide newOrder, s.hasUser o.userId)
    (hnd : (newOrder.orderId ::
      ((ob.bookOf newOrder.assetId).oppositeSide newOrder).map (fun o => o.orderId)).Nodup)
    (hsz : 0 < newOrder.size)
    (hbuy : ∀ o ∈ (ob.bookOf newOrder.assetId).BuyList,
      o.buyOrSell = BUY ∧ o.assetId = newOrder.assetId)
    (hsell : ∀ o ∈ (ob.bookOf newOrder.assetId).SellList,
      o.buyOrSell = SELL ∧ o.assetId = newOrder.assetId) :
    ∃ ob' s', ob.ExecuteOrder newOrder s = .ok (ob', s') ∧
      s'.totalAsset newOrder.assetId + sumSizes (ob'.bookOf newOrder.assetId).SellList =
        s.totalAsset newOrder.assetId + sumSizes (ob.bookOf newOrder.assetId).SellList +
          (if newOrder.buyOrSell = SELL then newOrder.size else 0) ∧
      ∀ B, B ≠ newOrder.assetId →
        s'.totalAsset B + sumSizes (ob'.bookOf B).SellList =
          s.totalAsset B + sumSizes (ob.bookOf B).SellList := by
  obtain ⟨r, hr⟩ := executeOrder_returns _ newOrder s (matchSide newOrder)
    (matchSide_cases newOrder) hnew hown
  obtain ⟨ob', hE, hopp, hsame, hother⟩ := ExecuteOrder_of_executeOrder ob newOrder s r hr
  have hndl := (List.nodup_cons.1 hnd).2
  have hk := executeOrder_sizes _ (matchSide_cases newOrder) _ newOrder s hnew hown hndl r hr
  have h0 := executeOrder_residual_nonneg _ (matchSide_cases newOrder) _ newOrder s hnew hown
    (le_of_lt hsz) r hr
  refine ⟨ob', r.2.2, hE, ?_, ?_⟩
  · rcases hside with hb | hb
    · have hne : newOrder.buyOrSell ≠ SELL := by rw [hb]; decide
      simp only [OrderBook.oppositeSide, OrderBook.sameSide, matchSide, hb, if_true]
        at hr hopp hsame hk hown
      have ha := executeOrder_buy_asset _ newOrder s hnew hown (fun o ho => (hsell o ho).1)
        hne r hr newOrder.assetId
      rw [if_pos rfl] at ha
      rw [hopp, ha, if_neg hne]
      omega
    · have hnb : newOrder.buyOrSell ≠ BUY := by rw [hb]; decide
      simp only [OrderBook.oppositeSide, OrderBook.sameSide, matchSide, hnb, if_false]
        at hr hopp hsame hk hown
      have ha := executeOrder_sell_asset newOrder.assetId _ newOrder s hnew hown
        (fun o ho => by rw [(hbuy o ho).1]; decide) (fun o ho => (hbuy o ho).2) hb r hr
        newOrder.assetId
      rw [if_pos rfl] at ha
      rw [hsame, ha, if_pos hb]
      by_cases hp : r.2.1.size > 0
      · rw [if_pos hp, sumSizes_AddOrder]
        omega
      · rw [if_neg hp]
        omega
  · intro B hB
    rw [hother B hB]
    rcases hside with hb | hb
    · have hne : newOrder.buyOrSell ≠ SELL := by rw [hb]; decide
      simp only [OrderBook.oppositeSide, matchSide, hb, if_true] at hr hown
      have ha := executeOrder_buy_asset _ newOrder s hnew hown (fun o ho => (hsell o ho).1)
        hne r hr B
      rw [if_neg hB] at ha
      rw [ha]
      omega
    · have hnb : newOrder.buyOrSell ≠ BUY := by rw [hb]; decide
      simp only [OrderBook.oppositeSide, matchSide, hnb, if_false] at hr hown
      have ha := executeOrder_sell_asset newOrder.assetId _ newOrder s hnew hown
        (fun o ho => by rw [(hbuy o ho).1]; decide) (fun o ho => (hbuy o ho).2) hb r hr B
      rw [if_neg hB] at ha
      rw [ha]
      omega

/-- C8, instance: the BUY at 100 for 40 of the Go test `TestOrderBooks_ExecuteOrder_BUY_CASE2`
against two resting SELLs at 100. -/
theorem ExecuteOrder_inventory_conserved_witness :
    ∃ (ob' : OrderBooks) (s' : Store),
      ((newOrderBooks.AddOrder (testOrder "so1" "userId1" 100 10 SELL)).AddOrder
          (testOrder "so2" "userId1" 100 30 SELL)).ExecuteOrder
        (testOrder "bo1" "userId2" 100 40 BUY) (setupTestData [] []) = .ok (ob', s') ∧
      s'.totalAsset "COIN" + sumSizes (ob'.bookOf "COIN").SellList =
        (setupTestData [] []).totalAsset "COIN" +
          sumSizes (((newOrderBooks.AddOrder (testOrder "so1" "userId1" 100 10 SELL)).AddOrder
            (testOrder "so2" "userId1" 100 30 SELL)).bookOf "COIN").SellList +
          (if (testOrder "bo1" "userId2" 100 40 BUY).buyOrSell = SELL then 40 else 0) := by
  obtain ⟨ob', s', h1, h2, _⟩ := ExecuteOrder_inventory_conserved
    ((newOrderBooks.AddOrder (testOrder "so1" "userId1" 100 10 SELL)).AddOrder
      (testOrder "so2" "userId1" 100 30 SELL))
    (testOrder "bo1" "userId2" 100 40 BUY) (setupTestData [] []) (by decide) (by decide)
    (by decide) (by decide) (by decide) (by decide) (by decide)
  exact ⟨ob', s', h1, h2⟩

/-- C9, counterexample: a SELL at 100 for 10 rests; a BUY at 105 for 10 is reserved with
`AddUserOrder` (cash 10000 to 8950) and executed. Cash plus BUY reservations is 20000 before
the call and 19950 after it. An order of side 2 at limit 100 for 10, reserved with
`AddUserOrder` and executed against a resting reserved BUY at 100 for 10, takes the sum from
20000 to 19000. A resting SELL at limit -2^62 for 3 hit by a BUY at limit 0 for 3 is credited
the 64-bit product 2^62: the sum rises from 20000 to 20000 + 2^62. -/
theorem cash_conservation_counterexample :
    (∃ (s : Store) (ob' : OrderBooks) (s' : Store),
      AddUserOrder (setupTestData [testOrder "so1" "userId1" 100 10 SELL] [])
        (testOrder "bo1" "userId2" 105 10 BUY) = .ok s ∧
      (newOrderBooks.AddOrder (testOrder "so1" "userId1" 100 10 SELL)).ExecuteOrder
        (testOrder "bo1" "userId2" 105 10 BUY) s = .ok (ob', s') ∧
      s.totalCash +
        sumReserved ((newOrderBooks.AddOrder (testOrder "so1" "userId1" 100 10 SELL)).bookOf
          "COIN").BuyList + 105 * 10 = 20000 ∧
      s'.totalCash + sumReserved (ob'.bookOf "COIN").BuyList = 19950 ∧
      s'.totalCash + sumReserved (ob'.bookOf "COIN").BuyList ≠
        s.totalCash +
          sumReserved ((newOrderBooks.AddOrder (testOrder "so1" "userId1" 100 10 SELL)).bookOf
            "COIN").BuyList + 105 * 10) ∧
    (∃ (s₁ s₂ : Store) (ob' : OrderBooks) (s' : Store),
      AddUserOrder (setupTestData [] []) (testOrder "bo1" "userId1" 100 10 BUY) = .ok s₁ ∧
      AddUserOrder s₁ (testOrder "xo1" "userId2" 100 10 2) = .ok s₂ ∧
      (newOrderBooks.AddOrder (testOrder "bo1" "userId1" 100 10 BUY)).ExecuteOrder
        (testOrder "xo1" "userId2" 100 10 2) s₂ = .ok (ob', s') ∧
      s₂.totalCash +
        sumReserved ((newOrderBooks.AddOrder (testOrder "bo1" "userId1" 100 10 BUY)).bookOf
          "COIN").BuyList = 20000 ∧
      s'.totalCash + sumReserved (ob'.bookOf "COIN").BuyList = 19000) ∧
    (∃ (s₁ s₂ : Store) (ob' : OrderBooks) (s' : Store),
      AddUserOrder (setupTestData [] [])
        (testOrder "so1" "userId1" (-4611686018427387904) 3 SELL) = .ok s₁ ∧
      AddUserOrder s₁ (testOrder "bo1" "userId2" 0 3 BUY) = .ok s₂ ∧
      (newOrderBooks.AddOrder
          (testOrder "so1" "userId1" (-4611686018427387904) 3 SELL)).ExecuteOrder
        (testOrder "bo1" "userId2" 0 3 BUY) s₂ = .ok (ob', s') ∧
      s₂.totalCash + 0 * 3 = 20000 ∧
      (ob'.bookOf "COIN").BuyList = [] ∧
      s'.totalCash = 20000 + 4611686018427387904) := by
  refine ⟨⟨_, _, _, rfl, rfl, ?_, ?_, ?_⟩, ⟨_, _, _, _, rfl, rfl, rfl, ?_, ?_⟩,
    ⟨_, _, _, _, rfl, rfl, rfl, ?_, ?_, ?_⟩⟩ <;> decide

/-- C9, as amended: matching never creates cash. For an `ExecuteOrder` call of an order whose
side is BUY or SELL (positive sizes, distinct order ids, owners present, BUY orders in the buy
list and SELL orders in the sell list, `limit × size` of the incoming order and of every
order of the opposite list within 64 bits), the sum over all users of cash plus the sum of
`limit × remaining` over the buy list after the call is at most the same sum before the call
plus the incoming BUY's reservation `limit × size`; the two are equal when every order of the
opposite list has the incoming order's limit; the books of the other assets are unchanged. -/
theorem ExecuteOrder_cash_never_created (ob : OrderBooks) (newOrder : Order) (s : Store)
    (hside : newOrder.buyOrSell = BUY ∨ newOrder.buyOrSell = SELL)
    (hnew : s.hasUser newOrder.userId)
    (hown : ∀ o ∈ (ob.bookOf newOrder.assetId).oppositeSide newOrder, s.hasUser o.userId)
    (hnd : (newOrder.orderId ::
      ((ob.bookOf newOrder.assetId).oppositeSide newOrder).map (fun o => o.orderId)).Nodup)
    (hpos : ∀ o ∈ (ob.bookOf newOrder.assetId).oppositeSide newOrder, 0 < o.size)
    (hsz : 0 < newOrder.size)
    (hbuy : ∀ o ∈ (ob.bookOf newOrder.assetId).BuyList, o.buyOrSell = BUY)
    (hsell : ∀ o ∈ (ob.bookOf newOrder.assetId).SellList, o.buyOrSell = SELL)
    (hfit : ∀ o ∈ (ob.bookOf newOrder.assetId).oppositeSide newOrder,
      fits64 (o.limit * o.size))
    (hfitn : fits64 (newOrder.limit * newOrder.size)) :
    ∃ ob' s', ob.ExecuteOrder newOrder s = .ok (ob', s') ∧
      s'.totalCash + sumReserved (ob'.bookOf newOrder.assetId).BuyList ≤
        s.totalCash + sumReserved (ob.bookOf newOrder.assetId).BuyList +
          (if newOrder.buyOrSell = BUY then newOrder.limit * newOrder.size else 0) ∧
      ((∀ o ∈ (ob.bookOf newOrder.assetId).oppositeSide newOrder, o.limit = newOrder.limit) →
        s'.totalCash + sumReserved (ob'.bookOf newOrder.assetId).BuyList =
          s.totalCash + sumReserved (ob.bookOf newOrder.assetId).BuyList +
            (if newOrder.buyOrSell = BUY then newOrder.limit * newOrder.size else 0)) ∧
      ∀ B, B ≠ newOrder.assetId → ob'.bookOf B = ob.bookOf B := by
  obtain ⟨r, hr⟩ := executeOrder_returns _ newOrder s (matchSide newOrder)
    (matchSide_cases newOrder) hnew hown
  obtain ⟨ob', hE, hopp, hsame, hother⟩ := ExecuteOrder_of_executeOrder ob newOrder s r hr
  have hndl := (List.nodup_cons.1 hnd).2
  have h0 := executeOrder_residual_nonneg _ (matchSide_cases newOrder) _ newOrder s hnew hown
    (le_of_lt hsz) r hr
  have hf := executeOrder_residual_fields _ (matchSide_cases newOrder) _ newOrder s hnew hown
    r hr
  have hlim : r.2.1.limit = newOrder.limit := by rw [hf]
  obtain ⟨p1, p2, p3⟩ := executeOrder_paid_vs_reserved _ (matchSide_cases newOrder) _ newOrder
    s hnew hown hndl hpos hsz r hr
  refine ⟨ob', r.2.2, hE, ?_, ?_, hother⟩
  · rcases hside with hb | hb
    · have hne : newOrder.buyOrSell ≠ SELL := by rw [hb]; decide
      simp only [OrderBook.oppositeSide, OrderBook.sameSide, matchSide, hb, if_true]
        at hr hopp hsame hown hndl p1 hfit
      have hc := (executeOrder_buy_cash _ newOrder s hnew hown hndl hsell hne hfit hsz r hr).1
      have hp := p1 trivial
      have hmul : newOrder.limit * (newOrder.size - r.2.1.size) =
          newOrder.limit * newOrder.size - newOrder.limit * r.2.1.size := by ring
      rw [hsame, hc, if_pos hb]
      by_cases hz : r.2.1.size > 0
      · rw [if_pos hz, sumReserved_AddOrder, hlim]
        linarith
      · have hz0 : r.2.1.size = 0 := by omega
        rw [if_neg hz]
        rw [hz0, sub_zero] at hp
        linarith
    · have hnb : newOrder.buyOrSell ≠ BUY := by rw [hb]; decide
      simp only [OrderBook.oppositeSide, OrderBook.sameSide, matchSide, hnb, if_false]
        at hr hopp hsame hown hndl p2 hpos
      have hc := (executeOrder_sell_cash _ newOrder s hnew hown
        (fun o ho => by rw [hbuy o ho]; decide) hb hfitn hpos hsz r hr).1
      have hp := p2 trivial
      rw [hopp, hc, if_neg hnb]
      linarith
  · intro heq
    have hp := p3 heq
    rcases hside with hb | hb
    · have hne : newOrder.buyOrSell ≠ SELL := by rw [hb]; decide
      simp only [OrderBook.oppositeSide, OrderBook.sameSide, matchSide, hb, if_true]
        at hr hopp hsame hown hndl hp hfit
      have hc := (executeOrder_buy_cash _ newOrder s hnew hown hndl hsell hne hfit hsz r hr).1
      have hmul : newOrder.limit * (newOrder.size - r.2.1.size) =
          newOrder.limit * newOrder.size - newOrder.limit * r.2.1.size := by ring
      rw [hsame, hc, if_pos hb]
      by_cases hz : r.2.1.size > 0
      · rw [if_pos hz, sumReserved_AddOrder, hlim]
        linarith
      · have hz0 : r.2.1.size = 0 := by omega
        rw [if_neg hz]
        rw [hz0, sub_zero] at hp
        linarith
    · have hnb : newOrder.buyOrSell ≠ BUY := by rw [hb]; decide
      simp only [OrderBook.oppositeSide, OrderBook.sameSide, matchSide, hnb, if_false]
        at hr hopp hsame hown hndl hp hpos
      have hc := (executeOrder_sell_cash _ newOrder s hnew hown
        (fun o ho => by rw [hbuy o ho]; decide) hb hfitn hpos hsz r hr).1
      rw [hopp, hc, if_neg hnb]
      linarith

/-- C9, instance of the amended statement: the run of the counterexample, where the sum drops
from 20000 to 19950. -/
theorem ExecuteOrder_cash_never_created_witness :
    ∃ (ob' : OrderBooks) (s' : Store),
      (newOrderBooks.AddOrder (testOrder "so1" "userId1" 100 10 SELL)).ExecuteOrder
        (testOrder "bo1" "userId2" 105 10 BUY) (setupTestData [] []) = .ok (ob', s') ∧
      s'.totalCash + sumReserved (ob'.bookOf "COIN").BuyList ≤
        (setupTestData [] []).totalCash +
          sumReserved ((newOrderBooks.AddOrder (testOrder "so1" "userId1" 100 10 SELL)).bookOf
            "COIN").BuyList +
          (if (testOrder "bo1" "userId2" 105 10 BUY).buyOrSell = BUY then 105 * 10 else 0) := by
  obtain ⟨ob', s', h1, h2, _⟩ := ExecuteOrder_cash_never_created
    (newOrderBooks.AddOrder (testOrder "so1" "userId1" 100 10 SELL))
    (testOrder "bo1" "userId2" 105 10 BUY) (setupTestData [] []) (by decide) (by decide)
    (by decide) (by decide) (by decide) (by decide) (by decide) (by decide) (by decide)
    (by decide)
  exact ⟨ob', s', h1, h2⟩

/-! ## No refund of the buyer's over-reservation -/

theorem sumReservedOf_result_zero (side : Int) (hside : side = BUY ∨ side = SELL)
    (l : List Order) (newOrder : Order) (s : Store) (hnew : s.hasUser newOrder.userId)
    (hown : ∀ o ∈ l, s.hasUser o.userId) (hnd : (l.map (fun o => o.orderId)).Nodup)
    (r : List Order × Order × Store) (hr : executeOrder l newOrder s side = .ok r)
    (v : UserId) (hv : ∀ o ∈ l, o.userId ≠ v) : sumReservedOf v r.1 = 0 := by
  apply sumReservedOf_eq_zero
  intro o ho
  obtain ⟨o₀, h0, e⟩ := executeOrder_result_mem side hside l newOrder s hnew hown hnd r hr o ho
  rw [e]
  exact hv o₀ h0

/-- A single resting SELL, with `limit × size` within 64 bits, hit by an incoming BUY whose
limit is at least its own: the seller is credited the resting limit for `min` of the two
sizes, the buyer's cash does not move. -/
theorem executeOrder_single_sell (m newOrder : Order) (s : Store)
    (hm : m.buyOrSell = SELL) (hb : newOrder.buyOrSell = BUY) (hle : m.limit ≤ newOrder.limit)
    (hu : m.userId ≠ newOrder.userId) (hid : m.orderId ≠ newOrder.orderId)
    (hms : 0 < m.size) (hsz : 0 < newOrder.size) (hfit : fits64 (m.limit * m.size))
    (hnew : s.hasUser newOrder.userId) (hmu : s.hasUser m.userId)
    (r : List Order × Order × Store) (hr : executeOrder [m] newOrder s BUY = .ok r) :
    r.2.2.cashOf m.userId = s.cashOf m.userId + m.limit * min m.size newOrder.size ∧
    r.2.2.cashOf newOrder.userId = s.cashOf newOrder.userId := by
  have hown : ∀ o ∈ [m], s.hasUser o.userId := fun o ho => by
    rw [List.mem_singleton.1 ho]; exact hmu
  have hnd1 : (([m] : List Order).map (fun o => o.orderId)).Nodup := by simp
  have hnd : (newOrder.orderId :: ([m] : List Order).map (fun o => o.orderId)).Nodup := by
    simp [Ne.symm hid]
  have hpos : ∀ o ∈ [m], 0 < o.size := fun o ho => by rw [List.mem_singleton.1 ho]; exact hms
  have hall : ∀ o ∈ [m], o.buyOrSell = SELL := fun o ho => by
    rw [List.mem_singleton.1 ho]; exact hm
  have hc := (executeOrder_buy_cash [m] newOrder s hnew hown hnd1 hall (by rw [hb]; decide)
    (fun o ho => by rw [List.mem_singleton.1 ho]; exact hfit) hsz r hr).2
  have hk := executeOrder_sizes BUY (Or.inl rfl) [m] newOrder s hnew hown hnd1 r hr
  have h0 := executeOrder_residual_nonneg BUY (Or.inl rfl) [m] newOrder s hnew hown
    (le_of_lt hsz) r hr
  have hfill := (executeOrder_fills_when_marketable BUY (Or.inl rfl) [m] newOrder s hnew hown
    hpos hsz r hr).2 ((orderMatchAvailable_cons m [] newOrder BUY).2 (Or.inl ⟨rfl, hle⟩))
  have sh := executeOrder_shape BUY (Or.inl rfl) [m] newOrder s hnew hown hnd hpos hsz r hr
  constructor
  · rw [hc m.userId]
    obtain ⟨done, rest, hsplit, _, hrest⟩ := sh.split
    have hl : r.1 = [] ∨ ∃ k, 0 < k ∧ r.1 = [{ m with size := k }] ∧ r.2.1.size = 0 := by
      cases done with
      | nil =>
        simp only [List.nil_append] at hsplit
        rcases hrest with ⟨e, _⟩ | ⟨h, t, k, e, hk0, _, el, ez, _⟩
        · exfalso
          rw [e, ← hsplit] at hk
          omega
        · rw [← hsplit] at e
          simp only [List.cons.injEq] at e
          obtain ⟨rfl, rfl⟩ := e
          exact Or.inr ⟨k, hk0, el, ez⟩
      | cons d ds =>
        simp only [List.cons_append, List.cons.injEq] at hsplit
        have hnil := List.append_eq_nil.1 hsplit.2.symm
        rcases hrest with ⟨e, _⟩ | ⟨h, t, k, e, _⟩
        · exact Or.inl (by rw [e, hnil.2])
        · rw [hnil.2] at e
          cases e
    rcases hl with e | ⟨k, hk0, e, hres⟩
    · rw [e] at hk ⊢
      simp only [sumSizes, sumReservedOf, List.map_cons, List.map_nil, List.sum_cons,
        List.sum_nil, add_zero, sub_zero, if_true] at hk ⊢
      have : min m.size newOrder.size = m.size := by
        rcases min_eq_cases m.size newOrder.size with ⟨_, h2⟩ | ⟨h1, h2⟩
        · exact h2
        · rw [h2]; omega
      rw [this]
    · rw [e] at hk ⊢
      simp only [sumSizes, sumReservedOf, List.map_cons, List.map_nil, List.sum_cons,
        List.sum_nil, add_zero, if_true] at hk ⊢
      have : min m.size newOrder.size = newOrder.size := by
        rcases min_eq_cases m.size newOrder.size with ⟨h1, _⟩ | ⟨_, h2⟩
        · omega
        · exact h2
      rw [this]
      have : newOrder.size = m.size - k := by omega
      rw [this]
      ring
  · rw [hc newOrder.userId,
      sumReservedOf_eq_zero _ _ (fun o ho => by rw [List.mem_singleton.1 ho]; exact hu),
      sumReservedOf_result_zero BUY (Or.inl rfl) [m] newOrder s hnew hown hnd1 r hr _
        (fun o ho => by rw [List.mem_singleton.1 ho]; exact hu)]
    ring

/-- C10, counterexample: a SELL at limit 2^62 for 4 rests, a BUY at limit 2^62 + 1 for 4 of
another user fills it completely. The seller is credited the 64-bit product of 2^62 and 4,
which is 0: the seller's cash stays 10000 and does not rise by `M × N` = 2^64. -/
theorem no_refund_overflow_counterexample :
    ∃ (ob' : OrderBooks) (s' : Store),
      (newOrderBooks.AddOrder
          (testOrder "so1" "userId1" 4611686018427387904 4 SELL)).ExecuteOrder
        (testOrder "bo1" "userId2" 4611686018427387905 4 BUY) (setupTestData [] [])
        = .ok (ob', s') ∧
      (ob'.bookOf "COIN").SellList = [] ∧ (ob'.bookOf "COIN").BuyList = [] ∧
      s'.assetOf "userId2" "COIN" = (setupTestData [] []).assetOf "userId2" "COIN" + 4 ∧
      s'.cashOf "userId1" = 10000 ∧
      s'.cashOf "userId1" ≠
        (setupTestData [] []).cashOf "userId1" + 4611686018427387904 * 4 := by
  refine ⟨_, _, rfl, ?_, ?_, ?_, ?_, ?_⟩ <;> decide

/-- C10, as amended: `ExecuteOrder` does not refund a buyer's over-reservation. It changes the
cash of nobody but the owners of the SELL orders of the fills: an incoming BUY leaves the cash
of every user who owns no resting SELL untouched, an incoming SELL that of every user but its
owner. When an incoming BUY with limit `L` hits one resting SELL with limit `M < L` of another
user, `M × size` of that SELL within 64 bits, the seller's cash rises by `M × N`, `N` the
units filled, and the buyer's cash stays at its post-reservation value (SELL at 100 for 10
resting, BUY at 105 for 10, both users starting at 10000: seller 11000, buyer 8950). -/
theorem ExecuteOrder_no_refund :
    (∀ (ob : OrderBooks) (newOrder : Order) (s : Store), s.hasUser newOrder.userId →
      (∀ o ∈ (ob.bookOf newOrder.assetId).oppositeSide newOrder, s.hasUser o.userId) →
      (((ob.bookOf newOrder.assetId).oppositeSide newOrder).map (fun o => o.orderId)).Nodup →
      (∀ o ∈ (ob.bookOf newOrder.assetId).BuyList, o.buyOrSell = BUY) →
      (∀ o ∈ (ob.bookOf newOrder.assetId).SellList, o.buyOrSell = SELL) →
      ∃ ob' s', ob.ExecuteOrder newOrder s = .ok (ob', s') ∧
        (newOrder.buyOrSell = BUY → ∀ v,
          (∀ o ∈ (ob.bookOf newOrder.assetId).SellList, o.userId ≠ v) →
          s'.cashOf v = s.cashOf v) ∧
        (newOrder.buyOrSell = SELL → ∀ v, v ≠ newOrder.userId → s'.cashOf v = s.cashOf v)) ∧
    (∀ (ob : OrderBooks) (m newOrder : Order) (s : Store),
      (ob.bookOf newOrder.assetId).SellList = [m] → m.buyOrSell = SELL →
      newOrder.buyOrSell = BUY → m.limit < newOrder.limit → m.userId ≠ newOrder.userId →
      m.orderId ≠ newOrder.orderId → 0 < m.size → 0 < newOrder.size →
      fits64 (m.limit * m.size) →
      s.hasUser newOrder.userId → s.hasUser m.userId →
      ∃ ob' s', ob.ExecuteOrder newOrder s = .ok (ob', s') ∧
        s'.cashOf m.userId = s.cashOf m.userId + m.limit * min m.size newOrder.size ∧
        s'.cashOf newOrder.userId = s.cashOf newOrder.userId) ∧
    (∃ (s₁ : Store) (ob₁ : OrderBooks) (s₂ s₃ : Store) (ob' : OrderBooks) (s' : Store),
      AddUserOrder (setupTestData [] []) (testOrder "so1" "userId1" 100 10 SELL) = .ok s₁ ∧
      newOrderBooks.ExecuteOrder (testOrder "so1" "userId1" 100 10 SELL) s₁ = .ok (ob₁, s₂) ∧
      AddUserOrder s₂ (testOrder "bo1" "userId2" 105 10 BUY) = .ok s₃ ∧
      ob₁.ExecuteOrder (testOrder "bo1" "userId2" 105 10 BUY) s₃ = .ok (ob', s') ∧
      s₃.cashOf "userId1" = 10000 ∧ s₃.cashOf "userId2" = 8950 ∧
      s'.cashOf "userId1" = 11000 ∧ s'.cashOf "userId2" = 8950) := by
  refine ⟨?_, ?_, ⟨_, _, _, _, _, _, rfl, rfl, rfl, rfl, by decide, by decide, by decide,
    by decide⟩⟩
  · intro ob newOrder s hnew hown hnd hbuy hsell
    obtain ⟨r, hr⟩ := executeOrder_returns _ newOrder s (matchSide newOrder)
      (matchSide_cases newOrder) hnew hown
    obtain ⟨ob', hE, _, _, _⟩ := ExecuteOrder_of_executeOrder ob newOrder s r hr
    refine ⟨ob', r.2.2, hE, ?_, ?_⟩
    · intro hb v hv
      refine executeOrder_cash_frame _ (matchSide_cases newOrder) _ newOrder s hnew hown r hr v
        ?_ (fun h => by rw [hb] at h; exact absurd h (by decide))
      intro o ho _
      simp only [OrderBook.oppositeSide, hb, if_true] at ho
      exact hv o ho
    · intro hb v hv
      have hnb : newOrder.buyOrSell ≠ BUY := by rw [hb]; decide
      refine executeOrder_cash_frame _ (matchSide_cases newOrder) _ newOrder s hnew hown r hr v
        ?_ (fun _ => Ne.symm hv)
      intro o ho hs
      simp only [OrderBook.oppositeSide, hnb, if_false] at ho
      rw [hbuy o ho] at hs
      exact absurd hs (by decide)
  · intro ob m newOrder s hl hm hb hlt hu hid hms hsz hfit hnew hmu
    have hown : ∀ o ∈ (ob.bookOf newOrder.assetId).oppositeSide newOrder, s.hasUser o.userId := by
      intro o ho
      simp only [OrderBook.oppositeSide, hb, if_true, hl, List.mem_singleton] at ho
      rw [ho]; exact hmu
    obtain ⟨r, hr⟩ := executeOrder_returns _ newOrder s (matchSide newOrder)
      (matchSide_cases newOrder) hnew hown
    obtain ⟨ob', hE, _, _, _⟩ := ExecuteOrder_of_executeOrder ob newOrder s r hr
    simp only [OrderBook.oppositeSide, matchSide, hb, if_true, hl] at hr
    exact ⟨ob', r.2.2, hE, executeOrder_single_sell m newOrder s hm hb (le_of_lt hlt) hu hid hms
      hsz hfit hnew hmu r hr⟩

/-- C10, instance: a resting SELL at 100 for 10 hit by a BUY at 105 for 10 of another user;
the buyer, who owns no resting SELL, keeps the cash left after reservation. -/
theorem ExecuteOrder_no_refund_witness :
    ∃ (ob' : OrderBooks) (s' : Store),
      (newOrderBooks.AddOrder (testOrder "so1" "userId1" 100 10 SELL)).ExecuteOrder
        (testOrder "bo1" "userId2" 105 10 BUY) (setupTestData [] []) = .ok (ob', s') ∧
      s'.cashOf "userId1" = (setupTestData [] []).cashOf "userId1" + 100 * min 10 10 ∧
      s'.cashOf "userId2" = (setupTestData [] []).cashOf "userId2" :=
  ExecuteOrder_no_refund.2.1 (newOrderBooks.AddOrder (testOrder "so1" "userId1" 100 10 SELL))
    (testOrder "so1" "userId1" 100 10 SELL) (testOrder "bo1" "userId2" 105 10 BUY)
    (setupTestData [] []) (by decide) (by decide) (by decide) (by decide) (by decide)
    (by decide) (by decide) (by decide) (by decide) (by decide) (by decide)

/-! ## Reservation on submit -/

theorem AddUserOrder_eq (s : Store) (order : Order) (ud : UserData)
    (hud : GoMap.get? s.db order.userId = some ud) :
    AddUserOrder s order = .ok
      { db := GoMap.set s.db order.userId
          (if order.buyOrSell = BUY then
            { ud with
              cash := ud.cash - getTotalAssetCost order.limit order.size,
              orders := GoMap.set ud.orders order.orderId order }
          else
            { ud with
              assets := GoMap.set ud.assets order.assetId
                ((GoMap.get? ud.assets order.assetId).getD 0 - order.size),
              orders := GoMap.set ud.orders order.orderId order }) } := by
  simp only [AddUserOrder, hud]

/-- What `AddUserOrder` does for an owner with a record. -/
theorem AddUserOrder_effect (s : Store) (order : Order) (hu : s.hasUser order.userId) :
    ∃ s', AddUserOrder s order = .ok s' ∧
      s'.orderOf order.userId order.orderId = order ∧
      (∀ oid, oid ≠ order.orderId → s'.orderOf order.userId oid = s.orderOf order.userId oid) ∧
      (order.buyOrSell = BUY →
        s'.cashOf order.userId =
          s.cashOf order.userId - getTotalAssetCost order.limit order.size ∧
        ∀ a, s'.assetOf order.userId a = s.assetOf order.userId a) ∧
      (order.buyOrSell ≠ BUY →
        s'.assetOf order.userId order.assetId =
          s.assetOf order.userId order.assetId - order.size ∧
        (∀ a, a ≠ order.assetId → s'.assetOf order.userId a = s.assetOf order.userId a) ∧
        s'.cashOf order.userId = s.cashOf order.userId) ∧
      (∀ v, v ≠ order.userId → GetUserData s' v = GetUserData s v) ∧
      (∀ v, s'.hasUser v ↔ s.hasUser v) := by
  obtain ⟨ud, hud⟩ := (hasUser_iff s order.userId).1 hu
  have hget : GetUserData s order.userId = ud := by simp [GetUserData, hud]
  refine ⟨_, AddUserOrder_eq s order ud hud, ?_, ?_, ?_, ?_, ?_, ?_⟩
  · rw [orderOf_set, if_pos rfl]
    by_cases hb : order.buyOrSell = BUY <;> simp [hb, GoMap.get?_set_self]
  · intro oid hne
    rw [orderOf_set, if_pos rfl]
    by_cases hb : order.buyOrSell = BUY <;>
      simp [hb, GoMap.get?_set_ne _ _ _ _ hne, Store.orderOf, hget]
  · intro hb
    refine ⟨?_, fun a => ?_⟩
    · rw [cashOf_set, if_pos rfl]
      simp [hb, Store.cashOf, hget]
    · rw [assetOf_set, if_pos rfl]
      simp [hb, Store.assetOf, hget]
  · intro hnb
    refine ⟨?_, fun a ha => ?_, ?_⟩
    · rw [assetOf_set, if_pos rfl]
      simp [hnb, Store.assetOf, hget, GoMap.get?_set_self]
    · rw [assetOf_set, if_pos rfl]
      simp [hnb, Store.assetOf, hget, GoMap.get?_set_ne _ _ _ _ ha]
    · rw [cashOf_set, if_pos rfl]
      simp [hnb, Store.cashOf, hget]
  · intro v hv
    rw [GetUserData_set, if_neg hv]
  · intro v
    exact hasUser_set s _ v _ hu

/-- C13, counterexample: a BUY at limit 2^62 for 4 is reserved for a user with cash 10000. The
cost `getTotalAssetCost` computes is the 64-bit product, which is 0: the cash stays 10000 and
is not lowered by `limit × size` = 2^64. -/
theorem AddUserOrder_overflow_counterexample :
    getTotalAssetCost 4611686018427387904 4 = 0 ∧
    ∃ s', AddUserOrder (setupTestData [] [])
        (testOrder "bo1" "userId1" 4611686018427387904 4 BUY) = .ok s' ∧
      s'.cashOf "userId1" = 10000 ∧
      s'.cashOf "userId1" ≠
        (setupTestData [] []).cashOf "userId1" - 4611686018427387904 * 4 := by
  refine ⟨by decide, _, rfl, ?_, ?_⟩ <;> decide

/-- C13, as amended: for an owner with a record, `AddUserOrder` stores the order as given under
its id and debits the full reservation: a BUY lowers the owner's cash by the cost
`getTotalAssetCost` computes, which is `limit × size` when that product and the balance left
are within 64 bits, and leaves every inventory alone; a SELL lowers the owner's inventory of
the asset by `size` and leaves the cash and the other inventories alone; the owner's other
order records and every other user's record are unchanged. -/
theorem AddUserOrder_reserves (s : Store) (order : Order) (hu : s.hasUser order.userId) :
    ∃ s', AddUserOrder s order = .ok s' ∧
      s'.orderOf order.userId order.orderId = order ∧
      (∀ oid, oid ≠ order.orderId → s'.orderOf order.userId oid = s.orderOf order.userId oid) ∧
      (order.buyOrSell = BUY →
        s'.cashOf order.userId =
          s.cashOf order.userId - getTotalAssetCost order.limit order.size ∧
        (fits64 (order.limit * order.size) →
          fits64 (s.cashOf order.userId - order.limit * order.size) →
          s'.cashOf order.userId = s.cashOf order.userId - order.limit * order.size) ∧
        ∀ a, s'.assetOf order.userId a = s.assetOf order.userId a) ∧
      (order.buyOrSell = SELL →
        s'.assetOf order.userId order.assetId =
          s.assetOf order.userId order.assetId - order.size ∧
        (∀ a, a ≠ order.assetId → s'.assetOf order.userId a = s.assetOf order.userId a) ∧
        s'.cashOf order.userId = s.cashOf order.userId) ∧
      (∀ v, v ≠ order.userId → GetUserData s' v = GetUserData s v) ∧
      (∀ v, s'.hasUser v ↔ s.hasUser v) := by
  obtain ⟨s', h1, h2, h3, h4, h5, h6, h7⟩ := AddUserOrder_effect s order hu
  refine ⟨s', h1, h2, h3, fun hb => ⟨(h4 hb).1, fun hfit _ => ?_, (h4 hb).2⟩,
    fun hs => h5 ?_, h6, h7⟩
  · rw [(h4 hb).1, getTotalAssetCost_of_fits hfit]
  · rw [hs]
    decide

/-- C13, instance: the BUY at 100 for 10 of the Go test
`TestOrderMatchingService_SaveOrderToStore`: the record is stored and the cash is 9000. -/
theorem AddUserOrder_reserves_witness :
    ∃ s', AddUserOrder (setupTestData [] []) (testOrder "bo1" "userId1" 100 10 BUY) = .ok s' ∧
      s'.orderOf "userId1" "bo1" = testOrder "bo1" "userId1" 100 10 BUY ∧
      s'.cashOf "userId1" = (setupTestData [] []).cashOf "userId1" - 100 * 10 := by
  obtain ⟨s', h1, h2, _, h4, _⟩ := AddUserOrder_reserves (setupTestData [] [])
    (testOrder "bo1" "userId1" 100 10 BUY) (by decide)
  exact ⟨s', h1, h2, (h4 rfl).2.1 (by decide) (by decide)⟩

/-! ## Validation of order requests -/

theorem validateOrderReq_none_iff (userData : UserData) (req : OrderReq) :
    validateOrderReq userData req = none ↔
      (userData.userId ≠ "" ∧ (GoMap.get? userData.assets req.AssetId).isSome ∧
        (req.BuyOrSell = BUY → userData.cash ≥ getTotalAssetCost req.Limit req.Size) ∧
        (req.BuyOrSell = SELL →
          (GoMap.get? userData.assets req.AssetId).getD 0 ≥ req.Size)) := by
  unfold validateOrderReq
  split_ifs with h1 h2 h3 h4
  · constructor
    · intro h; cases h
    · intro h; exact absurd h1 h.1
  · constructor
    · intro h; cases h
    · intro h
      have h' := h.2.1
      cases hg : GoMap.get? userData.assets req.AssetId
      · rw [hg] at h'; simp at h'
      · rw [hg] at h2; simp at h2
  · constructor
    · intro h; cases h
    · intro h
      have := h.2.2.1 h3.1
      omega
  · constructor
    · intro h; cases h
    · intro h
      have := h.2.2.2 h4.1
      omega
  · constructor
    · intro _
      refine ⟨h1, ?_, fun hb => ?_, fun hb => ?_⟩
      · cases hg : GoMap.get? userData.assets req.AssetId
        · rw [hg] at h2; simp at h2
        · rfl
      · by_contra hc
        exact h3 ⟨hb, by omega⟩
      · by_contra hc
        exact h4 ⟨hb, by omega⟩
    · intro _; rfl

/-- C14, counterexample: for a user with cash 10000 who holds COIN, a BUY at limit 2^62 for 4
is accepted although `limit × size` = 2^64 exceeds the cash, because the cost compared with
the cash is the 64-bit product, 0; and a BUY at limit -3 for 2^62 is rejected although
`limit × size` is negative, because its 64-bit product is 2^62. -/
theorem validateOrderReq_overflow_counterexample :
    (validateOrderReq (testUser "userId1" [])
      { UserId := "userId1", Limit := 4611686018427387904, AssetId := "COIN", Size := 4,
        BuyOrSell := BUY } = none ∧
      ¬ (testUser "userId1" []).cash ≥ 4611686018427387904 * 4) ∧
    (validateOrderReq (testUser "userId1" [])
      { UserId := "userId1", Limit := -3, AssetId := "COIN", Size := 4611686018427387904,
        BuyOrSell := BUY } = some "user doesn't have enough cash" ∧
      (testUser "userId1" []).cash ≥ -3 * 4611686018427387904 ∧
      getTotalAssetCost (-3) 4611686018427387904 = 4611686018427387904) := by
  decide

/-- C14, as amended: `validateOrderReq` returns no error exactly when the record is that of a
known user (non-empty `userId`), the requested asset is a key of its inventory map, a BUY does
not cost more than the cash, the cost being the 64-bit product `getTotalAssetCost` computes,
and a SELL does not exceed the inventory of the asset; in every other case it returns an
error. When `limit × size` is within 64 bits the cost is `limit × size`. An unknown user, read
through `GetUserData`, is always rejected. -/
theorem validateOrderReq_ok_iff :
    (∀ (userData : UserData) (req : OrderReq),
      validateOrderReq userData req = none ↔
        (userData.userId ≠ "" ∧ (GoMap.get? userData.assets req.AssetId).isSome ∧
          (req.BuyOrSell = BUY → userData.cash ≥ getTotalAssetCost req.Limit req.Size) ∧
          (req.BuyOrSell = SELL →
            (GoMap.get? userData.assets req.AssetId).getD 0 ≥ req.Size))) ∧
    (∀ (userData : UserData) (req : OrderReq),
      (∃ msg, validateOrderReq userData req = some msg) ↔
        ¬ (userData.userId ≠ "" ∧ (GoMap.get? userData.assets req.AssetId).isSome ∧
          (req.BuyOrSell = BUY → userData.cash ≥ getTotalAssetCost req.Limit req.Size) ∧
          (req.BuyOrSell = SELL →
            (GoMap.get? userData.assets req.AssetId).getD 0 ≥ req.Size))) ∧
    (∀ (userData : UserData) (req : OrderReq), fits64 (req.Limit * req.Size) →
      (validateOrderReq userData req = none ↔
        (userData.userId ≠ "" ∧ (GoMap.get? userData.assets req.AssetId).isSome ∧
          (req.BuyOrSell = BUY → userData.cash ≥ req.Limit * req.Size) ∧
          (req.BuyOrSell = SELL →
            (GoMap.get? userData.assets req.AssetId).getD 0 ≥ req.Size)))) ∧
    (∀ (s : Store) (req : OrderReq), ¬ s.hasUser req.UserId →
      ∃ msg, validateOrderReq (GetUserData s req.UserId) req = some msg) := by
  have key := validateOrderReq_none_iff
  refine ⟨key, fun userData req => ?_, fun userData req hfit => ?_, fun s req hno => ?_⟩
  · rw [← key]
    cases h : validateOrderReq userData req <;> simp
  · rw [key, getTotalAssetCost_of_fits hfit]
  · have hz : GetUserData s req.UserId = UserData.zero := by
      unfold Store.hasUser at hno
      unfold GetUserData
      cases h : GoMap.get? s.db req.UserId
      · rfl
      · rw [h] at hno; simp at hno
    rw [hz]
    refine ⟨"userId: " ++ req.UserId ++ " not an actual user", ?_⟩
    simp [validateOrderReq, UserData.zero]

/-- C14, instance: the BUY at 100 for 10 of a user with cash 10000 is accepted, its cost 1000
being within 64 bits and at most the cash. -/
theorem validateOrderReq_ok_iff_witness :
    validateOrderReq (testUser "userId1" [])
      { UserId := "userId1", Limit := 100, AssetId := "COIN", Size := 10, BuyOrSell := BUY }
        = none :=
  (validateOrderReq_ok_iff.2.2.1 (testUser "userId1" [])
    { UserId := "userId1", Limit := 100, AssetId := "COIN", Size := 10, BuyOrSell := BUY }
    (by decide)).2 (by decide)

/-- C15, counterexample: for a user with cash 10000 and 100 COIN, a BUY of size 0, a SELL of
size -5 and a SELL at limit 0 are all accepted. -/
theorem validateOrderReq_nonpositive_counterexample :
    validateOrderReq (testUser "userId1" [])
      { UserId := "userId1", Limit := 100, AssetId := "COIN", Size := 0, BuyOrSell := BUY }
        = none ∧
    validateOrderReq (testUser "userId1" [])
      { UserId := "userId1", Limit := 100, AssetId := "COIN", Size := -5, BuyOrSell := SELL }
        = none ∧
    validateOrderReq (testUser "userId1" [])
      { UserId := "userId1", Limit := 0, AssetId := "COIN", Size := 10, BuyOrSell := SELL }
        = none := by
  decide

/-- C15, as amended: `validateOrderReq` does not look at the sign of the size or of the limit.
For a known user who holds the asset, a SELL of size at most 0 is accepted whenever the
inventory is not negative, and a BUY whose cost, the 64-bit product `getTotalAssetCost`
computes (`limit × size` when that is within 64 bits: a size or a limit of 0, or exactly one
of them negative), is at most 0 is accepted whenever the cash is not negative. A request with
a size or limit at most 0 is rejected only by one of the four checks: unknown user, asset not
held, BUY whose cost exceeds the cash, SELL larger than the inventory. -/
theorem validateOrderReq_ignores_sign :
    (∀ (userData : UserData) (req : OrderReq), userData.userId ≠ "" →
      (GoMap.get? userData.assets req.AssetId).isSome → req.BuyOrSell = SELL →
      0 ≤ (GoMap.get? userData.assets req.AssetId).getD 0 → req.Size ≤ 0 →
      validateOrderReq userData req = none) ∧
    (∀ (userData : UserData) (req : OrderReq), userData.userId ≠ "" →
      (GoMap.get? userData.assets req.AssetId).isSome → req.BuyOrSell = BUY →
      0 ≤ userData.cash → getTotalAssetCost req.Limit req.Size ≤ 0 →
      validateOrderReq userData req = none) ∧
    (∀ (userData : UserData) (req : OrderReq), userData.userId ≠ "" →
      (GoMap.get? userData.assets req.AssetId).isSome → req.BuyOrSell = BUY →
      0 ≤ userData.cash → fits64 (req.Limit * req.Size) → req.Limit * req.Size ≤ 0 →
      validateOrderReq userData req = none) ∧
    (∀ (userData : UserData) (req : OrderReq), req.Size ≤ 0 ∨ req.Limit ≤ 0 →
      (∃ msg, validateOrderReq userData req = some msg) →
        userData.userId = "" ∨ (GoMap.get? userData.assets req.AssetId).isNone ∨
        (req.BuyOrSell = BUY ∧ userData.cash < getTotalAssetCost req.Limit req.Size) ∨
        (req.BuyOrSell = SELL ∧
          (GoMap.get? userData.assets req.AssetId).getD 0 < req.Size)) := by
  refine ⟨fun userData req h1 h2 hs hinv hsz => ?_, fun userData req h1 h2 hb hc hcost => ?_,
    fun userData req h1 h2 hb hc hfit hcost => ?_, fun userData req _ hrej => ?_⟩
  · rw [validateOrderReq_none_iff]
    refine ⟨h1, h2, fun hb => ?_, fun _ => by omega⟩
    rw [hs] at hb
    exact absurd hb (by decide)
  · rw [validateOrderReq_none_iff]
    refine ⟨h1, h2, fun _ => by omega, fun hs => ?_⟩
    rw [hb] at hs
    exact absurd hs (by decide)
  · rw [validateOrderReq_none_iff, getTotalAssetCost_of_fits hfit]
    refine ⟨h1, h2, fun _ => by omega, fun hs => ?_⟩
    rw [hb] at hs
    exact absurd hs (by decide)
  · obtain ⟨msg, hmsg⟩ := hrej
    by_contra hcon
    simp only [not_or, not_and, not_lt] at hcon
    obtain ⟨c1, c2, c3, c4⟩ := hcon
    have hok : validateOrderReq userData req = none := by
      rw [validateOrderReq_none_iff]
      refine ⟨c1, ?_, fun hb => c3 hb, fun hs => c4 hs⟩
      cases hg : GoMap.get? userData.assets req.AssetId
      · rw [hg] at c2; simp at c2
      · rfl
    rw [hok] at hmsg
    cases hmsg

/-- C15, instance of the amended statement: the SELL of size -5 of the counterexample. -/
theorem validateOrderReq_ignores_sign_witness :
    validateOrderReq (testUser "userId1" [])
      { UserId := "userId1", Limit := 100, AssetId := "COIN", Size := -5, BuyOrSell := SELL }
        = none :=
  validateOrderReq_ignores_sign.1 (testUser "userId1" [])
    { UserId := "userId1", Limit := 100, AssetId := "COIN", Size := -5, BuyOrSell := SELL }
    (by decide) (by decide) (by decide) (by decide) (by decide)

/-! ## The fills of a call -/

/-- The store `executeOrder` returns is the store obtained by applying the fills of the call
one after the other (and it fails exactly when one of them does). -/
theorem executeOrderLoop_store_eq_fills (side : Int) :
    ∀ (l : List Order) (newOrder : Order) (s : Store) (fuel : Nat), l.length < fuel →
      (executeOrderLoop fuel l newOrder s side).map (fun r => r.2.2) =
        applyFills side s (fillsOf side l newOrder) := by
  intro l
  induction l with
  | nil =>
    intro newOrder s fuel hf
    obtain ⟨f, rfl⟩ : ∃ f, fuel = f + 1 := ⟨fuel - 1, by omega⟩
    simp [executeOrderLoop, orderMatchAvailable, isEmpty, fillsOf, applyFills, Except.map]
  | cons h t ih =>
    intro newOrder s fuel hf
    obtain ⟨f, rfl⟩ : ∃ f, fuel = f + 1 := ⟨fuel - 1, by omega⟩
    have hft : t.length < f := by simpa using hf
    by_cases hm : orderMatchAvailable (h :: t) newOrder side = true
    · by_cases hz : newOrder.size - min h.size newOrder.size = 0
      · by_cases hz' : h.size - min h.size newOrder.size = 0
        · cases e1 : UpdateUserAsset s { h with size := h.size - min h.size newOrder.size }
            (getMatchedPrice side h newOrder) (min h.size newOrder.size) side Complete with
          | error e =>
            simp only [hz'] at e1
            simp [executeOrderLoop, hm, GetTopOrder, hz, hz', fillsOf, applyFills, Fill.apply,
              e1, Except.map]
          | ok s1 =>
            simp only [hz'] at e1
            cases e2 : UpdateUserAsset s1
              { newOrder with size := newOrder.size - min h.size newOrder.size }
              (getMatchedPrice side h newOrder) (min h.size newOrder.size) side Complete with
            | error e =>
              simp only [hz] at e2
              simp [executeOrderLoop, hm, GetTopOrder, hz, hz', fillsOf, applyFills,
                Fill.apply, e1, e2, Except.map]
            | ok s2 =>
              simp only [hz] at e2
              simp [executeOrderLoop, hm, GetTopOrder, hz, hz', fillsOf, applyFills,
                Fill.apply, e1, e2, Except.map]
        · cases e1 : UpdateUserAsset s { h with size := h.size - min h.size newOrder.size }
            (getMatchedPrice side h newOrder) (min h.size newOrder.size) side Working with
          | error e =>
            simp [executeOrderLoop, hm, GetTopOrder, hz, hz', fillsOf, applyFills, Fill.apply,
              e1, Except.map]
          | ok s1 =>
            cases e2 : UpdateUserAsset s1
              { newOrder with size := newOrder.size - min h.size newOrder.size }
              (getMatchedPrice side h newOrder) (min h.size newOrder.size) side Complete with
            | error e =>
              simp only [hz] at e2
              simp [executeOrderLoop, hm, GetTopOrder, hz, hz', fillsOf, applyFills,
                Fill.apply, e1, e2, Except.map]
            | ok s2 =>
              simp only [hz] at e2
              simp [executeOrderLoop, hm, GetTopOrder, hz, hz', fillsOf, applyFills,
                Fill.apply, e1, e2, Except.map]
      · cases e1 : UpdateUserAsset s
          { newOrder with size := newOrder.size - min h.size newOrder.size }
          (getMatchedPrice side h newOrder) (min h.size newOrder.size) side Working with
        | error e =>
          simp [executeOrderLoop, hm, GetTopOrder, hz, fillsOf, applyFills, Fill.apply, e1,
            Except.map]
        | ok s1 =>
          cases e2 : UpdateUserAsset s1 { h with size := h.size - min h.size newOrder.size }
            (getMatchedPrice side h newOrder) (min h.size newOrder.size) side Complete with
          | error e =>
            simp [executeOrderLoop, hm, GetTopOrder, hz, fillsOf, applyFills, Fill.apply, e1,
              e2, Except.map]
          | ok s2 =>
            have := ih { newOrder with size := newOrder.size - min h.size newOrder.size } s2 f
              hft
            simp only [executeOrderLoop, hm, GetTopOrder, hz, fillsOf, applyFills, Fill.apply,
              e1, e2, if_true, if_false, DeleteOrder]
            exact this
    · have hm' : orderMatchAvailable (h :: t) newOrder side = false := by simpa using hm
      simp [executeOrderLoop, hm', fillsOf, applyFills, Except.map]

theorem executeOrder_store_eq_fills (side : Int) (l : List Order) (newOrder : Order)
    (s : Store) :
    (executeOrder l newOrder s side).map (fun r => r.2.2) =
      applyFills side s (fillsOf side l newOrder) :=
  executeOrderLoop_store_eq_fills side l newOrder s (l.length + 1) (Nat.lt_succ_self _)

/-- Every fill of a call trades the head of the list at that moment, an order of the original
list still at its original size, against the incoming order at its current residual, under
the guard of the loop, at `getMatchedPrice` and for `min` of the two sizes. -/
theorem fillsOf_mem (side : Int) (l : List Order) (newOrder : Order) (f : Fill)
    (hf : f ∈ fillsOf side l newOrder) :
    f.resting ∈ l ∧ f.incoming = { newOrder with size := f.incoming.size } ∧
    orderMatchAvailable [f.resting] f.incoming side = true ∧
    f.price = getMatchedPrice side f.resting f.incoming ∧
    f.size = min f.resting.size f.incoming.size := by
  induction l generalizing newOrder with
  | nil => simp [fillsOf] at hf
  | cons h t ih =>
    by_cases hm : orderMatchAvailable (h :: t) newOrder side = true
    · simp only [fillsOf, hm, if_true, List.mem_cons] at hf
      rcases hf with rfl | hf
      · refine ⟨List.mem_cons_self _ _, rfl, ?_, rfl, rfl⟩
        rw [orderMatchAvailable_cons] at hm ⊢
        exact hm
      · by_cases hz : newOrder.size - min h.size newOrder.size = 0
        · simp [hz] at hf
        · simp only [hz, if_false] at hf
          obtain ⟨h1, h2, h3, h4, h5⟩ := ih _ hf
          refine ⟨List.mem_cons_of_mem _ h1, ?_, h3, h4, h5⟩
          rw [h2]
    · have hm' : orderMatchAvailable (h :: t) newOrder side = false := by simpa using hm
      simp [fillsOf, hm'] at hf

/-! ## Limit protection -/

/-- C11, counterexample: a SELL at limit 2^61 for 8 rests and a BUY at the same limit for 8
fills it completely. The seller is credited the 64-bit product of 2^61 and 8, which is 0:
the cash stays 10000, less than `limit × quantity` = 2^64 above it. -/
theorem limit_protection_overflow_counterexample :
    ∃ r, executeOrder [testOrder "so1" "userId1" 2305843009213693952 8 SELL]
        (testOrder "bo1" "userId2" 2305843009213693952 8 BUY) (setupTestData [] []) BUY
        = .ok r ∧
      r.1 = [] ∧ r.2.1.size = 0 ∧
      (fillsOf BUY [testOrder "so1" "userId1" 2305843009213693952 8 SELL]
        (testOrder "bo1" "userId2" 2305843009213693952 8 BUY)).map
          (fun f => (f.price, f.size)) = [(2305843009213693952, 8)] ∧
      r.2.2.cashOf "userId1" = 10000 ∧
      r.2.2.cashOf "userId1" <
        (setupTestData [] []).cashOf "userId1" + 2305843009213693952 * 8 := by
  refine ⟨_, rfl, ?_, ?_, ?_, ?_, ?_⟩ <;> decide

/-- C11, as amended: every fill of `executeOrder` has a matched price between the SELL order's
limit and the BUY order's limit, for an incoming BUY and for an incoming SELL. The fills are
the iterations `fillsOf`, whose store updates make up the store `executeOrder` returns. In
amounts, for SELL orders whose `limit × size` is within 64 bits: for an incoming BUY each
seller is credited exactly the resting limit for every unit taken from an order of theirs,
and all of it is at most the buyer's limit per unit bought; for an incoming SELL the seller is
credited exactly its limit per unit sold, and that is at most the resting BUY limits for the
units taken. -/
theorem limit_protection :
    (∀ (side : Int) (l : List Order) (newOrder : Order) (s : Store),
      (executeOrder l newOrder s side).map (fun r => r.2.2) =
        applyFills side s (fillsOf side l newOrder)) ∧
    (∀ (l : List Order) (newOrder : Order), ∀ f ∈ fillsOf BUY l newOrder,
      f.resting ∈ l ∧ f.incoming.limit = newOrder.limit ∧
      f.resting.limit ≤ f.price ∧ f.price ≤ f.incoming.limit) ∧
    (∀ (l : List Order) (newOrder : Order), ∀ f ∈ fillsOf SELL l newOrder,
      f.resting ∈ l ∧ f.incoming.limit = newOrder.limit ∧
      f.incoming.limit ≤ f.price ∧ f.price ≤ f.resting.limit) ∧
    (∀ (l : List Order) (newOrder : Order) (s : Store), s.hasUser newOrder.userId →
      (∀ o ∈ l, s.hasUser o.userId) → (l.map (fun o => o.orderId)).Nodup →
      (∀ o ∈ l, 0 < o.size) → 0 < newOrder.size →
      (∀ o ∈ l, o.buyOrSell = SELL) → newOrder.buyOrSell = BUY →
      (∀ o ∈ l, fits64 (o.limit * o.size)) →
      ∃ r, executeOrder l newOrder s BUY = .ok r ∧
        (∀ v, r.2.2.cashOf v = s.cashOf v + (sumReservedOf v l - sumReservedOf v r.1)) ∧
        sumReserved l - sumReserved r.1 ≤ newOrder.limit * (newOrder.size - r.2.1.size)) ∧
    (∀ (l : List Order) (newOrder : Order) (s : Store), s.hasUser newOrder.userId →
      (∀ o ∈ l, s.hasUser o.userId) → (l.map (fun o => o.orderId)).Nodup →
      (∀ o ∈ l, 0 < o.size) → 0 < newOrder.size →
      (∀ o ∈ l, o.buyOrSell = BUY) → newOrder.buyOrSell = SELL →
      fits64 (newOrder.limit * newOrder.size) →
      ∃ r, executeOrder l newOrder s SELL = .ok r ∧
        r.2.2.cashOf newOrder.userId =
          s.cashOf newOrder.userId + newOrder.limit * (newOrder.size - r.2.1.size) ∧
        newOrder.limit * (newOrder.size - r.2.1.size) ≤ sumReserved l - sumReserved r.1) := by
  refine ⟨executeOrder_store_eq_fills, ?_, ?_, ?_, ?_⟩
  · intro l newOrder f hf
    obtain ⟨h1, h2, h3, h4, _⟩ := fillsOf_mem BUY l newOrder f hf
    have hl : f.incoming.limit = newOrder.limit := by rw [h2]
    rw [h4, getMatchedPrice_buy]
    rcases (orderMatchAvailable_cons _ _ _ _).1 h3 with ⟨_, hle⟩ | ⟨hs, _⟩
    · exact ⟨h1, hl, le_refl _, hle⟩
    · exact absurd hs (by decide)
  · intro l newOrder f hf
    obtain ⟨h1, h2, h3, h4, _⟩ := fillsOf_mem SELL l newOrder f hf
    have hl : f.incoming.limit = newOrder.limit := by rw [h2]
    rw [h4, getMatchedPrice_sell]
    rcases (orderMatchAvailable_cons _ _ _ _).1 h3 with ⟨hs, _⟩ | ⟨_, hle⟩
    · exact absurd hs (by decide)
    · exact ⟨h1, hl, le_refl _, hle⟩
  · intro l newOrder s hnew hown hnd hpos hsz hl hb hfit
    obtain ⟨r, hr⟩ := executeOrder_returns l newOrder s BUY (Or.inl rfl) hnew hown
    have hc := (executeOrder_buy_cash l newOrder s hnew hown hnd hl (by rw [hb]; decide)
      hfit hsz r hr).2
    have hp := (executeOrder_paid_vs_reserved BUY (Or.inl rfl) l newOrder s hnew hown hnd hpos
      hsz r hr).1 rfl
    exact ⟨r, hr, fun v => by rw [hc v]; ring, hp⟩
  · intro l newOrder s hnew hown hnd hpos hsz hl hb hfit
    obtain ⟨r, hr⟩ := executeOrder_returns l newOrder s SELL (Or.inr rfl) hnew hown
    have hc := (executeOrder_sell_cash l newOrder s hnew hown
      (fun o ho => by rw [hl o ho]; decide) hb hfit hpos hsz r hr).2 newOrder.userId
    have hp := (executeOrder_paid_vs_reserved SELL (Or.inr rfl) l newOrder s hnew hown hnd hpos
      hsz r hr).2.1 rfl
    rw [if_pos rfl] at hc
    exact ⟨r, hr, hc, hp⟩

/-- C11, instance: the BUY at 105 for 10 against a resting SELL at 100 for 10; what the
seller is paid is at most 105 per unit bought. -/
theorem limit_protection_witness :
    ∃ r, executeOrder [testOrder "so1" "userId1" 100 10 SELL]
        (testOrder "bo1" "userId2" 105 10 BUY) (setupTestData [] []) BUY = .ok r ∧
      (∀ v, r.2.2.cashOf v = (setupTestData [] []).cashOf v +
        (sumReservedOf v [testOrder "so1" "userId1" 100 10 SELL] - sumReservedOf v r.1)) ∧
      sumReserved [testOrder "so1" "userId1" 100 10 SELL] - sumReserved r.1 ≤
        105 * (10 - r.2.1.size) :=
  limit_protection.2.2.2.1 [testOrder "so1" "userId1" 100 10 SELL]
    (testOrder "bo1" "userId2" 105 10 BUY) (setupTestData [] []) (by decide) (by decide)
    (by decide) (by decide) (by decide) (by decide) (by decide) (by decide)

/-! ## Filled accounting -/

theorem getOrder_absent (l : List Order) (oid : OrderId) (h : ∀ x ∈ l, x.orderId ≠ oid) :
    getOrder l oid = Order.zero := by
  induction l with
  | nil => rfl
  | cons a l ih =>
    have ha : a.orderId ≠ oid := h a (List.mem_cons_self _ _)
    simp only [getOrder, ha, if_false]
    exact ih (fun x hx => h x (List.mem_cons_of_mem _ hx))

theorem getOrder_of_mem (l : List Order) (o : Order) (ho : o ∈ l)
    (hnd : (l.map (fun x => x.orderId)).Nodup) : getOrder l o.orderId = o := by
  induction l with
  | nil => cases ho
  | cons a l ih =>
    have hc := nodup_ids_cons hnd
    rcases List.mem_cons.1 ho with rfl | ho
    · simp [getOrder]
    · have ha : a.orderId ≠ o.orderId := fun e => hc.1 o ho e.symm
      simp only [getOrder, ha, if_false]
      exact ih ho hc.2

theorem filled_fill (x : Order) (st : OrderStatus) (n : Int) :
    (x.fill st n).filled = x.filled + n := rfl

/-- Filled accounting at the level of `executeOrder`, from the shape of its result. -/
theorem executeOrder_filled (side : Int) (hside : side = BUY ∨ side = SELL)
    (l : List Order) (newOrder : Order) (s : Store) (hnew : s.hasUser newOrder.userId)
    (hown : ∀ o ∈ l, s.hasUser o.userId)
    (hnd : (newOrder.orderId :: l.map (fun o => o.orderId)).Nodup)
    (hpos : ∀ o ∈ l, 0 < o.size) (hsz : 0 < newOrder.size)
    (r : List Order × Order × Store) (hr : executeOrder l newOrder s side = .ok r) :
    (r.2.2.orderOf newOrder.userId newOrder.orderId).filled =
      (s.orderOf newOrder.userId newOrder.orderId).filled + (newOrder.size - r.2.1.size) ∧
    ∀ o ∈ l, (r.2.2.orderOf o.userId o.orderId).filled =
      (s.orderOf o.userId o.orderId).filled + (o.size - (getOrder r.1 o.orderId).size) := by
  have sh := executeOrder_shape side hside l newOrder s hnew hown hnd hpos hsz r hr
  constructor
  · rw [sh.incoming]
    by_cases c : r.2.1.size = newOrder.size
    · rw [if_pos c, c]; omega
    · rw [if_neg c, filled_fill]
  · obtain ⟨done, rest, hsplit, hdone, hrest⟩ := sh.split
    have hndl : (l.map (fun o => o.orderId)).Nodup := (List.nodup_cons.1 hnd).2
    rw [hsplit, List.map_append, List.nodup_append] at hndl
    have hdisj : ∀ o ∈ done, ∀ x ∈ rest, x.orderId ≠ o.orderId := by
      intro o ho x hx e
      exact hndl.2.2 (List.mem_map_of_mem _ ho) (by rw [← e]; exact List.mem_map_of_mem _ hx)
    intro o ho
    rw [hsplit, List.mem_append] at ho
    rcases ho with ho | ho
    · have hz : getOrder r.1 o.orderId = Order.zero := by
        apply getOrder_absent
        intro x hx
        rcases hrest with ⟨e, _⟩ | ⟨h, t, k, e, _, _, el, _⟩
        · rw [e] at hx
          exact hdisj o ho x hx
        · rw [el] at hx
          rcases List.mem_cons.1 hx with rfl | hx
          · exact hdisj o ho h (by rw [e]; exact List.mem_cons_self _ _)
          · exact hdisj o ho x (by rw [e]; exact List.mem_cons_of_mem _ hx)
      rw [hdone o ho, filled_fill, hz]
      simp [Order.zero]
    · rcases hrest with ⟨e, hu⟩ | ⟨h, t, k, e, _, _, el, _, eh, hu⟩
      · rw [hu o ho, e, getOrder_of_mem rest o ho hndl.2.1]
        omega
      · have hndr := hndl.2.1
        rw [e] at hndr ho
        have hc := nodup_ids_cons hndr
        rcases List.mem_cons.1 ho with rfl | ho
        · rw [eh, filled_fill, el]
          simp [getOrder]
        · have hne : o.orderId ≠ h.orderId := hc.1 o ho
          rw [hu o ho, el]
          simp only [getOrder, Ne.symm hne, if_false]
          rw [getOrder_of_mem t o ho hc.2]
          omega

/-- C12: filled accounting. After `ExecuteOrder` (distinct order ids, positive sizes, owners
in the store) the store's `filled` of the incoming order has grown by its size minus its
residual size, and the `filled` of each resting order by the quantity taken from it, its size
before minus the size it is left with in the list, 0 when it left the list (SELL at 100 for
35 against BUY 101 x30 and BUY 100 x10: filled 35, 30 and 5). -/
theorem ExecuteOrder_filled_accounting :
    (∀ (ob : OrderBooks) (newOrder : Order) (s : Store), s.hasUser newOrder.userId →
      (∀ o ∈ (ob.bookOf newOrder.assetId).oppositeSide newOrder, s.hasUser o.userId) →
      (newOrder.orderId ::
        ((ob.bookOf newOrder.assetId).oppositeSide newOrder).map (fun o => o.orderId)).Nodup →
      (∀ o ∈ (ob.bookOf newOrder.assetId).oppositeSide newOrder, 0 < o.size) →
      0 < newOrder.size →
      ∃ ob' s' residual,
        ob.ExecuteOrder newOrder s = .ok (ob', s') ∧
        executeOrder ((ob.bookOf newOrder.assetId).oppositeSide newOrder) newOrder s
          (matchSide newOrder) =
            .ok ((ob'.bookOf newOrder.assetId).oppositeSide newOrder, residual, s') ∧
        (s'.orderOf newOrder.userId newOrder.orderId).filled =
          (s.orderOf newOrder.userId newOrder.orderId).filled +
            (newOrder.size - residual.size) ∧
        ∀ o ∈ (ob.bookOf newOrder.assetId).oppositeSide newOrder,
          (s'.orderOf o.userId o.orderId).filled =
            (s.orderOf o.userId o.orderId).filled +
              (o.size -
                (getOrder ((ob'.bookOf newOrder.assetId).oppositeSide newOrder)
                  o.orderId).size)) ∧
    (∃ (ob' : OrderBooks) (s' : Store),
      ((newOrderBooks.AddOrder (testOrder "bo1" "userId1" 100 10 BUY)).AddOrder
          (testOrder "bo2" "userId1" 101 30 BUY)).ExecuteOrder
        (testOrder "so1" "userId2" 100 35 SELL)
        (setupTestData [testOrder "bo1" "userId1" 100 10 BUY,
          testOrder "bo2" "userId1" 101 30 BUY] [testOrder "so1" "userId2" 100 35 SELL])
        = .ok (ob', s') ∧
      (s'.orderOf "userId2" "so1").filled = 35 ∧
      (s'.orderOf "userId1" "bo2").filled = 30 ∧
      (s'.orderOf "userId1" "bo1").filled = 5) := by
  refine ⟨?_, ⟨_, _, rfl, by decide, by decide, by decide⟩⟩
  intro ob newOrder s hnew hown hnd hpos hsz
  obtain ⟨r, hr⟩ := executeOrder_returns _ newOrder s (matchSide newOrder)
    (matchSide_cases newOrder) hnew hown
  obtain ⟨ob', hE, hopp, _, _⟩ := ExecuteOrder_of_executeOrder ob newOrder s r hr
  obtain ⟨f1, f2⟩ := executeOrder_filled (matchSide newOrder) (matchSide_cases newOrder) _
    newOrder s hnew hown hnd hpos hsz r hr
  obtain ⟨opp', residual, s'⟩ := r
  simp only at hE hopp f1 f2
  subst hopp
  exact ⟨ob', s', residual, hE, hr, f1, f2⟩

/-- C12, instance: the SELL at 100 for 35 of `TestOrderBooks_ExecuteOrder_SELL_CASE1`. -/
theorem ExecuteOrder_filled_accounting_witness :
    ∃ (ob' : OrderBooks) (s' : Store) (residual : Order),
      ((newOrderBooks.AddOrder (testOrder "bo1" "userId1" 100 10 BUY)).AddOrder
          (testOrder "bo2" "userId1" 101 30 BUY)).ExecuteOrder
        (testOrder "so1" "userId2" 100 35 SELL)
        (setupTestData [testOrder "bo1" "userId1" 100 10 BUY,
          testOrder "bo2" "userId1" 101 30 BUY] [testOrder "so1" "userId2" 100 35 SELL])
        = .ok (ob', s') ∧
      (s'.orderOf "userId2" "so1").filled =
        ((setupTestData [testOrder "bo1" "userId1" 100 10 BUY,
          testOrder "bo2" "userId1" 101 30 BUY]
          [testOrder "so1" "userId2" 100 35 SELL]).orderOf "userId2" "so1").filled +
          (35 - residual.size) := by
  obtain ⟨ob', s', residual, h1, _, h2, _⟩ := ExecuteOrder_filled_accounting.1
    ((newOrderBooks.AddOrder (testOrder "bo1" "userId1" 100 10 BUY)).AddOrder
      (testOrder "bo2" "userId1" 101 30 BUY))
    (testOrder "so1" "userId2" 100 35 SELL)
    (setupTestData [testOrder "bo1" "userId1" 100 10 BUY,
      testOrder "bo2" "userId1" 101 30 BUY] [testOrder "so1" "userId2" 100 35 SELL])
    (by decide) (by decide) (by decide) (by decide) (by decide)
  exact ⟨ob', s', residual, h1, h2⟩

/-! ## Non-negative balances -/

theorem FillEffect.mono {s s' : Store} {order : Order} {price trade : Int} {st : OrderStatus}
    (f : FillEffect s s' order price trade st) (hp : 0 ≤ getTotalAssetCost price trade)
    (ht : 0 ≤ trade) :
    ∀ v, s.cashOf v ≤ s'.cashOf v ∧ ∀ a, s.assetOf v a ≤ s'.assetOf v a := by
  intro v
  refine ⟨?_, fun a => ?_⟩
  · rw [f.cashOf v]
    split <;> omega
  · rw [f.assetOf v a]
    split <;> omega

/-- The cost of part of an order at a non-negative limit is not negative when the cost of the
whole order fits in 64 bits. -/
theorem getTotalAssetCost_part_nonneg {limit size part : Int} (h : fits64 (limit * size))
    (hl : 0 ≤ limit) (h0 : 0 ≤ part) (h1 : part ≤ size) :
    0 ≤ getTotalAssetCost limit part := by
  rw [getTotalAssetCost_of_fits (fits64_mul_part h h0 h1)]
  exact mul_nonneg hl h0

theorem getMatchedPrice_cost_nonneg (side : Int) (h newOrder : Order) (trade : Int)
    (h1 : 0 ≤ h.limit) (h2 : 0 ≤ newOrder.limit) (f1 : fits64 (h.limit * h.size))
    (f2 : fits64 (newOrder.limit * newOrder.size)) (h0 : 0 ≤ trade)
    (ht : trade = min h.size newOrder.size) :
    0 ≤ getTotalAssetCost (getMatchedPrice side h newOrder) trade := by
  have hle : trade ≤ h.size ∧ trade ≤ newOrder.size := by
    rcases min_eq_cases h.size newOrder.size with ⟨_, e⟩ | ⟨_, e⟩ <;> rw [e] at ht <;> omega
  unfold getMatchedPrice
  split
  · exact getTotalAssetCost_part_nonneg f1 h1 h0 hle.1
  · exact getTotalAssetCost_part_nonneg f2 h2 h0 hle.2

theorem min_pos {a b : Int} (ha : 0 < a) (hb : 0 < b) : 0 < min a b := by
  rcases min_eq_cases a b with ⟨_, h⟩ | ⟨_, h⟩ <;> rw [h] <;> assumption

/-- With positive sizes, non-negative limits and costs `limit × size` within 64 bits the
matching loop lowers nobody's cash and nobody's inventory. -/
theorem executeOrder_mono (side : Int) (hside : side = BUY ∨ side = SELL)
    (l : List Order) (newOrder : Order) (s : Store) (hnew : s.hasUser newOrder.userId)
    (hown : ∀ o ∈ l, s.hasUser o.userId)
    (hpos : ∀ o ∈ l, 0 < o.size ∧ 0 ≤ o.limit ∧ fits64 (o.limit * o.size))
    (hsz : 0 < newOrder.size) (hlim : 0 ≤ newOrder.limit)
    (hfit : fits64 (newOrder.limit * newOrder.size))
    (r : List Order × Order × Store) (hr : executeOrder l newOrder s side = .ok r) :
    ∀ v, s.cashOf v ≤ r.2.2.cashOf v ∧ ∀ a, s.assetOf v a ≤ r.2.2.assetOf v a := by
  refine executeOrder_induct side hside
    (fun l newOrder s r => (∀ o ∈ l, 0 < o.size ∧ 0 ≤ o.limit ∧ fits64 (o.limit * o.size)) →
      0 < newOrder.size → 0 ≤ newOrder.limit → fits64 (newOrder.limit * newOrder.size) →
      ∀ v, s.cashOf v ≤ r.2.2.cashOf v ∧ ∀ a, s.assetOf v a ≤ r.2.2.assetOf v a)
    ?_ ?_ ?_ l newOrder s hnew hown r hr hpos hsz hlim hfit
  · intro l newOrder s _ _ _ _ _ v
    exact ⟨le_refl _, fun _ => le_refl _⟩
  · intro h t newOrder s s1 s2 trade _ ht _ f1 f2 hpos hsz hlim hfit v
    have hh := hpos h (List.mem_cons_self _ _)
    have htp : 0 ≤ trade := by rw [ht]; exact le_of_lt (min_pos hh.1 hsz)
    have hpp := getMatchedPrice_cost_nonneg side h newOrder trade hh.2.1 hlim hh.2.2 hfit htp ht
    have m1 := f1.mono hpp htp v
    have m2 := f2.mono hpp htp v
    exact ⟨le_trans m1.1 m2.1, fun a => le_trans (m1.2 a) (m2.2 a)⟩
  · intro h t newOrder s s1 s2 trade r _ ht hz f1 f2 ih hpos hsz hlim hfit v
    have hh := hpos h (List.mem_cons_self _ _)
    have htp : 0 ≤ trade := by rw [ht]; exact le_of_lt (min_pos hh.1 hsz)
    have hpp := getMatchedPrice_cost_nonneg side h newOrder trade hh.2.1 hlim hh.2.2 hfit htp ht
    obtain ⟨htr, hlt⟩ := trade_eq_head_of_residual ht hz
    have m1 := f1.mono hpp htp v
    have m2 := f2.mono hpp htp v
    have m3 := ih (fun o ho => hpos o (List.mem_cons_of_mem _ ho))
      (by show 0 < newOrder.size - trade; omega) hlim
      (by
        show fits64 (newOrder.limit * (newOrder.size - trade))
        exact fits64_mul_part hfit (by omega) (by omega)) v
    exact ⟨le_trans (le_trans m1.1 m2.1) m3.1,
      fun a => le_trans (le_trans (m1.2 a) (m2.2 a)) (m3.2 a)⟩

theorem hasUser_of_userId_ne (s : Store) (u : UserId) (h : (GetUserData s u).userId ≠ "") :
    s.hasUser u := by
  unfold Store.hasUser
  unfold GetUserData at h
  cases hg : GoMap.get? s.db u
  · rw [hg] at h
    exact absurd rfl h
  · rfl

/-- C16, counterexample. A request with side 2 for 1000 COIN is accepted for a user with 100
COIN and `AddUserOrder` of its order leaves the inventory at -900. A SELL at limit -5 for 10
is accepted, and executing it against a resting BUY at 100 lowers the seller's cash from
10000 to 9950. A BUY at limit 2^62 for 2 is accepted for a user with cash 10000, its cost
being the 64-bit product -2^63; the balance after the debit, 10000 + 2^63, is beyond 64 bits,
and the 64-bit value the cash variable holds is 10000 - 2^63, negative. The same happens
for a BUY at limit -2^62 for 2, whose `limit × size` is within 64 bits. A resting SELL at
limit 2^62 for 2 filled by a BUY is credited -2^63: the seller's cash falls from 10000 to
10000 - 2^63. -/
theorem nonnegative_balances_counterexample :
    (validateOrderReq (GetUserData (setupTestData [] []) "userId1")
        { UserId := "userId1", Limit := 100, AssetId := "COIN", Size := 1000, BuyOrSell := 2 }
        = none ∧
      ∃ s', AddUserOrder (setupTestData [] [])
          (createOrderFromOrderReq
            { UserId := "userId1", Limit := 100, AssetId := "COIN", Size := 1000,
              BuyOrSell := 2 } "o1" 1) = .ok s' ∧
        s'.assetOf "userId1" "COIN" = -900) ∧
    (validateOrderReq (GetUserData (setupTestData [] []) "userId2")
        { UserId := "userId2", Limit := -5, AssetId := "COIN", Size := 10, BuyOrSell := SELL }
        = none ∧
      ∃ (s₁ : Store) (ob' : OrderBooks) (s' : Store),
        AddUserOrder (setupTestData [] [])
          (createOrderFromOrderReq
            { UserId := "userId2", Limit := -5, AssetId := "COIN", Size := 10,
              BuyOrSell := SELL } "so1" 1) = .ok s₁ ∧
        (newOrderBooks.AddOrder (testOrder "bo1" "userId1" 100 10 BUY)).ExecuteOrder
          (createOrderFromOrderReq
            { UserId := "userId2", Limit := -5, AssetId := "COIN", Size := 10,
              BuyOrSell := SELL } "so1" 1) s₁ = .ok (ob', s') ∧
        s₁.cashOf "userId2" = 10000 ∧ s'.cashOf "userId2" = 9950) ∧
    (validateOrderReq (GetUserData (setupTestData [] []) "userId1")
        { UserId := "userId1", Limit := 4611686018427387904, AssetId := "COIN", Size := 2,
          BuyOrSell := BUY } = none ∧
      getTotalAssetCost 4611686018427387904 2 = -9223372036854775808 ∧
      ∃ s', AddUserOrder (setupTestData [] [])
          (createOrderFromOrderReq
            { UserId := "userId1", Limit := 4611686018427387904, AssetId := "COIN", Size := 2,
              BuyOrSell := BUY } "bo1" 1) = .ok s' ∧
        ¬ fits64 (s'.cashOf "userId1") ∧
        wrap64 (s'.cashOf "userId1") = 10000 - 9223372036854775808 ∧
        wrap64 (s'.cashOf "userId1") < 0) ∧
    (validateOrderReq (GetUserData (setupTestData [] []) "userId1")
        { UserId := "userId1", Limit := -4611686018427387904, AssetId := "COIN", Size := 2,
          BuyOrSell := BUY } = none ∧
      fits64 (-4611686018427387904 * 2) ∧
      ∃ s', AddUserOrder (setupTestData [] [])
          (createOrderFromOrderReq
            { UserId := "userId1", Limit := -4611686018427387904, AssetId := "COIN",
              Size := 2, BuyOrSell := BUY } "bo1" 1) = .ok s' ∧
        ¬ fits64 (s'.cashOf "userId1") ∧ wrap64 (s'.cashOf "userId1") < 0) ∧
    (∃ (ob' : OrderBooks) (s' : Store),
      (newOrderBooks.AddOrder
          (testOrder "so1" "userId1" 4611686018427387904 2 SELL)).ExecuteOrder
        (testOrder "bo1" "userId2" 4611686018427387904 2 BUY) (setupTestData [] [])
        = .ok (ob', s') ∧
      (setupTestData [] []).cashOf "userId1" = 10000 ∧
      s'.cashOf "userId1" = 10000 - 9223372036854775808) := by
  refine ⟨⟨by decide, _, rfl, by decide⟩, ⟨by decide, _, _, _, rfl, rfl, by decide, by decide⟩,
    ⟨by decide, by decide, _, rfl, by decide, by decide, by decide⟩,
    ⟨by decide, by decide, _, rfl, by decide, by decide⟩,
    ⟨_, _, rfl, by decide, by decide⟩⟩

/-- C16, as amended: non-negative balances. If a user's cash and every inventory entry are at
least 0 and `validateOrderReq` accepts a BUY or SELL request against the user's record, the
request's size and limit at least 0 and its `limit × size` within 64 bits, then after
`AddUserOrder` of the order built from the request the user's cash and every inventory entry
are still at least 0, and neither has risen. `ExecuteOrder` lowers nobody's cash and nobody's
inventory when the sizes of the incoming order and of the opposite list are positive, their
limits are not negative and their `limit × size` are within 64 bits. -/
theorem nonnegative_balances :
    (∀ (s : Store) (req : OrderReq) (oid : OrderId) (now : Nat),
      req.BuyOrSell = BUY ∨ req.BuyOrSell = SELL →
      0 ≤ req.Size → 0 ≤ req.Limit → fits64 (req.Limit * req.Size) →
      0 ≤ s.cashOf req.UserId → (∀ a, 0 ≤ s.assetOf req.UserId a) →
      validateOrderReq (GetUserData s req.UserId) req = none →
      ∃ s', AddUserOrder s (createOrderFromOrderReq req oid now) = .ok s' ∧
        (0 ≤ s'.cashOf req.UserId ∧ ∀ a, 0 ≤ s'.assetOf req.UserId a) ∧
        (s'.cashOf req.UserId ≤ s.cashOf req.UserId ∧
          ∀ a, s'.assetOf req.UserId a ≤ s.assetOf req.UserId a)) ∧
    (∀ (ob : OrderBooks) (newOrder : Order) (s : Store), s.hasUser newOrder.userId →
      (∀ o ∈ (ob.bookOf newOrder.assetId).oppositeSide newOrder, s.hasUser o.userId) →
      (∀ o ∈ (ob.bookOf newOrder.assetId).oppositeSide newOrder,
        0 < o.size ∧ 0 ≤ o.limit ∧ fits64 (o.limit * o.size)) →
      0 < newOrder.size → 0 ≤ newOrder.limit → fits64 (newOrder.limit * newOrder.size) →
      ∃ ob' s', ob.ExecuteOrder newOrder s = .ok (ob', s') ∧
        ∀ v, s.cashOf v ≤ s'.cashOf v ∧ ∀ a, s.assetOf v a ≤ s'.assetOf v a) := by
  constructor
  · intro s req oid now hside hsz hlim hfit hcash hinv hval
    obtain ⟨h1, _, h3, h4⟩ := (validateOrderReq_none_iff _ req).1 hval
    have hu : s.hasUser (createOrderFromOrderReq req oid now).userId :=
      hasUser_of_userId_ne s req.UserId h1
    obtain ⟨s', hs', _, _, hbuy, hsell, _, _⟩ :=
      AddUserOrder_effect s (createOrderFromOrderReq req oid now) hu
    have hcost : 0 ≤ getTotalAssetCost req.Limit req.Size := by
      rw [getTotalAssetCost_of_fits hfit]
      exact mul_nonneg hlim hsz
    refine ⟨s', hs', ?_⟩
    rcases hside with hb | hb
    · obtain ⟨c, a⟩ := hbuy hb
      have h3' := h3 hb
      have hc : s'.cashOf req.UserId =
          s.cashOf req.UserId - getTotalAssetCost req.Limit req.Size := c
      have ha : ∀ x, s'.assetOf req.UserId x = s.assetOf req.UserId x := a
      have : (GetUserData s req.UserId).cash = s.cashOf req.UserId := rfl
      refine ⟨⟨?_, fun x => ?_⟩, ?_, fun x => ?_⟩
      · rw [hc]; omega
      · rw [ha x]; exact hinv x
      · rw [hc]; omega
      · rw [ha x]
    · have hnb : (createOrderFromOrderReq req oid now).buyOrSell ≠ BUY := by
        show req.BuyOrSell ≠ BUY
        rw [hb]; decide
      obtain ⟨a1, a2, c⟩ := hsell hnb
      have h4' := h4 hb
      have hc : s'.cashOf req.UserId = s.cashOf req.UserId := c
      have ha : s'.assetOf req.UserId req.AssetId =
          s.assetOf req.UserId req.AssetId - req.Size := a1
      have ha2 : ∀ x, x ≠ req.AssetId → s'.assetOf req.UserId x = s.assetOf req.UserId x := a2
      have : (GoMap.get? (GetUserData s req.UserId).assets req.AssetId).getD 0 =
          s.assetOf req.UserId req.AssetId := rfl
      refine ⟨⟨?_, fun x => ?_⟩, ?_, fun x => ?_⟩
      · rw [hc]; exact hcash
      · by_cases hx : x = req.AssetId
        · subst hx
          rw [ha]; omega
        · rw [ha2 x hx]; exact hinv x
      · rw [hc]
      · by_cases hx : x = req.AssetId
        · subst hx
          rw [ha]; omega
        · rw [ha2 x hx]
  · intro ob newOrder s hnew hown hpos hsz hlim hfit
    obtain ⟨r, hr⟩ := executeOrder_returns _ newOrder s (matchSide newOrder)
      (matchSide_cases newOrder) hnew hown
    obtain ⟨ob', hE, _, _, _⟩ := ExecuteOrder_of_executeOrder ob newOrder s r hr
    exact ⟨ob', r.2.2, hE, executeOrder_mono (matchSide newOrder) (matchSide_cases newOrder) _
      newOrder s hnew hown hpos hsz hlim hfit r hr⟩

/-- C16, instance of the amended statement: the BUY at 100 for 10 of the Go tests, accepted
for a user with cash 10000. -/
theorem nonnegative_balances_witness :
    ∃ s', AddUserOrder (setupTestData [] [])
        (createOrderFromOrderReq
          { UserId := "userId1", Limit := 100, AssetId := "COIN", Size := 10, BuyOrSell := BUY }
          "bo1" 1) = .ok s' ∧
      (0 ≤ s'.cashOf "userId1" ∧ ∀ a, 0 ≤ s'.assetOf "userId1" a) ∧
      (s'.cashOf "userId1" ≤ (setupTestData [] []).cashOf "userId1" ∧
        ∀ a, s'.assetOf "userId1" a ≤ (setupTestData [] []).assetOf "userId1" a) :=
  nonnegative_balances.1 (setupTestData [] [])
    { UserId := "userId1", Limit := 100, AssetId := "COIN", Size := 10, BuyOrSell := BUY }
    "bo1" 1 (by decide) (by decide) (by decide) (by decide) (by decide)
    (by
      intro a
      by_cases h : a = "COIN"
      · subst h; decide
      · simp [Store.assetOf, GetUserData, setupTestData, testUser, GoMap.get?, Ne.symm h])
    (by decide)

/-! ## Cancel -/

theorem DeleteOrder.scan_of_tail_absent (oid : OrderId) (l : List Order)
    (h : ∀ x ∈ l.tail, x.orderId ≠ oid) : DeleteOrder.scan oid l = l := by
  induction l with
  | nil => rfl
  | cons t l ih =>
    cases l with
    | nil => rfl
    | cons n rest =>
      have hn : n.orderId ≠ oid := h n (by simp)
      simp only [DeleteOrder.scan, hn, if_false, List.cons.injEq, true_and]
      exact ih (fun x hx => h x (by simp only [List.tail_cons] at hx ⊢
                                    exact List.mem_cons_of_mem _ hx))

theorem DeleteOrder_absent (l : List Order) (oid : OrderId) (h : ∀ x ∈ l, x.orderId ≠ oid) :
    DeleteOrder l oid = l := by
  cases l with
  | nil => rfl
  | cons front rest =>
    have hf : front.orderId ≠ oid := h front (List.mem_cons_self _ _)
    simp only [DeleteOrder, hf, if_false]
    exact DeleteOrder.scan_of_tail_absent oid _
      (fun x hx => h x (List.mem_cons_of_mem _ (by simpa using hx)))

theorem DeleteOrder.scan_insert (o t : Order) (pre post : List Order)
    (hpre : ∀ x ∈ pre, x.orderId ≠ o.orderId) (hpost : ∀ x ∈ post, x.orderId ≠ o.orderId) :
    DeleteOrder.scan o.orderId (t :: (pre ++ o :: post)) = t :: (pre ++ post) := by
  induction pre generalizing t with
  | nil =>
    simp only [List.nil_append, DeleteOrder.scan, if_true, List.cons.injEq, true_and]
    exact DeleteOrder.scan_of_tail_absent _ _
      (fun x hx => hpost x (List.mem_of_mem_tail hx))
  | cons a pre ih =>
    have ha : a.orderId ≠ o.orderId := hpre a (List.mem_cons_self _ _)
    simp only [List.cons_append, DeleteOrder.scan, ha, if_false, List.cons.injEq, true_and]
    exact ih a (fun x hx => hpre x (List.mem_cons_of_mem _ hx))

/-- Deleting by id the one order that carries it gives back the list around it. -/
theorem DeleteOrder_insert (o : Order) (pre post : List Order)
    (hpre : ∀ x ∈ pre, x.orderId ≠ o.orderId) (hpost : ∀ x ∈ post, x.orderId ≠ o.orderId) :
    DeleteOrder (pre ++ o :: post) o.orderId = pre ++ post := by
  cases pre with
  | nil => simp [DeleteOrder]
  | cons a pre =>
    have ha : a.orderId ≠ o.orderId := hpre a (List.mem_cons_self _ _)
    simp only [List.cons_append, DeleteOrder, ha, if_false]
    exact DeleteOrder.scan_insert o a pre post
      (fun x hx => hpre x (List.mem_cons_of_mem _ hx)) hpost

theorem DeleteOrder_AddOrder (l : List Order) (o : Order)
    (h : ∀ x ∈ l, x.orderId ≠ o.orderId) : DeleteOrder (AddOrder l o) o.orderId = l := by
  obtain ⟨pre, post, hl, ha⟩ := AddOrder_split l o
  rw [ha, DeleteOrder_insert o pre post (fun x hx => h x (by rw [hl]; simp [hx]))
    (fun x hx => h x (by rw [hl]; simp [hx])), ← hl]

/-- `OrderBooks.DeleteOrder` deletes by id in the same-side list of the order's asset and
leaves every other list alone. -/
theorem OrderBooks_DeleteOrder_bookOf (ob : OrderBooks) (order : Order) :
    ((ob.DeleteOrder order).bookOf order.assetId).sameSide order =
      DeleteOrder ((ob.bookOf order.assetId).sameSide order) order.orderId ∧
    ((ob.DeleteOrder order).bookOf order.assetId).oppositeSide order =
      (ob.bookOf order.assetId).oppositeSide order ∧
    ∀ a, a ≠ order.assetId → (ob.DeleteOrder order).bookOf a = ob.bookOf a := by
  by_cases hb : order.buyOrSell = BUY
  · have hE : ob.DeleteOrder order =
        { orderBooks := GoMap.set (getOrderBook ob order.assetId).1.orderBooks order.assetId
            { (getOrderBook ob order.assetId).2 with
              BuyList := DeleteOrder (getOrderBook ob order.assetId).2.BuyList
                order.orderId } } := by
      simp only [OrderBooks.DeleteOrder, hb, if_true]
    rw [hE]
    refine ⟨?_, ?_, fun a ha => ?_⟩
    · rw [bookOf_set, if_pos rfl]
      simp [OrderBook.sameSide, hb, OrderBooks.bookOf]
    · rw [bookOf_set, if_pos rfl]
      simp [OrderBook.oppositeSide, hb, OrderBooks.bookOf]
    · rw [bookOf_set, if_neg ha]
  · have hE : ob.DeleteOrder order =
        { orderBooks := GoMap.set (getOrderBook ob order.assetId).1.orderBooks order.assetId
            { (getOrderBook ob order.assetId).2 with
              SellList := DeleteOrder (getOrderBook ob order.assetId).2.SellList
                order.orderId } } := by
      simp only [OrderBooks.DeleteOrder, hb, if_false]
    rw [hE]
    refine ⟨?_, ?_, fun a ha => ?_⟩
    · rw [bookOf_set, if_pos rfl]
      simp [OrderBook.sameSide, hb, OrderBooks.bookOf]
    · rw [bookOf_set, if_pos rfl]
      simp [OrderBook.oppositeSide, hb, OrderBooks.bookOf]
    · rw [bookOf_set, if_neg ha]

/-- What `UpdateUserAssetOnOrderCancel` does for a user with a record: it refunds the cost
`getTotalAssetCost` of the stored order's limit and size in cash (BUY) or its `size` in
inventory of the given asset (any other side), whatever the order's status and `filled`, and
marks the record CANCELED. -/
theorem UpdateUserAssetOnOrderCancel_effect (s : Store) (u : UserId) (assetId : AssetId)
    (oid : OrderId) (hu : s.hasUser u) :
    ∃ s', UpdateUserAssetOnOrderCancel s u assetId oid = .ok s' ∧
      s'.orderOf u oid = { s.orderOf u oid with status := Canceled } ∧
      s'.cashOf u = s.cashOf u +
        (if (s.orderOf u oid).buyOrSell = BUY then
          getTotalAssetCost (s.orderOf u oid).limit (s.orderOf u oid).size else 0) ∧
      (∀ a, s'.assetOf u a = s.assetOf u a +
        (if (s.orderOf u oid).buyOrSell ≠ BUY ∧ a = assetId then (s.orderOf u oid).size
         else 0)) ∧
      (∀ v, v ≠ u → GetUserData s' v = GetUserData s v) := by
  obtain ⟨ud, hud⟩ := (hasUser_iff s u).1 hu
  have hget : GetUserData s u = ud := by simp [GetUserData, hud]
  have ho : s.orderOf u oid = (GoMap.get? ud.orders oid).getD Order.zero := by
    simp [Store.orderOf, hget]
  by_cases hb : (s.orderOf u oid).buyOrSell = BUY
  · have hb' : ((GoMap.get? ud.orders oid).getD Order.zero).buyOrSell = BUY := by
      rw [← ho]; exact hb
    have hval : UpdateUserAssetOnOrderCancel s u assetId oid =
        .ok {
          db := GoMap.set s.db u
            { ud with
              cash := ud.cash + getTotalAssetCost
                ((GoMap.get? ud.orders oid).getD Order.zero).limit
                ((GoMap.get? ud.orders oid).getD Order.zero).size,
              orders := GoMap.set ud.orders oid
                { (GoMap.get? ud.orders oid).getD Order.zero with status := Canceled } } } := by
      simp only [UpdateUserAssetOnOrderCancel, hud, hb', if_true]
    refine ⟨_, hval, ?_, ?_, fun a => ?_, fun v hv => ?_⟩
    · rw [orderOf_set, if_pos rfl, ho]
      simp [GoMap.get?_set_self]
    · rw [cashOf_set, if_pos rfl, if_pos hb, ho]
      simp [Store.cashOf, hget]
    · rw [assetOf_set, if_pos rfl]
      simp [hb, Store.assetOf, hget]
    · rw [GetUserData_set, if_neg hv]
  · have hb' : ¬ ((GoMap.get? ud.orders oid).getD Order.zero).buyOrSell = BUY := by
      rw [← ho]; exact hb
    have hval : UpdateUserAssetOnOrderCancel s u assetId oid =
        .ok {
          db := GoMap.set s.db u
            { ud with
              assets := GoMap.set ud.assets assetId
                ((GoMap.get? ud.assets assetId).getD 0 +
                  ((GoMap.get? ud.orders oid).getD Order.zero).size),
              orders := GoMap.set ud.orders oid
                { (GoMap.get? ud.orders oid).getD Order.zero with status := Canceled } } } := by
      simp only [UpdateUserAssetOnOrderCancel, hud, hb', if_false]
    refine ⟨_, hval, ?_, ?_, fun a => ?_, fun v hv => ?_⟩
    · rw [orderOf_set, if_pos rfl, ho]
      simp [GoMap.get?_set_self]
    · rw [cashOf_set, if_pos rfl, if_neg hb]
      simp [Store.cashOf, hget]
    · rw [assetOf_set, if_pos rfl]
      by_cases ha : a = assetId
      · subst ha
        simp [hb, ho, hb', Store.assetOf, hget, GoMap.get?_set_self]
      · simp [ha, Store.assetOf, hget, GoMap.get?_set_ne _ _ _ _ ha]
    · rw [GetUserData_set, if_neg hv]

/-- `CancelUserOrder` for a user with a record: the stored order is deleted from the books by
id and refunded by `UpdateUserAssetOnOrderCancel`; the empty order is returned. -/
theorem CancelUserOrder_of_user (svc : OrderMatchingService) (u : UserId) (oid : OrderId)
    (hu : svc.Store.hasUser u) (s' : Store)
    (hs' : UpdateUserAssetOnOrderCancel svc.Store u (svc.Store.orderOf u oid).assetId
      (svc.Store.orderOf u oid).orderId = .ok s') :
    svc.CancelUserOrder u oid = .ok (Order.zero,
      { Store := s', OrderBooks := svc.OrderBooks.DeleteOrder (svc.Store.orderOf u oid) }) := by
  obtain ⟨ud, hud⟩ := (hasUser_iff svc.Store u).1 hu
  have ho : svc.Store.orderOf u oid = (GoMap.get? ud.orders oid).getD Order.zero := by
    simp [Store.orderOf, GetUserData, hud]
  rw [ho] at hs'
  simp only [OrderMatchingService.CancelUserOrder, hud, hs', ho]

/-- `CancelUserOrder` for a user without a record changes nothing. -/
theorem CancelUserOrder_unknown_user (svc : OrderMatchingService) (u : UserId) (oid : OrderId)
    (hu : ¬ svc.Store.hasUser u) : svc.CancelUserOrder u oid = .ok (Order.zero, svc) := by
  unfold Store.hasUser at hu
  cases hg : GoMap.get? svc.Store.db u
  · simp only [OrderMatchingService.CancelUserOrder, hg]
  · rw [hg] at hu; simp at hu

/-- C17: submit/cancel round trip. For an owner with a record and an order of any side whose
id is not yet in its side's list and for which no match is available, `AddUserOrder` reserves,
`ExecuteOrder` leaves the store alone and rests the order in its side's list when its size is
positive, and `CancelUserOrder` then returns the empty order and a state in which the owner's
cash and every inventory entry equal their values before the submission, the order's store
status is CANCELED, no order of that id is in its side's list (the list is the one before the
submission), and the other side's list is unchanged. -/
theorem submit_cancel_round_trip (ob : OrderBooks) (s : Store) (order : Order)
    (hu : s.hasUser order.userId)
    (hfresh : ∀ x ∈ (ob.bookOf order.assetId).sameSide order, x.orderId ≠ order.orderId)
    (hno : orderMatchAvailable ((ob.bookOf order.assetId).oppositeSide order) order
      (matchSide order) = false) :
    ∃ s₁ ob₁ svc,
      AddUserOrder s order = .ok s₁ ∧
      ob.ExecuteOrder order s₁ = .ok (ob₁, s₁) ∧
      (0 < order.size → order ∈ (ob₁.bookOf order.assetId).sameSide order) ∧
      OrderMatchingService.CancelUserOrder { Store := s₁, OrderBooks := ob₁ } order.userId
        order.orderId = .ok (Order.zero, svc) ∧
      svc.Store.cashOf order.userId = s.cashOf order.userId ∧
      (∀ a, svc.Store.assetOf order.userId a = s.assetOf order.userId a) ∧
      (svc.Store.orderOf order.userId order.orderId).status = Canceled ∧
      (∀ x ∈ (svc.OrderBooks.bookOf order.assetId).sameSide order,
        x.orderId ≠ order.orderId) ∧
      (svc.OrderBooks.bookOf order.assetId).sameSide order =
        (ob.bookOf order.assetId).sameSide order ∧
      (svc.OrderBooks.bookOf order.assetId).oppositeSide order =
        (ob.bookOf order.assetId).oppositeSide order := by
  obtain ⟨s₁, hadd, hrec, -, hbuy, hsell, -, hhas⟩ := AddUserOrder_effect s order hu
  have hu₁ : s₁.hasUser order.userId := (hhas _).2 hu
  obtain ⟨ob₁, hexec, hopp, hsame, -⟩ := ExecuteOrder_of_executeOrder ob order s₁
    (_, _, _) (executeOrder_no_match _ order s₁ _ hno)
  simp only at hexec hopp hsame
  obtain ⟨s₂, hupd, hrec₂, hcash₂, hasset₂, -⟩ :=
    UpdateUserAssetOnOrderCancel_effect s₁ order.userId order.assetId order.orderId hu₁
  have hcancel := CancelUserOrder_of_user { Store := s₁, OrderBooks := ob₁ } order.userId
    order.orderId hu₁ s₂ (by show UpdateUserAssetOnOrderCancel s₁ _ _ _ = _
                             rw [hrec]; exact hupd)
  simp only [hrec] at hcancel
  obtain ⟨dsame, dopp, -⟩ := OrderBooks_DeleteOrder_bookOf ob₁ order
  have hback : DeleteOrder ((ob₁.bookOf order.assetId).sameSide order) order.orderId =
      (ob.bookOf order.assetId).sameSide order := by
    rw [hsame]
    by_cases hp : order.size > 0
    · rw [if_pos hp]; exact DeleteOrder_AddOrder _ order hfresh
    · rw [if_neg hp]; exact DeleteOrder_absent _ _ hfresh
  refine ⟨s₁, ob₁, _, hadd, hexec, fun hp => ?_, hcancel, ?_, fun a => ?_, ?_, ?_, ?_, ?_⟩
  · rw [hsame, if_pos hp]
    exact (mem_AddOrder _ _ _).2 (Or.inl rfl)
  · show s₂.cashOf order.userId = _
    rw [hcash₂, hrec]
    by_cases hb : order.buyOrSell = BUY
    · rw [if_pos hb, (hbuy hb).1]; ring
    · rw [if_neg hb, (hsell hb).2.2]; ring
  · show s₂.assetOf order.userId a = _
    rw [hasset₂ a, hrec]
    by_cases hb : order.buyOrSell = BUY
    · rw [if_neg (fun h => h.1 hb), (hbuy hb).2 a]; ring
    · by_cases ha : a = order.assetId
      · rw [if_pos ⟨hb, ha⟩, ha, (hsell hb).1]; ring
      · rw [if_neg (fun h => ha h.2), (hsell hb).2.1 a ha]; ring
  · show (s₂.orderOf order.userId order.orderId).status = Canceled
    rw [hrec₂]
  · show ∀ x ∈ ((ob₁.DeleteOrder order).bookOf order.assetId).sameSide order, _
    rw [dsame, hback]; exact hfresh
  · show ((ob₁.DeleteOrder order).bookOf order.assetId).sameSide order = _
    rw [dsame, hback]
  · show ((ob₁.DeleteOrder order).bookOf order.assetId).oppositeSide order = _
    rw [dopp, hopp]

/-- C17, instance of the Go test `TestOrderMatchingService_CancelUserOrder`: with a SELL at 120
resting, a BUY at 101 for 10 from cash 10000 is reserved, rests, and is cancelled; the cash is
10000 again, the record is CANCELED, the buy list is empty and the sell list is as before. -/
theorem submit_cancel_round_trip_witness :
    ∃ s₁ ob₁ svc,
      AddUserOrder (setupTestData [testOrder "so1" "userId1" 120 10 SELL] [])
        (testOrder "bo1" "userId1" 101 10 BUY) = .ok s₁ ∧
      OrderBooks.ExecuteOrder
        { orderBooks := [("COIN",
            { BuyList := [], SellList := [testOrder "so1" "userId1" 120 10 SELL] })] }
        (testOrder "bo1" "userId1" 101 10 BUY) s₁ = .ok (ob₁, s₁) ∧
      testOrder "bo1" "userId1" 101 10 BUY ∈
        (ob₁.bookOf "COIN").sameSide (testOrder "bo1" "userId1" 101 10 BUY) ∧
      OrderMatchingService.CancelUserOrder { Store := s₁, OrderBooks := ob₁ } "userId1" "bo1" =
        .ok (Order.zero, svc) ∧
      svc.Store.cashOf "userId1" = 10000 ∧
      (svc.Store.orderOf "userId1" "bo1").status = Canceled ∧
      (svc.OrderBooks.bookOf "COIN").sameSide (testOrder "bo1" "userId1" 101 10 BUY) = [] ∧
      (svc.OrderBooks.bookOf "COIN").oppositeSide (testOrder "bo1" "userId1" 101 10 BUY) =
        [testOrder "so1" "userId1" 120 10 SELL] := by
  obtain ⟨s₁, ob₁, svc, h1, h2, h3, h4, h5, -, h7, -, h9, h10⟩ :=
    submit_cancel_round_trip
      { orderBooks := [("COIN",
          { BuyList := [], SellList := [testOrder "so1" "userId1" 120 10 SELL] })] }
      (setupTestData [testOrder "so1" "userId1" 120 10 SELL] [])
      (testOrder "bo1" "userId1" 101 10 BUY) (by decide) (by decide) (by decide)
  exact ⟨s₁, ob₁, svc, h1, h2, h3 (by decide), h4, h5.trans (by decide), h7,
    h9.trans (by decide), h10.trans (by decide)⟩

/-- C18, the code at a partially filled order: userId2 buys 10 at 100 (1000 reserved, cash
9000), userId1 sells 5 at 100 into it. The buyer's record is then WORKING with size 10 and
filled 5, the buyer's cash is still 9000 and the list copy has the remaining size 5.
`CancelUserOrder` then refunds `limit × size` = 1000 (cash 10000), not
`limit × (size - filled)` = 500 (cash 9500); it does mark the record CANCELED. -/
theorem CancelUserOrder_partial_fill_refunds_full_size :
    ∃ svc₁ svc₂ svc₃,
      OrderMatchingService.ProcessOrderReq
        { Store := setupTestData [] [], OrderBooks := { orderBooks := [] } }
        { UserId := "userId2", Limit := 100, AssetId := "COIN", Size := 10, BuyOrSell := BUY }
        "bo1" 1 = .ok svc₁ ∧
      svc₁.ProcessOrderReq
        { UserId := "userId1", Limit := 100, AssetId := "COIN", Size := 5, BuyOrSell := SELL }
        "so1" 2 = .ok svc₂ ∧
      (svc₂.Store.orderOf "userId2" "bo1").status = Working ∧
      (svc₂.Store.orderOf "userId2" "bo1").limit = 100 ∧
      (svc₂.Store.orderOf "userId2" "bo1").size = 10 ∧
      (svc₂.Store.orderOf "userId2" "bo1").filled = 5 ∧
      ((svc₂.OrderBooks.bookOf "COIN").BuyList.map fun o => (o.orderId, o.size)) =
        [("bo1", 5)] ∧
      svc₂.Store.cashOf "userId2" = 9000 ∧
      svc₂.CancelUserOrder "userId2" "bo1" = .ok (Order.zero, svc₃) ∧
      (svc₃.Store.orderOf "userId2" "bo1").status = Canceled ∧
      svc₃.Store.cashOf "userId2" = 9000 + 100 * 10 ∧
      svc₃.Store.cashOf "userId2" ≠ 9000 + 100 * (10 - 5) := by
  refine ⟨_, _, _, rfl, rfl, ?_, ?_, ?_, ?_, ?_, ?_, rfl, ?_, ?_, ?_⟩ <;> decide

/-- C19, the code at terminal orders. First run: userId2 buys 10 at 100 and userId1 sells 10
at 100 into it; the buyer's record is COMPLETE, cash 9000 and 110 COIN. `CancelUserOrder` on
that COMPLETE order raises the cash to 10000 and turns the status to CANCELED. Second run: a
resting BUY at 101 for 10 is cancelled (cash back to 10000, CANCELED) and cancelled again: the
second cancel raises the cash to 11010, so cancelling twice is not cancelling once. -/
theorem CancelUserOrder_terminal_order_refunds :
    (∃ svc₁ svc₂ svc₃,
      OrderMatchingService.ProcessOrderReq
        { Store := setupTestData [] [], OrderBooks := { orderBooks := [] } }
        { UserId := "userId2", Limit := 100, AssetId := "COIN", Size := 10, BuyOrSell := BUY }
        "bo1" 1 = .ok svc₁ ∧
      svc₁.ProcessOrderReq
        { UserId := "userId1", Limit := 100, AssetId := "COIN", Size := 10, BuyOrSell := SELL }
        "so1" 2 = .ok svc₂ ∧
      (svc₂.Store.orderOf "userId2" "bo1").status = Complete ∧
      (svc₂.Store.orderOf "userId2" "bo1").filled = 10 ∧
      svc₂.Store.cashOf "userId2" = 9000 ∧
      svc₂.Store.assetOf "userId2" "COIN" = 110 ∧
      svc₂.CancelUserOrder "userId2" "bo1" = .ok (Order.zero, svc₃) ∧
      (svc₃.Store.orderOf "userId2" "bo1").status = Canceled ∧
      svc₃.Store.cashOf "userId2" = 10000 ∧
      svc₃.Store.assetOf "userId2" "COIN" = 110) ∧
    (∃ svc₁ svc₂ svc₃,
      OrderMatchingService.ProcessOrderReq
        { Store := setupTestData [] [], OrderBooks := { orderBooks := [] } }
        { UserId := "userId1", Limit := 101, AssetId := "COIN", Size := 10, BuyOrSell := BUY }
        "bo1" 1 = .ok svc₁ ∧
      svc₁.CancelUserOrder "userId1" "bo1" = .ok (Order.zero, svc₂) ∧
      (svc₂.Store.orderOf "userId1" "bo1").status = Canceled ∧
      svc₂.Store.cashOf "userId1" = 10000 ∧
      svc₂.CancelUserOrder "userId1" "bo1" = .ok (Order.zero, svc₃) ∧
      (svc₃.Store.orderOf "userId1" "bo1").status = Canceled ∧
      svc₃.Store.cashOf "userId1" = 11010 ∧
      svc₃ ≠ svc₂) := by
  refine ⟨⟨_, _, _, rfl, rfl, ?_, ?_, ?_, ?_, rfl, ?_, ?_, ?_⟩,
    ⟨_, _, _, rfl, rfl, ?_, ?_, rfl, ?_, ?_, ?_⟩⟩ <;> decide

/-- C20, the code at the calls of the Go test `TestOrderMatchingService_CancelUserOrder`. For
a user id with no record, `CancelUserOrder` returns the empty order and the service as it was.
For the known user userId1 and the order id "wrong", which the user's orders map does not
hold, it returns the empty order but changes the state: the user's orders map gains a CANCELED
record under the empty id, and the books gain an (empty) book for the empty asset id; cash and
inventory stay as they were. -/
theorem CancelUserOrder_unknown_order_writes_record :
    OrderMatchingService.CancelUserOrder
      { Store := setupTestData [] [], OrderBooks := { orderBooks := [] } } "userId3" "wrong" =
      .ok (Order.zero, { Store := setupTestData [] [], OrderBooks := { orderBooks := [] } }) ∧
    (GoMap.get? (GetUserData (setupTestData [] []) "userId1").orders "wrong").isNone ∧
    ∃ svc,
      OrderMatchingService.CancelUserOrder
        { Store := setupTestData [] [], OrderBooks := { orderBooks := [] } } "userId1" "wrong" =
        .ok (Order.zero, svc) ∧
      (GetUserData (setupTestData [] []) "userId1").orders = [] ∧
      (GetUserData svc.Store "userId1").orders =
        [("", { Order.zero with status := Canceled })] ∧
      svc.OrderBooks.orderBooks = [("", { BuyList := [], SellList := [] })] ∧
      svc.Store ≠ setupTestData [] [] ∧
      svc.Store.cashOf "userId1" = 10000 ∧
      svc.Store.assetOf "userId1" "COIN" = 100 := by
  refine ⟨rfl, by decide, _, rfl, ?_, ?_, ?_, ?_, ?_, ?_⟩ <;> decide

/-! ## List operations: delete, update, top -/

theorem filter_ne_id_self (l : List Order) (oid : OrderId) (h : ∀ x ∈ l, x.orderId ≠ oid) :
    l.filter (fun x => decide (x.orderId ≠ oid)) = l := by
  rw [List.filter_eq_self]
  intro x hx
  simpa using h x hx

theorem nodup_ids_split {pre post : List Order} {o : Order}
    (hnd : ((pre ++ o :: post).map (fun x => x.orderId)).Nodup) :
    (∀ x ∈ pre, x.orderId ≠ o.orderId) ∧ (∀ x ∈ post, x.orderId ≠ o.orderId) := by
  rw [List.map_append, List.map_cons, List.nodup_append] at hnd
  obtain ⟨_, h2, h3⟩ := hnd
  refine ⟨fun x hx e => ?_, fun x hx e => ?_⟩
  · exact h3 (List.mem_map_of_mem _ hx) (by rw [e]; exact List.mem_cons_self _ _)
  · have := (List.nodup_cons.1 h2).1
    exact this (by rw [← e]; exact List.mem_map_of_mem _ hx)

/-- C21: on a list with pairwise distinct order ids, `DeleteOrder` gives exactly the list
without the order of the given id, the others in their original order: the list is its filter
by `orderId ≠ oid`; around an order of that id at any place (front, middle, end) the two
parts are joined and `getSize` drops by 1; `getOrder` of the id then gives the empty order;
and when no order has the id the list is unchanged. -/
theorem DeleteOrder_distinct_ids (l : List Order) (oid : OrderId)
    (hnd : (l.map (fun o => o.orderId)).Nodup) :
    DeleteOrder l oid = l.filter (fun o => decide (o.orderId ≠ oid)) ∧
    (∀ pre o post, l = pre ++ o :: post → o.orderId = oid →
      DeleteOrder l oid = pre ++ post ∧ getSize (DeleteOrder l oid) = getSize l - 1) ∧
    getOrder (DeleteOrder l oid) oid = Order.zero ∧
    ((∀ o ∈ l, o.orderId ≠ oid) → DeleteOrder l oid = l) := by
  have hsplit : ∀ pre o post, l = pre ++ o :: post → o.orderId = oid →
      DeleteOrder l oid = pre ++ post := by
    intro pre o post hl ho
    subst hl
    obtain ⟨h1, h2⟩ := nodup_ids_split hnd
    rw [← ho]
    exact DeleteOrder_insert o pre post h1 h2
  have hfilter : DeleteOrder l oid = l.filter (fun o => decide (o.orderId ≠ oid)) := by
    by_cases hex : ∃ o ∈ l, o.orderId = oid
    · obtain ⟨o, hol, ho⟩ := hex
      obtain ⟨pre, post, hl⟩ := List.append_of_mem hol
      rw [hsplit pre o post hl ho]
      subst hl
      obtain ⟨h1, h2⟩ := nodup_ids_split hnd
      rw [ho] at h1 h2
      rw [List.filter_append, List.filter_cons, filter_ne_id_self pre oid h1,
        filter_ne_id_self post oid h2]
      simp [ho]
    · have habs : ∀ x ∈ l, x.orderId ≠ oid := fun x hx e => hex ⟨x, hx, e⟩
      rw [DeleteOrder_absent l oid habs, filter_ne_id_self l oid habs]
  refine ⟨hfilter, fun pre o post hl ho => ⟨hsplit pre o post hl ho, ?_⟩, ?_,
    DeleteOrder_absent l oid⟩
  · rw [hsplit pre o post hl ho, hl]
    simp only [getSize, List.length_append, List.length_cons]
    push_cast
    ring
  · rw [hfilter]
    apply getOrder_absent
    intro x hx
    simpa using (List.mem_filter.1 hx).2

/-- C21, instance of the Go test `TestOrdersList_DeleteOrder`: from the list of the orders
3, 2, 1 the order 2 in the middle is deleted; 3 and 1 stay, in that order. -/
theorem DeleteOrder_distinct_ids_witness :
    DeleteOrder
      [{ Order.zero with orderId := "3", limit := 300, size := 30 },
       { Order.zero with orderId := "2", limit := 200, size := 20 },
       { Order.zero with orderId := "1", limit := 100, size := 10 }] "2" =
      [{ Order.zero with orderId := "3", limit := 300, size := 30 },
       { Order.zero with orderId := "1", limit := 100, size := 10 }] :=
  (DeleteOrder_distinct_ids
    [{ Order.zero with orderId := "3", limit := 300, size := 30 },
     { Order.zero with orderId := "2", limit := 200, size := 20 },
     { Order.zero with orderId := "1", limit := 100, size := 10 }] "2" (by decide)).1.trans
    (by decide)

/-- C22: `UpdateOrder` changes only the size. The result has the orders of the list in the
same positions (same length); an order with the argument's id has the argument's size and
all its other fields as before; every other order is unchanged. When no order has the id the
list is unchanged, and on a list with distinct ids `getOrder` of the id gives the order as it
was with the new size. The last part is the Go test `TestOrdersList_UpdateOrder`. -/
theorem UpdateOrder_only_size :
    (∀ (l : List Order) (order : Order),
      List.Forall₂
        (fun t u =>
          u.orderId = t.orderId ∧ u.userId = t.userId ∧ u.limit = t.limit ∧
          u.assetId = t.assetId ∧ u.buyOrSell = t.buyOrSell ∧ u.eventAt = t.eventAt ∧
          u.status = t.status ∧ u.filled = t.filled ∧
          (t.orderId = order.orderId → u.size = order.size) ∧
          (t.orderId ≠ order.orderId → u = t))
        l (UpdateOrder l order)) ∧
    (∀ (l : List Order) (order : Order),
      getSize (UpdateOrder l order) = getSize l) ∧
    (∀ (l : List Order) (order : Order), (∀ t ∈ l, t.orderId ≠ order.orderId) →
      UpdateOrder l order = l) ∧
    (∀ (l : List Order) (order t : Order), (l.map (fun o => o.orderId)).Nodup → t ∈ l →
      t.orderId = order.orderId →
      getOrder (UpdateOrder l order) order.orderId = { t with size := order.size }) ∧
    (getOrder
      (UpdateOrder
        [{ Order.zero with orderId := "3", limit := 300, size := 30 },
         { Order.zero with orderId := "2", limit := 200, size := 20 },
         { Order.zero with orderId := "1", limit := 100, size := 10 }]
        { Order.zero with orderId := "2", limit := 200, size := 50 }) "2").size = 50 := by
  refine ⟨fun l order => ?_, fun l order => ?_, fun l order h => ?_,
    fun l order t hnd ht hid => ?_, by decide⟩
  · induction l with
    | nil => exact List.Forall₂.nil
    | cons a l ih =>
      refine List.Forall₂.cons ?_ ih
      by_cases ha : a.orderId = order.orderId
      · simp [ha]
      · simp [ha]
  · simp [UpdateOrder, getSize]
  · unfold UpdateOrder
    conv_rhs => rw [← List.map_id l]
    apply List.map_congr_left
    intro t ht
    simp [h t ht]
  · induction l with
    | nil => cases ht
    | cons a l ih =>
      have hc := nodup_ids_cons hnd
      rcases List.mem_cons.1 ht with rfl | ht
      · simp [UpdateOrder, getOrder, hid]
      · have ha : a.orderId ≠ order.orderId := fun e => hc.1 t ht (hid.trans e.symm)
        have := ih hc.2 ht
        simp only [UpdateOrder] at this ⊢
        simp only [List.map_cons, ha, if_false, getOrder]
        exact this

theorem GetTopOrder_scanBuy (o t : Order) (rest : List Order) :
    GetTopOrder (AddOrder.scanBuy o (t :: rest)) = t := by
  rw [scanBuy_cons]; rfl

theorem GetTopOrder_scanSell (o t : Order) (rest : List Order) :
    GetTopOrder (AddOrder.scanSell o (t :: rest)) = t := by
  rw [scanSell_cons]; rfl

/-- The top after an insertion: the new order when the list was empty or the new order is
strictly better than the old top, the old top otherwise. -/
theorem GetTopOrder_AddOrder (l : List Order) (o : Order) :
    GetTopOrder (AddOrder l o) =
      if l = [] then o
      else if o.buyOrSell = BUY then
        (if o.limit > (GetTopOrder l).limit then o else GetTopOrder l)
      else (if o.limit < (GetTopOrder l).limit then o else GetTopOrder l) := by
  cases l with
  | nil => rfl
  | cons f rest =>
    simp only [AddOrder, GetTopOrder, if_false, reduceCtorEq]
    by_cases hb : o.buyOrSell = BUY
    · by_cases hl : o.limit > f.limit
      · simp [hb, hl, GetTopOrder]
      · simp only [hb, hl, if_true, if_false]
        exact GetTopOrder_scanBuy o f rest
    · by_cases hl : o.limit < f.limit
      · simp [hb, hl, GetTopOrder]
      · simp only [hb, hl, if_false]
        exact GetTopOrder_scanSell o f rest

theorem foldl_AddOrder_ne_nil (os : List Order) (l : List Order) (h : l ≠ [] ∨ os ≠ []) :
    os.foldl AddOrder l ≠ [] := by
  induction os generalizing l with
  | nil =>
    rcases h with h | h
    · exact h
    · exact absurd rfl h
  | cons o os ih =>
    rw [List.foldl_cons]
    apply ih
    left
    intro e
    have := (mem_AddOrder l o o).2 (Or.inl rfl)
    rw [e] at this
    cases this

/-- The top of a list built from the empty list by BUY insertions is the first of the
inserted orders with the highest limit. -/
theorem GetTopOrder_foldl_buy (os : List Order) (hos : ∀ o ∈ os, o.buyOrSell = BUY)
    (hne : os ≠ []) :
    ∃ pre post, os = pre ++ GetTopOrder (os.foldl AddOrder []) :: post ∧
      (∀ o ∈ pre, o.limit < (GetTopOrder (os.foldl AddOrder [])).limit) ∧
      (∀ o ∈ post, o.limit ≤ (GetTopOrder (os.foldl AddOrder [])).limit) := by
  induction os using List.reverseRecOn with
  | nil => exact absurd rfl hne
  | append_singleton os x ih =>
    have hx : x.buyOrSell = BUY := hos x (by simp)
    rw [List.foldl_append, List.foldl_cons, List.foldl_nil, GetTopOrder_AddOrder]
    by_cases he : os = []
    · subst he
      refine ⟨[], [], ?_, ?_, ?_⟩ <;> simp
    · have hacc : os.foldl AddOrder [] ≠ [] := foldl_AddOrder_ne_nil os [] (Or.inr he)
      obtain ⟨pre, post, hsplit, hpre, hpost⟩ :=
        ih (fun o ho => hos o (by simp [ho])) he
      rw [if_neg hacc, if_pos hx]
      by_cases hl : x.limit > (GetTopOrder (os.foldl AddOrder [])).limit
      · rw [if_pos hl]
        refine ⟨os, [], by simp, fun o ho => ?_, by simp⟩
        rw [hsplit] at ho
        rcases List.mem_append.1 ho with h | h
        · exact lt_trans (hpre o h) hl
        · rcases List.mem_cons.1 h with h | h
          · rw [h]; exact hl
          · exact lt_of_le_of_lt (hpost o h) hl
      · rw [if_neg hl]
        refine ⟨pre, post ++ [x], ?_, hpre, fun o ho => ?_⟩
        · conv_lhs => rw [hsplit]
          simp
        · rcases List.mem_append.1 ho with h | h
          · exact hpost o h
          · rw [List.mem_singleton.1 h]; exact not_lt.1 hl

/-- The top of a list built from the empty list by SELL insertions is the first of the
inserted orders with the lowest limit. -/
theorem GetTopOrder_foldl_sell (os : List Order) (hos : ∀ o ∈ os, o.buyOrSell = SELL)
    (hne : os ≠ []) :
    ∃ pre post, os = pre ++ GetTopOrder (os.foldl AddOrder []) :: post ∧
      (∀ o ∈ pre, (GetTopOrder (os.foldl AddOrder [])).limit < o.limit) ∧
      (∀ o ∈ post, (GetTopOrder (os.foldl AddOrder [])).limit ≤ o.limit) := by
  induction os using List.reverseRecOn with
  | nil => exact absurd rfl hne
  | append_singleton os x ih =>
    have hx : ¬ x.buyOrSell = BUY := by rw [hos x (by simp)]; decide
    rw [List.foldl_append, List.foldl_cons, List.foldl_nil, GetTopOrder_AddOrder]
    by_cases he : os = []
    · subst he
      refine ⟨[], [], ?_, ?_, ?_⟩ <;> simp
    · have hacc : os.foldl AddOrder [] ≠ [] := foldl_AddOrder_ne_nil os [] (Or.inr he)
      obtain ⟨pre, post, hsplit, hpre, hpost⟩ :=
        ih (fun o ho => hos o (by simp [ho])) he
      rw [if_neg hacc, if_neg hx]
      by_cases hl : x.limit < (GetTopOrder (os.foldl AddOrder [])).limit
      · rw [if_pos hl]
        refine ⟨os, [], by simp, fun o ho => ?_, by simp⟩
        rw [hsplit] at ho
        rcases List.mem_append.1 ho with h | h
        · exact lt_trans hl (hpre o h)
        · rcases List.mem_cons.1 h with h | h
          · rw [h]; exact hl
          · exact lt_of_lt_of_le hl (hpost o h)
      · rw [if_neg hl]
        refine ⟨pre, post ++ [x], ?_, hpre, fun o ho => ?_⟩
        · conv_lhs => rw [hsplit]
          simp
        · rcases List.mem_append.1 ho with h | h
          · exact hpost o h
          · rw [List.mem_singleton.1 h]; exact not_lt.1 hl

/-- C23: `GetTopOrder` returns the head of the list, and the zero order on the empty list.
For a non-empty sequence of BUY orders inserted one after the other into the empty list, the
top is one of them, none has a higher limit, and every order inserted before it has a strictly
lower limit (it is the first inserted among those with the best limit); for SELL orders the
same with the lowest limit. -/
theorem GetTopOrder_best_first :
    GetTopOrder [] = Order.zero ∧
    (∀ (front : Order) (rest : List Order), GetTopOrder (front :: rest) = front) ∧
    (∀ os : List Order, (∀ o ∈ os, o.buyOrSell = BUY) → os ≠ [] →
      ∃ pre post, os = pre ++ GetTopOrder (os.foldl AddOrder newOrdersList) :: post ∧
        (∀ o ∈ pre, o.limit < (GetTopOrder (os.foldl AddOrder newOrdersList)).limit) ∧
        (∀ o ∈ post, o.limit ≤ (GetTopOrder (os.foldl AddOrder newOrdersList)).limit)) ∧
    (∀ os : List Order, (∀ o ∈ os, o.buyOrSell = SELL) → os ≠ [] →
      ∃ pre post, os = pre ++ GetTopOrder (os.foldl AddOrder newOrdersList) :: post ∧
        (∀ o ∈ pre, (GetTopOrder (os.foldl AddOrder newOrdersList)).limit < o.limit) ∧
        (∀ o ∈ post, (GetTopOrder (os.foldl AddOrder newOrdersList)).limit ≤ o.limit)) := by
  refine ⟨rfl, fun _ _ => rfl, fun os hos hne => ?_, fun os hos hne => ?_⟩
  · exact GetTopOrder_foldl_buy os hos hne
  · exact GetTopOrder_foldl_sell os hos hne

/-- C23, instance with the orders of the Go test `TestOrdersList_AddOrder_BUY` and a second
order at the best limit: 200, 400, 300, 400 (later), 100 are inserted; the top is the first
order at 400. -/
theorem GetTopOrder_best_first_witness :
    GetTopOrder
      ([testOrder "2" "userId1" 200 1 BUY, testOrder "4" "userId1" 400 1 BUY,
        testOrder "3" "userId1" 300 1 BUY, testOrder "5" "userId1" 400 1 BUY,
        testOrder "1" "userId1" 100 1 BUY].foldl AddOrder newOrdersList) =
      testOrder "4" "userId1" 400 1 BUY ∧
    ∃ pre post,
      [testOrder "2" "userId1" 200 1 BUY, testOrder "4" "userId1" 400 1 BUY,
        testOrder "3" "userId1" 300 1 BUY, testOrder "5" "userId1" 400 1 BUY,
        testOrder "1" "userId1" 100 1 BUY] =
        pre ++ GetTopOrder
          ([testOrder "2" "userId1" 200 1 BUY, testOrder "4" "userId1" 400 1 BUY,
            testOrder "3" "userId1" 300 1 BUY, testOrder "5" "userId1" 400 1 BUY,
            testOrder "1" "userId1" 100 1 BUY].foldl AddOrder newOrdersList) :: post ∧
      (∀ o ∈ pre, o.limit <
        (GetTopOrder
          ([testOrder "2" "userId1" 200 1 BUY, testOrder "4" "userId1" 400 1 BUY,
            testOrder "3" "userId1" 300 1 BUY, testOrder "5" "userId1" 400 1 BUY,
            testOrder "1" "userId1" 100 1 BUY].foldl AddOrder newOrdersList)).limit) ∧
      (∀ o ∈ post, o.limit ≤
        (GetTopOrder
          ([testOrder "2" "userId1" 200 1 BUY, testOrder "4" "userId1" 400 1 BUY,
            testOrder "3" "userId1" 300 1 BUY, testOrder "5" "userId1" 400 1 BUY,
            testOrder "1" "userId1" 100 1 BUY].foldl AddOrder newOrdersList)).limit) :=
  ⟨by decide, GetTopOrder_best_first.2.2.1 _ (by decide) (by decide)⟩

/-! ## Creating users -/

theorem foldl_assets_fields (as : List Asset) (ud : UserData) :
    (as.foldl
      (fun (ud : UserData) asset =>
        { ud with assets := GoMap.set ud.assets asset.AssetId asset.Size }) ud).userId =
      ud.userId ∧
    (as.foldl
      (fun (ud : UserData) asset =>
        { ud with assets := GoMap.set ud.assets asset.AssetId asset.Size }) ud).cash =
      ud.cash ∧
    (as.foldl
      (fun (ud : UserData) asset =>
        { ud with assets := GoMap.set ud.assets asset.AssetId asset.Size }) ud).orders =
      ud.orders := by
  induction as generalizing ud with
  | nil => exact ⟨rfl, rfl, rfl⟩
  | cons a as ih =>
    rw [List.foldl_cons]
    obtain ⟨h1, h2, h3⟩ := ih { ud with assets := GoMap.set ud.assets a.AssetId a.Size }
    exact ⟨h1, h2, h3⟩

/-- After the asset loop of `CreateUser` an asset id that is not listed reads as before, and
a listed one reads the size of its last listing. -/
theorem foldl_assets_get? (as : List Asset) (ud : UserData) (k : AssetId) :
    GoMap.get?
      (as.foldl
        (fun (ud : UserData) asset =>
          { ud with assets := GoMap.set ud.assets asset.AssetId asset.Size }) ud).assets k =
      match as.reverse.find? (fun a => decide (a.AssetId = k)) with
      | some a => some a.Size
      | none => GoMap.get? ud.assets k := by
  induction as generalizing ud with
  | nil => rfl
  | cons a as ih =>
    rw [List.foldl_cons, ih, List.reverse_cons, List.find?_append]
    cases hf : as.reverse.find? (fun a => decide (a.AssetId = k)) with
    | some b => simp
    | none =>
      by_cases ha : a.AssetId = k
      · subst ha
        simp [GoMap.get?_set_self]
      · have hk : k ≠ a.AssetId := fun e => ha e.symm
        simp [ha, GoMap.get?_set_ne _ _ _ _ hk]

theorem hasUser_set_self (s : Store) (u : UserId) (ud : UserData) :
    Store.hasUser { db := GoMap.set s.db u ud } u := by
  simp [Store.hasUser, GoMap.get?_set_self]

theorem hasUser_set_ne (s : Store) (u v : UserId) (ud : UserData) (h : v ≠ u) :
    Store.hasUser { db := GoMap.set s.db u ud } v ↔ s.hasUser v := by
  simp [Store.hasUser, GoMap.get?_set_ne _ _ _ _ h]

/-- C24: `CreateUser` sets the record of the user to the state of the request, whatever the
store held for that user before: user id and cash as given, each listed asset (ids distinct)
at its listed size, no entry for an asset that is not listed, an empty orders map. The user
then has a record, and the record and the presence of every other user are as before. -/
theorem CreateUser_sets_record (s : Store) (req : InitExchangeReq)
    (hd : (req.Assets.map (fun a => a.AssetId)).Nodup) :
    (GetUserData (CreateUser s req) req.UserId).userId = req.UserId ∧
    (GetUserData (CreateUser s req) req.UserId).cash = req.Cash ∧
    (∀ a ∈ req.Assets,
      GoMap.get? (GetUserData (CreateUser s req) req.UserId).assets a.AssetId = some a.Size) ∧
    (∀ k, (∀ a ∈ req.Assets, a.AssetId ≠ k) →
      GoMap.get? (GetUserData (CreateUser s req) req.UserId).assets k = none) ∧
    (GetUserData (CreateUser s req) req.UserId).orders = [] ∧
    (CreateUser s req).hasUser req.UserId ∧
    (∀ v, v ≠ req.UserId →
      GetUserData (CreateUser s req) v = GetUserData s v ∧
      ((CreateUser s req).hasUser v ↔ s.hasUser v)) := by
  obtain ⟨f1, f2, f3⟩ := foldl_assets_fields req.Assets
    { userId := req.UserId, cash := req.Cash, assets := [], orders := [] }
  have hrec : GetUserData (CreateUser s req) req.UserId =
      req.Assets.foldl
        (fun (ud : UserData) asset =>
          { ud with assets := GoMap.set ud.assets asset.AssetId asset.Size })
        { userId := req.UserId, cash := req.Cash, assets := [], orders := [] } := by
    unfold CreateUser
    rw [GetUserData_set, if_pos rfl]
  refine ⟨by rw [hrec, f1], by rw [hrec, f2], fun a ha => ?_, fun k hk => ?_, by rw [hrec, f3],
    hasUser_set_self _ _ _, fun v hv => ⟨?_, hasUser_set_ne _ _ _ _ hv⟩⟩
  · rw [hrec, foldl_assets_get?]
    cases hf : req.Assets.reverse.find? (fun b => decide (b.AssetId = a.AssetId)) with
    | none =>
      have := List.find?_eq_none.1 hf a (List.mem_reverse.2 ha)
      simp at this
    | some b =>
      have hb : b ∈ req.Assets := List.mem_reverse.1 (List.mem_of_find?_eq_some hf)
      have hid : b.AssetId = a.AssetId := by simpa using List.find?_some hf
      rw [List.inj_on_of_nodup_map hd hb ha hid]
  · rw [hrec, foldl_assets_get?]
    cases hf : req.Assets.reverse.find? (fun b => decide (b.AssetId = k)) with
    | none => rfl
    | some b =>
      have hb : b ∈ req.Assets := List.mem_reverse.1 (List.mem_of_find?_eq_some hf)
      have hid : b.AssetId = k := by simpa using List.find?_some hf
      exact absurd hid (hk b hb)
  · unfold CreateUser
    rw [GetUserData_set, if_neg hv]

/-- C24, instance of the Go test `TestOrderMatchingService_InitExchange`, on a store in which
userId1 already has a record with an order: after `CreateUser` the cash is 1000, COIN is 10,
GAME is 15 and the orders map is empty. -/
theorem CreateUser_sets_record_witness :
    (GetUserData
      (CreateUser (setupTestData [testOrder "bo1" "userId1" 100 10 BUY] [])
        { UserId := "userId1",
          Assets := [{ AssetId := "COIN", Size := 10 }, { AssetId := "GAME", Size := 15 }],
          Cash := 1000 }) "userId1").cash = 1000 ∧
    (GetUserData
      (CreateUser (setupTestData [testOrder "bo1" "userId1" 100 10 BUY] [])
        { UserId := "userId1",
          Assets := [{ AssetId := "COIN", Size := 10 }, { AssetId := "GAME", Size := 15 }],
          Cash := 1000 }) "userId1").orders = [] ∧
    (GetUserData (setupTestData [testOrder "bo1" "userId1" 100 10 BUY] []) "userId1").orders ≠
      [] ∧
    (GetUserData
      (CreateUser (setupTestData [testOrder "bo1" "userId1" 100 10 BUY] [])
        { UserId := "userId1",
          Assets := [{ AssetId := "COIN", Size := 10 }, { AssetId := "GAME", Size := 15 }],
          Cash := 1000 }) "userId1").assets = [("COIN", 10), ("GAME", 15)] :=
  ⟨(CreateUser_sets_record (setupTestData [testOrder "bo1" "userId1" 100 10 BUY] [])
      { UserId := "userId1",
        Assets := [{ AssetId := "COIN", Size := 10 }, { AssetId := "GAME", Size := 15 }],
        Cash := 1000 } (by decide)).2.1,
   (CreateUser_sets_record (setupTestData [testOrder "bo1" "userId1" 100 10 BUY] [])
      { UserId := "userId1",
        Assets := [{ AssetId := "COIN", Size := 10 }, { AssetId := "GAME", Size := 15 }],
        Cash := 1000 } (by decide)).2.2.2.2.1,
   by decide, by decide⟩

/-! ## Cross-asset independence -/

theorem OrderBooks_AddOrder_bookOf_ne (ob : OrderBooks) (order : Order) (a : AssetId)
    (ha : a ≠ order.assetId) : (ob.AddOrder order).bookOf a = ob.bookOf a := by
  by_cases hb : order.buyOrSell = BUY
  · simp only [OrderBooks.AddOrder, hb, if_true]
    rw [bookOf_set, if_neg ha]
  · simp only [OrderBooks.AddOrder, hb, if_false]
    rw [bookOf_set, if_neg ha]

theorem OrderBooks_UpdateOrder_bookOf_ne (ob : OrderBooks) (order : Order) (a : AssetId)
    (ha : a ≠ order.assetId) : (ob.UpdateOrder order).bookOf a = ob.bookOf a := by
  by_cases hb : order.buyOrSell = BUY
  · simp only [OrderBooks.UpdateOrder, hb, if_true]
    rw [bookOf_set, if_neg ha]
  · simp only [OrderBooks.UpdateOrder, hb, if_false]
    rw [bookOf_set, if_neg ha]

/-- The fills of `executeOrder` move inventory of the asset of the orders only. -/
theorem executeOrder_asset_frame (A : AssetId) (side : Int) (hside : side = BUY ∨ side = SELL)
    (l : List Order) (newOrder : Order) (s : Store) (hnew : s.hasUser newOrder.userId)
    (hown : ∀ o ∈ l, s.hasUser o.userId) (hl : ∀ o ∈ l, o.assetId = A)
    (hA : newOrder.assetId = A)
    (r : List Order × Order × Store) (hr : executeOrder l newOrder s side = .ok r) :
    ∀ v a, a ≠ A → r.2.2.assetOf v a = s.assetOf v a := by
  refine executeOrder_induct side hside
    (fun l newOrder s r => (∀ o ∈ l, o.assetId = A) → newOrder.assetId = A →
      ∀ v a, a ≠ A → r.2.2.assetOf v a = s.assetOf v a)
    ?_ ?_ ?_ l newOrder s hnew hown r hr hl hA
  · intro l newOrder s _ _ _ v a _
    rfl
  · intro h t newOrder s s1 s2 trade _ _ _ e1 e2 hl hA v a ha
    have hh : h.assetId = A := hl h (List.mem_cons_self _ _)
    have c1 := e1.assetOf v a
    have c2 := e2.assetOf v a
    simp only at c1 c2
    rw [if_neg (fun c => ha (c.2.2.trans hh))] at c1
    rw [if_neg (fun c => ha (c.2.2.trans hA))] at c2
    show s2.assetOf v a = s.assetOf v a
    omega
  · intro h t newOrder s s1 s2 trade r _ _ _ e1 e2 ih hl hA v a ha
    have hh : h.assetId = A := hl h (List.mem_cons_self _ _)
    have c1 := e1.assetOf v a
    have c2 := e2.assetOf v a
    simp only at c1 c2
    rw [if_neg (fun c => ha (c.2.2.trans hA))] at c1
    rw [if_neg (fun c => ha (c.2.2.trans hh))] at c2
    have := ih (fun o ho => hl o (List.mem_cons_of_mem _ ho)) hA v a ha
    omega

/-- C25: cross-asset independence. For an order on asset A, `OrderBooks.AddOrder`,
`UpdateOrder` and `DeleteOrder` leave the book (buy list and sell list) of every other asset
as it was. `OrderBooks.ExecuteOrder` (owners in the store, the opposite list of A's book
holding orders on A) returns, leaves the book of every other asset as it was, and leaves
every user's inventory of every asset other than A as it was. -/
theorem cross_asset_independence :
    (∀ (ob : OrderBooks) (order : Order) (a : AssetId), a ≠ order.assetId →
      (ob.AddOrder order).bookOf a = ob.bookOf a ∧
      (ob.UpdateOrder order).bookOf a = ob.bookOf a ∧
      (ob.DeleteOrder order).bookOf a = ob.bookOf a) ∧
    (∀ (ob : OrderBooks) (newOrder : Order) (s : Store), s.hasUser newOrder.userId →
      (∀ o ∈ (ob.bookOf newOrder.assetId).oppositeSide newOrder, s.hasUser o.userId) →
      (∀ o ∈ (ob.bookOf newOrder.assetId).oppositeSide newOrder,
        o.assetId = newOrder.assetId) →
      ∃ ob' s', ob.ExecuteOrder newOrder s = .ok (ob', s') ∧
        (∀ a, a ≠ newOrder.assetId → ob'.bookOf a = ob.bookOf a) ∧
        (∀ v a, a ≠ newOrder.assetId → s'.assetOf v a = s.assetOf v a)) := by
  refine ⟨fun ob order a ha => ⟨OrderBooks_AddOrder_bookOf_ne ob order a ha,
    OrderBooks_UpdateOrder_bookOf_ne ob order a ha,
    (OrderBooks_DeleteOrder_bookOf ob order).2.2 a ha⟩, ?_⟩
  intro ob newOrder s hnew hown hA
  obtain ⟨r, hr⟩ := executeOrder_returns _ newOrder s (matchSide newOrder)
    (matchSide_cases newOrder) hnew hown
  obtain ⟨ob', hE, -, -, hother⟩ := ExecuteOrder_of_executeOrder ob newOrder s r hr
  exact ⟨ob', r.2.2, hE, hother,
    executeOrder_asset_frame newOrder.assetId (matchSide newOrder) (matchSide_cases newOrder)
      _ newOrder s hnew hown hA rfl r hr⟩

/-- C25, instance: a BUY for COIN at 100 is executed against a resting SELL for COIN while
the book of GAME holds a BUY; the call returns, the book of GAME is as before and the GAME
inventories of both users are as before. -/
theorem cross_asset_independence_witness :
    ∃ ob' s',
      OrderBooks.ExecuteOrder
        { orderBooks :=
            [("COIN", { BuyList := [], SellList := [testOrder "so1" "userId1" 100 10 SELL] }),
             ("GAME",
               { BuyList := [{ testOrder "gb1" "userId1" 50 5 BUY with assetId := "GAME" }],
                 SellList := [] })] }
        (testOrder "bo1" "userId2" 100 10 BUY) (setupTestData [] []) = .ok (ob', s') ∧
      ob'.bookOf "GAME" =
        { BuyList := [{ testOrder "gb1" "userId1" 50 5 BUY with assetId := "GAME" }],
          SellList := [] } ∧
      s'.assetOf "userId1" "GAME" = (setupTestData [] []).assetOf "userId1" "GAME" ∧
      s'.assetOf "userId2" "GAME" = (setupTestData [] []).assetOf "userId2" "GAME" := by
  obtain ⟨ob', s', h, hb, ha⟩ := cross_asset_independence.2
    { orderBooks :=
        [("COIN", { BuyList := [], SellList := [testOrder "so1" "userId1" 100 10 SELL] }),
         ("GAME",
           { BuyList := [{ testOrder "gb1" "userId1" 50 5 BUY with assetId := "GAME" }],
             SellList := [] })] }
    (testOrder "bo1" "userId2" 100 10 BUY) (setupTestData [] []) (by decide) (by decide)
    (by decide)
  exact ⟨ob', s', h, (hb "GAME" (by decide)).trans (by decide),
    ha "userId1" "GAME" (by decide), ha "userId2" "GAME" (by decide)⟩

/-! ## The book after a match: ordering and crossing -/

theorem UpdateOrder_map_limit (l : List Order) (order : Order) :
    (UpdateOrder l order).map (fun o => o.limit) = l.map (fun o => o.limit) := by
  induction l with
  | nil => rfl
  | cons a l ih =>
    simp only [UpdateOrder, List.map_cons] at ih ⊢
    rw [ih]
    by_cases ha : a.orderId = order.orderId <;> simp [ha]

/-- Whatever the ids and sizes, `executeOrder` leaves a list whose limits are those of a
suffix of the list it was given, and a residual that is the incoming order but for its size;
when the residual size is not 0 the loop ended on its condition, so no match is available
against the list left. -/
theorem executeOrder_limits (side : Int) (hside : side = BUY ∨ side = SELL)
    (l : List Order) (newOrder : Order) (s : Store) (hnew : s.hasUser newOrder.userId)
    (hown : ∀ o ∈ l, s.hasUser o.userId)
    (r : List Order × Order × Store) (hr : executeOrder l newOrder s side = .ok r) :
    (∃ k, r.1.map (fun o => o.limit) = (l.map (fun o => o.limit)).drop k) ∧
    (r.2.1.size ≠ 0 → orderMatchAvailable r.1 newOrder side = false) := by
  refine executeOrder_induct side hside
    (fun l newOrder _ r =>
      (∃ k, r.1.map (fun o => o.limit) = (l.map (fun o => o.limit)).drop k) ∧
      (r.2.1.size ≠ 0 → orderMatchAvailable r.1 newOrder side = false))
    ?_ ?_ ?_ l newOrder s hnew hown r hr
  · intro l newOrder s hm
    exact ⟨⟨0, rfl⟩, fun _ => hm⟩
  · intro h t newOrder s s1 s2 trade _ _ hz _ _
    refine ⟨?_, fun hne => absurd hz hne⟩
    by_cases c : h.size - trade = 0
    · exact ⟨1, by simp [c]⟩
    · refine ⟨0, ?_⟩
      simp only [c, if_false, List.drop_zero]
      exact UpdateOrder_map_limit _ _
  · intro h t newOrder s s1 s2 trade r _ _ _ _ _ ih
    obtain ⟨⟨k, hk⟩, hm⟩ := ih
    exact ⟨⟨k + 1, by simpa using hk⟩, hm⟩

theorem buySorted_of_limits {l l' : List Order} {k : Nat}
    (h : l'.map (fun o => o.limit) = (l.map (fun o => o.limit)).drop k) (hs : BuySorted l) :
    BuySorted l' := by
  have h1 : (l.map (fun o => o.limit)).Pairwise (fun x y => x ≥ y) :=
    List.pairwise_map.2 hs
  have h2 := h1.sublist (List.drop_sublist k _)
  rw [← h] at h2
  exact List.pairwise_map.1 h2

theorem sellSorted_of_limits {l l' : List Order} {k : Nat}
    (h : l'.map (fun o => o.limit) = (l.map (fun o => o.limit)).drop k) (hs : SellSorted l) :
    SellSorted l' := by
  have h1 : (l.map (fun o => o.limit)).Pairwise (fun x y => x ≤ y) :=
    List.pairwise_map.2 hs
  have h2 := h1.sublist (List.drop_sublist k _)
  rw [← h] at h2
  exact List.pairwise_map.1 h2

theorem limit_mem_of_limits {l l' : List Order} {k : Nat}
    (h : l'.map (fun o => o.limit) = (l.map (fun o => o.limit)).drop k) (a : Order)
    (ha : a ∈ l') : ∃ a' ∈ l, a'.limit = a.limit := by
  have h1 : a.limit ∈ l'.map (fun o => o.limit) := List.mem_map_of_mem _ ha
  rw [h] at h1
  obtain ⟨a', ha', e⟩ := List.mem_map.1 (List.mem_of_mem_drop h1)
  exact ⟨a', ha', e⟩

/-- `OrderBooks.ExecuteOrder` in terms of the two sides of the asset's book: the opposite
list keeps the limits of a suffix, the same-side list gets the residual (the incoming order
but for its size) when its size is positive, and then no match is available any more. -/
theorem ExecuteOrder_sides (ob : OrderBooks) (newOrder : Order) (s : Store)
    (hnew : s.hasUser newOrder.userId)
    (hown : ∀ o ∈ (ob.bookOf newOrder.assetId).oppositeSide newOrder, s.hasUser o.userId) :
    ∃ ob' s' k residual, ob.ExecuteOrder newOrder s = .ok (ob', s') ∧
      ((ob'.bookOf newOrder.assetId).oppositeSide newOrder).map (fun o => o.limit) =
        (((ob.bookOf newOrder.assetId).oppositeSide newOrder).map (fun o => o.limit)).drop k ∧
      residual = { newOrder with size := residual.size } ∧
      (ob'.bookOf newOrder.assetId).sameSide newOrder =
        (if residual.size > 0 then
          AddOrder ((ob.bookOf newOrder.assetId).sameSide newOrder) residual
         else (ob.bookOf newOrder.assetId).sameSide newOrder) ∧
      (residual.size > 0 →
        orderMatchAvailable ((ob'.bookOf newOrder.assetId).oppositeSide newOrder) newOrder
          (matchSide newOrder) = false) ∧
      (∀ a, a ≠ newOrder.assetId → ob'.bookOf a = ob.bookOf a) := by
  obtain ⟨r, hr⟩ := executeOrder_returns _ newOrder s (matchSide newOrder)
    (matchSide_cases newOrder) hnew hown
  obtain ⟨ob', hE, hopp, hsame, hother⟩ := ExecuteOrder_of_executeOrder ob newOrder s r hr
  obtain ⟨⟨k, hk⟩, hm⟩ := executeOrder_limits (matchSide newOrder) (matchSide_cases newOrder)
    _ newOrder s hnew hown r hr
  refine ⟨ob', r.2.2, k, r.2.1, hE, ?_, ?_, hsame, fun hp => ?_, hother⟩
  · rw [hopp]; exact hk
  · exact executeOrder_residual_fields (matchSide newOrder) (matchSide_cases newOrder)
      _ newOrder s hnew hown r hr
  · rw [hopp]; exact hm (ne_of_gt hp)

/-- C27: `ExecuteOrder` keeps both lists of the asset's book ordered. If before the call the
BUY list is non-increasing by limit and the SELL list non-decreasing by limit, then (owners in
the store) the call returns and both lists are still ordered that way; the books of the other
assets are untouched. -/
theorem ExecuteOrder_preserves_sorted (ob : OrderBooks) (newOrder : Order) (s : Store)
    (hnew : s.hasUser newOrder.userId)
    (hown : ∀ o ∈ (ob.bookOf newOrder.assetId).oppositeSide newOrder, s.hasUser o.userId)
    (hbuy : BuySorted (ob.bookOf newOrder.assetId).BuyList)
    (hsell : SellSorted (ob.bookOf newOrder.assetId).SellList) :
    ∃ ob' s', ob.ExecuteOrder newOrder s = .ok (ob', s') ∧
      BuySorted (ob'.bookOf newOrder.assetId).BuyList ∧
      SellSorted (ob'.bookOf newOrder.assetId).SellList ∧
      ∀ a, a ≠ newOrder.assetId → ob'.bookOf a = ob.bookOf a := by
  obtain ⟨ob', s', k, residual, hE, hopp, hres, hsame, -, hother⟩ :=
    ExecuteOrder_sides ob newOrder s hnew hown
  refine ⟨ob', s', hE, ?_, ?_, hother⟩
  · by_cases hb : newOrder.buyOrSell = BUY
    · simp only [OrderBook.sameSide, hb, if_true] at hsame
      rw [hsame]
      by_cases hp : residual.size > 0
      · rw [if_pos hp]
        exact AddOrder_buy_sorted _ residual (by rw [hres]; exact hb) hbuy
      · rw [if_neg hp]; exact hbuy
    · simp only [OrderBook.oppositeSide, hb, if_false] at hopp
      exact buySorted_of_limits hopp hbuy
  · by_cases hb : newOrder.buyOrSell = BUY
    · simp only [OrderBook.oppositeSide, hb, if_true] at hopp
      exact sellSorted_of_limits hopp hsell
    · simp only [OrderBook.sameSide, hb, if_false] at hsame
      rw [hsame]
      by_cases hp : residual.size > 0
      · rw [if_pos hp]
        exact AddOrder_sell_sorted _ residual (by rw [hres]; exact hb) hsell
      · rw [if_neg hp]; exact hsell

/-- C27, instance of the Go test `TestOrderBooks_ExecuteOrder_SELL_CASE1`: a SELL at 100 for
35 meets the BUY list 101 (30), 100 (10); the head is removed, the next order shrinks in
place, and both lists are still ordered. -/
theorem ExecuteOrder_preserves_sorted_witness :
    ∃ ob' s',
      OrderBooks.ExecuteOrder
        { orderBooks := [("COIN",
            { BuyList := [testOrder "bo1" "userId1" 101 30 BUY,
                testOrder "bo2" "userId1" 100 10 BUY],
              SellList := [testOrder "so0" "userId1" 105 10 SELL] })] }
        (testOrder "so1" "userId2" 100 35 SELL) (setupTestData [] []) = .ok (ob', s') ∧
      BuySorted (ob'.bookOf "COIN").BuyList ∧
      SellSorted (ob'.bookOf "COIN").SellList := by
  obtain ⟨ob', s', h, h1, h2, -⟩ := ExecuteOrder_preserves_sorted
    { orderBooks := [("COIN",
        { BuyList := [testOrder "bo1" "userId1" 101 30 BUY,
            testOrder "bo2" "userId1" 100 10 BUY],
          SellList := [testOrder "so0" "userId1" 105 10 SELL] })] }
    (testOrder "so1" "userId2" 100 35 SELL) (setupTestData [] []) (by decide) (by decide)
    (by simp [BuySorted, OrderBooks.bookOf, getOrderBook, GoMap.get?, testOrder])
    (by simp [SellSorted, OrderBooks.bookOf, getOrderBook, GoMap.get?, testOrder])
  exact ⟨ob', s', h, h1, h2⟩

theorem BuySorted.head_ge {h : Order} {t : List Order} (hs : BuySorted (h :: t)) :
    ∀ b ∈ h :: t, b.limit ≤ h.limit := by
  intro b hb
  rcases List.mem_cons.1 hb with rfl | hb
  · exact le_refl _
  · exact List.rel_of_pairwise_cons hs hb

theorem SellSorted.head_le {h : Order} {t : List Order} (hs : SellSorted (h :: t)) :
    ∀ a ∈ h :: t, h.limit ≤ a.limit := by
  intro a ha
  rcases List.mem_cons.1 ha with rfl | ha
  · exact le_refl _
  · exact List.rel_of_pairwise_cons hs ha

/-- On ordered lists, the book is uncrossed exactly when every resting BUY has a limit
strictly below every resting SELL. -/
theorem uncrossed_iff (b : OrderBook) (hbuy : BuySorted b.BuyList)
    (hsell : SellSorted b.SellList) :
    b.Uncrossed ↔ ∀ x ∈ b.BuyList, ∀ y ∈ b.SellList, x.limit < y.limit := by
  unfold OrderBook.Uncrossed
  cases hB : b.BuyList with
  | nil => simp
  | cons hb tb =>
    cases hS : b.SellList with
    | nil => simp
    | cons hs ts =>
      rw [hB] at hbuy
      rw [hS] at hsell
      simp only [reduceCtorEq, false_or, GetTopOrder]
      constructor
      · intro h x hx y hy
        exact lt_of_le_of_lt (hbuy.head_ge x hx) (lt_of_lt_of_le h (hsell.head_le y hy))
      · intro h
        exact h hb (List.mem_cons_self _ _) hs (List.mem_cons_self _ _)

/-- When no match is available for an incoming BUY against an ordered SELL list, every order
of the list has a limit above the incoming limit. -/
theorem no_match_buy {l : List Order} {newOrder : Order} (hs : SellSorted l)
    (hm : orderMatchAvailable l newOrder BUY = false) : ∀ a ∈ l, newOrder.limit < a.limit := by
  cases l with
  | nil => intro a ha; cases ha
  | cons h t =>
    intro a ha
    have hn : ¬ h.limit ≤ newOrder.limit := by
      intro c
      have := (orderMatchAvailable_cons h t newOrder BUY).2 (Or.inl ⟨rfl, c⟩)
      rw [hm] at this
      cases this
    exact lt_of_lt_of_le (not_le.1 hn) (hs.head_le a ha)

/-- When no match is available for an incoming SELL against an ordered BUY list, every order
of the list has a limit below the incoming limit. -/
theorem no_match_sell {l : List Order} {newOrder : Order} (hs : BuySorted l)
    (hm : orderMatchAvailable l newOrder SELL = false) : ∀ b ∈ l, b.limit < newOrder.limit := by
  cases l with
  | nil => intro b hb; cases hb
  | cons h t =>
    intro b hb
    have hn : ¬ h.limit ≥ newOrder.limit := by
      intro c
      have := (orderMatchAvailable_cons h t newOrder SELL).2 (Or.inr ⟨rfl, c⟩)
      rw [hm] at this
      cases this
    exact lt_of_le_of_lt (hs.head_ge b hb) (not_le.1 hn)

/-- C30: the book is never left crossed. If before `ExecuteOrder` both lists of the asset's
book are ordered by their side rule and the book is uncrossed (a side is empty or the best
bid is strictly below the best ask), then for any incoming order (owners in the store) the
call returns, both lists are still ordered, the book is still uncrossed, and every resting
BUY has a limit strictly below the limit of every resting SELL of the asset. -/
theorem ExecuteOrder_never_crossed (ob : OrderBooks) (newOrder : Order) (s : Store)
    (hnew : s.hasUser newOrder.userId)
    (hown : ∀ o ∈ (ob.bookOf newOrder.assetId).oppositeSide newOrder, s.hasUser o.userId)
    (hbuy : BuySorted (ob.bookOf newOrder.assetId).BuyList)
    (hsell : SellSorted (ob.bookOf newOrder.assetId).SellList)
    (hun : (ob.bookOf newOrder.assetId).Uncrossed) :
    ∃ ob' s', ob.ExecuteOrder newOrder s = .ok (ob', s') ∧
      BuySorted (ob'.bookOf newOrder.assetId).BuyList ∧
      SellSorted (ob'.bookOf newOrder.assetId).SellList ∧
      (ob'.bookOf newOrder.assetId).Uncrossed ∧
      ∀ x ∈ (ob'.bookOf newOrder.assetId).BuyList,
        ∀ y ∈ (ob'.bookOf newOrder.assetId).SellList, x.limit < y.limit := by
  have hcross := (uncrossed_iff _ hbuy hsell).1 hun
  obtain ⟨ob', s', k, residual, hE, hopp, hres, hsame, hstop, -⟩ :=
    ExecuteOrder_sides ob newOrder s hnew hown
  have hlim : residual.limit = newOrder.limit := by rw [hres]
  by_cases hb : newOrder.buyOrSell = BUY
  · simp only [OrderBook.oppositeSide, OrderBook.sameSide, matchSide, hb, if_true]
      at hopp hsame hstop
    have hS : SellSorted (ob'.bookOf newOrder.assetId).SellList :=
      sellSorted_of_limits hopp hsell
    have hB : BuySorted (ob'.bookOf newOrder.assetId).BuyList := by
      rw [hsame]
      by_cases hp : residual.size > 0
      · rw [if_pos hp]
        exact AddOrder_buy_sorted _ residual (by rw [hres]; exact hb) hbuy
      · rw [if_neg hp]; exact hbuy
    have hall : ∀ x ∈ (ob'.bookOf newOrder.assetId).BuyList,
        ∀ y ∈ (ob'.bookOf newOrder.assetId).SellList, x.limit < y.limit := by
      intro x hx y hy
      obtain ⟨y', hy', ey⟩ := limit_mem_of_limits hopp y hy
      rw [hsame] at hx
      by_cases hp : residual.size > 0
      · rw [if_pos hp] at hx
        rcases (mem_AddOrder _ _ _).1 hx with rfl | hx
        · rw [hlim]
          exact no_match_buy hS (hstop hp) y hy
        · rw [← ey]; exact hcross x hx y' hy'
      · rw [if_neg hp] at hx
        rw [← ey]; exact hcross x hx y' hy'
    exact ⟨ob', s', hE, hB, hS, (uncrossed_iff _ hB hS).2 hall, hall⟩
  · simp only [OrderBook.oppositeSide, OrderBook.sameSide, matchSide, hb, if_false]
      at hopp hsame hstop
    have hB : BuySorted (ob'.bookOf newOrder.assetId).BuyList :=
      buySorted_of_limits hopp hbuy
    have hS : SellSorted (ob'.bookOf newOrder.assetId).SellList := by
      rw [hsame]
      by_cases hp : residual.size > 0
      · rw [if_pos hp]
        exact AddOrder_sell_sorted _ residual (by rw [hres]; exact hb) hsell
      · rw [if_neg hp]; exact hsell
    have hall : ∀ x ∈ (ob'.bookOf newOrder.assetId).BuyList,
        ∀ y ∈ (ob'.bookOf newOrder.assetId).SellList, x.limit < y.limit := by
      intro x hx y hy
      obtain ⟨x', hx', ex⟩ := limit_mem_of_limits hopp x hx
      rw [hsame] at hy
      by_cases hp : residual.size > 0
      · rw [if_pos hp] at hy
        rcases (mem_AddOrder _ _ _).1 hy with rfl | hy
        · rw [hlim]
          exact no_match_sell hB (hstop hp) x hx
        · rw [← ex]; exact hcross x' hx' y hy
      · rw [if_neg hp] at hy
        rw [← ex]; exact hcross x' hx' y hy
    exact ⟨ob', s', hE, hB, hS, (uncrossed_iff _ hB hS).2 hall, hall⟩

/-- C30, instance: the book holds a BUY at 99 and SELLs at 101 and 110; a BUY at 105 for 15
takes the SELL at 101 and rests with 5 at 105, below the SELL at 110 that is left. -/
theorem ExecuteOrder_never_crossed_witness :
    ∃ ob' s',
      OrderBooks.ExecuteOrder
        { orderBooks := [("COIN",
            { BuyList := [testOrder "bo0" "userId1" 99 10 BUY],
              SellList := [testOrder "so1" "userId1" 101 10 SELL,
                testOrder "so2" "userId1" 110 10 SELL] })] }
        (testOrder "bo1" "userId2" 105 15 BUY) (setupTestData [] []) = .ok (ob', s') ∧
      (ob'.bookOf "COIN").Uncrossed ∧
      ∀ x ∈ (ob'.bookOf "COIN").BuyList, ∀ y ∈ (ob'.bookOf "COIN").SellList,
        x.limit < y.limit := by
  obtain ⟨ob', s', h, -, -, h1, h2⟩ := ExecuteOrder_never_crossed
    { orderBooks := [("COIN",
        { BuyList := [testOrder "bo0" "userId1" 99 10 BUY],
          SellList := [testOrder "so1" "userId1" 101 10 SELL,
            testOrder "so2" "userId1" 110 10 SELL] })] }
    (testOrder "bo1" "userId2" 105 15 BUY) (setupTestData [] []) (by decide) (by decide)
    (by simp [BuySorted, OrderBooks.bookOf, getOrderBook, GoMap.get?, testOrder])
    (by simp [SellSorted, OrderBooks.bookOf, getOrderBook, GoMap.get?, testOrder])
    (by simp [OrderBook.Uncrossed, OrderBooks.bookOf, getOrderBook, GoMap.get?, testOrder,
      GetTopOrder])
  exact ⟨ob', s', h, h1, h2⟩

/-! ## Priority in matching and the amount filled -/

/-- The fills of a call take the resting orders from the head of the list, one after the
other. -/
theorem fillsOf_resting_heads (side : Int) (l : List Order) (newOrder : Order) :
    (fillsOf side l newOrder).map (fun f => f.resting) <+: l := by
  induction l generalizing newOrder with
  | nil => simp [fillsOf]
  | cons h t ih =>
    by_cases hm : orderMatchAvailable (h :: t) newOrder side = true
    · simp only [fillsOf, hm, if_true, List.map_cons]
      by_cases hz : newOrder.size - min h.size newOrder.size = 0
      · simp only [hz, if_true, List.map_nil]
        exact ⟨t, rfl⟩
      · simp only [hz, if_false]
        obtain ⟨u, hu⟩ := ih { newOrder with size := newOrder.size - min h.size newOrder.size }
        exact ⟨u, by rw [List.cons_append, hu]⟩
    · have hm' : orderMatchAvailable (h :: t) newOrder side = false := by simpa using hm
      simp [fillsOf, hm']

/-- A fill that is followed by another fill took its resting order completely. -/
theorem fillsOf_complete_before_next (side : Int) (l : List Order) (newOrder : Order)
    (pre : List Fill) (f : Fill) (post : List Fill)
    (hf : fillsOf side l newOrder = pre ++ f :: post) (hpost : post ≠ []) :
    f.size = f.resting.size := by
  induction l generalizing newOrder pre with
  | nil =>
    simp only [fillsOf] at hf
    cases pre <;> cases hf
  | cons h t ih =>
    by_cases hm : orderMatchAvailable (h :: t) newOrder side = true
    · simp only [fillsOf, hm, if_true] at hf
      by_cases hz : newOrder.size - min h.size newOrder.size = 0
      · simp only [hz, if_true] at hf
        cases pre with
        | nil =>
          simp only [List.nil_append, List.cons.injEq] at hf
          exact absurd hf.2.symm hpost
        | cons p pre =>
          simp only [List.cons_append, List.cons.injEq] at hf
          have := hf.2
          cases pre <;> cases this
      · simp only [hz, if_false] at hf
        cases pre with
        | nil =>
          simp only [List.nil_append, List.cons.injEq] at hf
          rw [← hf.1]
          exact (trade_eq_head_of_residual rfl hz).1
        | cons p pre =>
          simp only [List.cons_append, List.cons.injEq] at hf
          exact ih _ pre hf.2
    · have hm' : orderMatchAvailable (h :: t) newOrder side = false := by simpa using hm
      simp only [fillsOf, hm'] at hf
      cases pre <;> simp at hf

/-- The list `executeOrder` leaves, for any sizes: a prefix of the list is removed, at most
the next order has its size changed, the orders behind are as they were. -/
theorem executeOrder_list_shape (side : Int) (hside : side = BUY ∨ side = SELL)
    (l : List Order) (newOrder : Order) (s : Store) (hnew : s.hasUser newOrder.userId)
    (hown : ∀ o ∈ l, s.hasUser o.userId) (hnd : (l.map (fun o => o.orderId)).Nodup)
    (r : List Order × Order × Store) (hr : executeOrder l newOrder s side = .ok r) :
    ∃ done rest, l = done ++ rest ∧
      (r.1 = rest ∨ ∃ h t k, rest = h :: t ∧ r.1 = { h with size := k } :: t) := by
  refine executeOrder_induct side hside
    (fun l _ _ r => (l.map (fun o => o.orderId)).Nodup →
      ∃ done rest, l = done ++ rest ∧
        (r.1 = rest ∨ ∃ h t k, rest = h :: t ∧ r.1 = { h with size := k } :: t))
    ?_ ?_ ?_ l newOrder s hnew hown r hr hnd
  · intro l newOrder s _ _
    exact ⟨[], l, rfl, Or.inl rfl⟩
  · intro h t newOrder s s1 s2 trade _ _ _ _ _ hnd
    by_cases c : h.size - trade = 0
    · exact ⟨[h], t, rfl, Or.inl (by simp [c])⟩
    · refine ⟨[], h :: t, rfl, Or.inr ⟨h, t, h.size - trade, rfl, ?_⟩⟩
      simp only [c, if_false]
      exact UpdateOrder_head h t _ (nodup_ids_cons hnd).1
  · intro h t newOrder s s1 s2 trade r _ _ _ _ _ ih hnd
    obtain ⟨done, rest, hl, hshape⟩ := ih (nodup_ids_cons hnd).2
    exact ⟨h :: done, rest, by rw [hl]; rfl, hshape⟩

/-- C28: price-time priority in matching. `executeOrder` consumes the opposite list from the
head: its fills take the resting orders of a prefix of the list in list order, and a fill that
is followed by another fill took its resting order completely. In the result (distinct ids,
positive sizes, owners in the store) the orders removed are a prefix `done` of the list, each
recorded COMPLETE with its whole size filled; at most the next order, the new head, has its
size reduced (to a positive rest, recorded WORKING); every order behind is unchanged in
content and position, and its record is untouched. The shape of the list (prefix removed, at
most the new head changed in size, the rest unchanged) holds for any sizes. -/
theorem executeOrder_price_time_priority :
    (∀ (side : Int) (l : List Order) (newOrder : Order),
      (fillsOf side l newOrder).map (fun f => f.resting) <+: l) ∧
    (∀ (side : Int) (l : List Order) (newOrder : Order) (pre : List Fill) (f : Fill)
      (post : List Fill), fillsOf side l newOrder = pre ++ f :: post → post ≠ [] →
      f.size = f.resting.size) ∧
    (∀ (side : Int) (l : List Order) (newOrder : Order) (s : Store),
      side = BUY ∨ side = SELL → s.hasUser newOrder.userId → (∀ o ∈ l, s.hasUser o.userId) →
      (l.map (fun o => o.orderId)).Nodup →
      ∃ r done rest, executeOrder l newOrder s side = .ok r ∧ l = done ++ rest ∧
        (r.1 = rest ∨ ∃ h t k, rest = h :: t ∧ r.1 = { h with size := k } :: t)) ∧
    (∀ (side : Int) (l : List Order) (newOrder : Order) (s : Store),
      side = BUY ∨ side = SELL → s.hasUser newOrder.userId → (∀ o ∈ l, s.hasUser o.userId) →
      (newOrder.orderId :: l.map (fun o => o.orderId)).Nodup →
      (∀ o ∈ l, 0 < o.size) → 0 < newOrder.size →
      ∃ r done rest, executeOrder l newOrder s side = .ok r ∧ l = done ++ rest ∧
        (∀ o ∈ done, r.2.2.orderOf o.userId o.orderId =
          (s.orderOf o.userId o.orderId).fill Complete o.size) ∧
        ((r.1 = rest ∧
            ∀ o ∈ rest, r.2.2.orderOf o.userId o.orderId = s.orderOf o.userId o.orderId) ∨
         (∃ h t k, rest = h :: t ∧ 0 < k ∧ k < h.size ∧ r.1 = { h with size := k } :: t ∧
            r.2.1.size = 0 ∧
            r.2.2.orderOf h.userId h.orderId =
              (s.orderOf h.userId h.orderId).fill Working (h.size - k) ∧
            ∀ o ∈ t, r.2.2.orderOf o.userId o.orderId = s.orderOf o.userId o.orderId))) := by
  refine ⟨fillsOf_resting_heads, fillsOf_complete_before_next, ?_, ?_⟩
  · intro side l newOrder s hside hnew hown hnd
    obtain ⟨r, hr⟩ := executeOrder_returns l newOrder s side hside hnew hown
    obtain ⟨done, rest, hl, hshape⟩ :=
      executeOrder_list_shape side hside l newOrder s hnew hown hnd r hr
    exact ⟨r, done, rest, hr, hl, hshape⟩
  intro side l newOrder s hside hnew hown hnd hpos hsz
  obtain ⟨r, hr⟩ := executeOrder_returns l newOrder s side hside hnew hown
  have sh := executeOrder_shape side hside l newOrder s hnew hown hnd hpos hsz r hr
  obtain ⟨done, rest, hl, hdone, hrest⟩ := sh.split
  exact ⟨r, done, rest, hr, hl, hdone, hrest⟩

/-- C28, instance of the Go test `TestOrderBooks_ExecuteOrder_BUY_CASE2` with a third SELL
behind: a BUY at 101 for 35 meets SELLs at 100 (10), 101 (30) and 101 (20): the first is
removed, the second is the one shrunk or removed next, the third is behind them. -/
theorem executeOrder_price_time_priority_witness :
    ∃ r done rest,
      executeOrder
        [testOrder "so1" "userId1" 100 10 SELL, testOrder "so2" "userId1" 101 30 SELL,
          testOrder "so3" "userId1" 101 20 SELL]
        (testOrder "bo1" "userId2" 101 35 BUY) (setupTestData [] []) BUY = .ok r ∧
      [testOrder "so1" "userId1" 100 10 SELL, testOrder "so2" "userId1" 101 30 SELL,
          testOrder "so3" "userId1" 101 20 SELL] = done ++ rest ∧
      (r.1 = rest ∨ ∃ h t k, rest = h :: t ∧ 0 < k ∧ k < h.size ∧
        r.1 = { h with size := k } :: t) := by
  obtain ⟨r, done, rest, h1, h2, -, h4⟩ := executeOrder_price_time_priority.2.2.2 BUY
    [testOrder "so1" "userId1" 100 10 SELL, testOrder "so2" "userId1" 101 30 SELL,
      testOrder "so3" "userId1" 101 20 SELL]
    (testOrder "bo1" "userId2" 101 35 BUY) (setupTestData [] []) (Or.inl rfl) (by decide)
    (by decide) (by decide) (by decide) (by decide)
  refine ⟨r, done, rest, h1, h2, ?_⟩
  rcases h4 with ⟨e, -⟩ | ⟨h, t, k, e1, e2, e3, e4, -⟩
  · exact Or.inl e
  · exact Or.inr ⟨h, t, k, e1, e2, e3, e4⟩

theorem sumSizes_nonneg (l : List Order) (hpos : ∀ o ∈ l, 0 < o.size) : 0 ≤ sumSizes l := by
  induction l with
  | nil => simp [sumSizes]
  | cons a l ih =>
    have ha := hpos a (List.mem_cons_self _ _)
    have := ih (fun o ho => hpos o (List.mem_cons_of_mem _ ho))
    simp only [sumSizes, List.map_cons, List.sum_cons] at this ⊢
    omega

theorem marketableSize_nonneg (side : Int) (l : List Order) (newOrder : Order)
    (hpos : ∀ o ∈ l, 0 < o.size) : 0 ≤ marketableSize side l newOrder :=
  sumSizes_nonneg _ (fun o ho => hpos o (List.mem_filter.1 ho).1)

theorem marketableSize_cons (side : Int) (h : Order) (t : List Order) (newOrder : Order) :
    marketableSize side (h :: t) newOrder =
      (if marketable side newOrder h then h.size else 0) + marketableSize side t newOrder := by
  unfold marketableSize
  by_cases c : marketable side newOrder h = true
  · simp [List.filter_cons, c, sumSizes]
  · simp [List.filter_cons, c, sumSizes]

theorem marketable_of_match (side : Int) (h : Order) (t : List Order) (newOrder : Order)
    (hm : orderMatchAvailable (h :: t) newOrder side = true) :
    marketable side newOrder h = true := by
  unfold marketable
  rcases (orderMatchAvailable_cons h t newOrder side).1 hm with ⟨hs, hl⟩ | ⟨hs, hl⟩
  · simp [hs, hl]
  · have : ¬ side = BUY := by rw [hs]; decide
    simp [this, hl]

theorem OppositeSorted.tail {side : Int} {h : Order} {t : List Order}
    (hs : OppositeSorted side (h :: t)) : OppositeSorted side t := by
  unfold OppositeSorted at hs ⊢
  by_cases c : side = BUY
  · simp only [c, if_true] at hs ⊢
    exact (List.pairwise_cons.1 hs).2
  · simp only [c, if_false] at hs ⊢
    exact (List.pairwise_cons.1 hs).2

/-- On a list ordered by its side rule, when no match is available no order of the list is
marketable. -/
theorem marketableSize_of_no_match (side : Int) (hside : side = BUY ∨ side = SELL)
    (l : List Order) (newOrder : Order) (hs : OppositeSorted side l)
    (hm : orderMatchAvailable l newOrder side = false) : marketableSize side l newOrder = 0 := by
  have hnone : l.filter (marketable side newOrder) = [] := by
    rw [List.filter_eq_nil_iff]
    intro a ha
    rcases hside with c | c
    · subst c
      have hlt := no_match_buy (by simpa [OppositeSorted] using hs) hm a ha
      simp [marketable]
      exact hlt
    · subst c
      have hlt := no_match_sell (by simpa [OppositeSorted] using hs) hm a ha
      simp [marketable]
      exact hlt
  simp [marketableSize, hnone, sumSizes]

/-- The residual size `executeOrder` returns on an ordered list with positive sizes: what is
left of the incoming size after the marketable sizes, and not less than 0. -/
theorem executeOrder_residual_size (side : Int) (hside : side = BUY ∨ side = SELL)
    (l : List Order) (newOrder : Order) (s : Store) (hnew : s.hasUser newOrder.userId)
    (hown : ∀ o ∈ l, s.hasUser o.userId) (hs : OppositeSorted side l)
    (hpos : ∀ o ∈ l, 0 < o.size) (hsz : 0 < newOrder.size)
    (r : List Order × Order × Store) (hr : executeOrder l newOrder s side = .ok r) :
    r.2.1.size = max 0 (newOrder.size - marketableSize side l newOrder) := by
  refine executeOrder_induct side hside
    (fun l newOrder _ r => OppositeSorted side l → (∀ o ∈ l, 0 < o.size) → 0 < newOrder.size →
      r.2.1.size = max 0 (newOrder.size - marketableSize side l newOrder))
    ?_ ?_ ?_ l newOrder s hnew hown r hr hs hpos hsz
  · intro l newOrder s hm hs _ hsz
    rw [marketableSize_of_no_match side hside l newOrder hs hm]
    show newOrder.size = _
    rw [sub_zero, max_eq_right (le_of_lt hsz)]
  · intro h t newOrder s s1 s2 trade hm ht hz _ _ hs hpos hsz
    show newOrder.size - trade = _
    have hT := marketableSize_nonneg side t newOrder
      (fun o ho => hpos o (List.mem_cons_of_mem _ ho))
    rw [marketableSize_cons, marketable_of_match side h t newOrder hm, if_pos rfl, hz]
    have hle : newOrder.size ≤ h.size := by
      rcases min_eq_cases h.size newOrder.size with ⟨c1, c2⟩ | ⟨c1, _⟩
      · rw [ht, c2] at hz; omega
      · exact c1
    rw [max_eq_left (by omega)]
  · intro h t newOrder s s1 s2 trade r hm ht hz _ _ ih hs hpos hsz
    obtain ⟨e1, e2⟩ := trade_eq_head_of_residual ht hz
    have := ih hs.tail (fun o ho => hpos o (List.mem_cons_of_mem _ ho))
      (by show 0 < newOrder.size - trade; omega)
    rw [this, marketableSize_cons, marketable_of_match side h t newOrder hm, if_pos rfl]
    have hT : marketableSize side t { newOrder with size := newOrder.size - trade } =
        marketableSize side t newOrder := rfl
    rw [hT, e1]
    show max 0 (newOrder.size - h.size - marketableSize side t newOrder) = _
    congr 1
    ring

/-- C29: total fill amount. For an opposite list ordered by its side rule, with distinct ids
and positive sizes, and an incoming order of size s > 0 (owners in the store), `executeOrder`
returns the incoming order with size max(0, s - T), where T is the sum of the sizes of the
resting orders whose limit is marketable against the incoming limit; the total size of the
opposite list drops by min(s, T); and every fill trades `min` of the size of the head and of
the size the incoming order has left. -/
theorem executeOrder_total_fill (side : Int) (hside : side = BUY ∨ side = SELL)
    (l : List Order) (newOrder : Order) (s : Store) (hnew : s.hasUser newOrder.userId)
    (hown : ∀ o ∈ l, s.hasUser o.userId) (hs : OppositeSorted side l)
    (hnd : (l.map (fun o => o.orderId)).Nodup) (hpos : ∀ o ∈ l, 0 < o.size)
    (hsz : 0 < newOrder.size) :
    ∃ r, executeOrder l newOrder s side = .ok r ∧
      r.2.1 = { newOrder with size := max 0 (newOrder.size - marketableSize side l newOrder) } ∧
      sumSizes l - sumSizes r.1 = min newOrder.size (marketableSize side l newOrder) ∧
      ∀ f ∈ fillsOf side l newOrder,
        f.resting ∈ l ∧ f.size = min f.resting.size f.incoming.size := by
  obtain ⟨r, hr⟩ := executeOrder_returns l newOrder s side hside hnew hown
  have hres := executeOrder_residual_size side hside l newOrder s hnew hown hs hpos hsz r hr
  have hfld := executeOrder_residual_fields side hside l newOrder s hnew hown r hr
  have hsum := executeOrder_sizes side hside l newOrder s hnew hown hnd r hr
  have hT := marketableSize_nonneg side l newOrder hpos
  refine ⟨r, hr, ?_, ?_, fun f hf => ?_⟩
  · rw [hfld, hres]
  · rw [hsum, hres]
    rcases min_eq_cases newOrder.size (marketableSize side l newOrder) with ⟨c1, c2⟩ | ⟨c1, c2⟩
    · rw [c2, max_eq_left (by omega)]; ring
    · rw [c2, max_eq_right (by omega)]; ring
  · obtain ⟨h1, _, _, _, h5⟩ := fillsOf_mem side l newOrder f hf
    exact ⟨h1, h5⟩

/-- C29, instance of the Go test `TestOrderBooks_ExecuteOrder_BUY_CASE1`: a BUY at 100 for 25
meets SELLs at 100 (10) and 101 (30); only the first is marketable, T = 10, the residual is
15 and the list loses 10. -/
theorem executeOrder_total_fill_witness :
    ∃ r, executeOrder
        [testOrder "so1" "userId1" 100 10 SELL, testOrder "so2" "userId1" 101 30 SELL]
        (testOrder "bo1" "userId2" 100 25 BUY) (setupTestData [] []) BUY = .ok r ∧
      r.2.1.size = 15 ∧
      sumSizes [testOrder "so1" "userId1" 100 10 SELL, testOrder "so2" "userId1" 101 30 SELL]
        - sumSizes r.1 = 10 := by
  obtain ⟨r, h1, h2, h3, -⟩ := executeOrder_total_fill BUY (Or.inl rfl)
    [testOrder "so1" "userId1" 100 10 SELL, testOrder "so2" "userId1" 101 30 SELL]
    (testOrder "bo1" "userId2" 100 25 BUY) (setupTestData [] []) (by decide) (by decide)
    (by simp [OppositeSorted, SellSorted, testOrder]) (by decide) (by decide) (by decide)
  refine ⟨r, h1, ?_, h3.trans (by decide)⟩
  rw [h2]
  decide

/-! ## Submissions are processed in the order they were sent -/

theorem processAll_append (svc svc₁ : OrderMatchingService)
    (done : List (OrderReq × OrderId × Nat)) (x : OrderReq × OrderId × Nat)
    (h : processAll svc done = .ok svc₁) :
    processAll svc (done ++ [x]) = svc₁.ProcessOrderReq x.1 x.2.1 x.2.2 := by
  induction done generalizing svc with
  | nil =>
    simp only [processAll, Except.ok.injEq] at h
    subst h
    obtain ⟨req, oid, now⟩ := x
    simp only [List.nil_append, processAll]
    cases svc.ProcessOrderReq req oid now <;> rfl
  | cons y done ih =>
    obtain ⟨req, oid, now⟩ := y
    simp only [processAll, List.cons_append] at h ⊢
    cases hp : svc.ProcessOrderReq req oid now with
    | error e => rw [hp] at h; cases h
    | ok svc₂ =>
      rw [hp] at h
      exact ih svc₂ h

theorem Serialized_start (svc₀ : OrderMatchingService) :
    (Running.start svc₀).Serialized svc₀ := by
  constructor <;> rfl

/-- Every event keeps the running service serialized. -/
theorem Serialized_step (svc₀ : OrderMatchingService) (st st' : Running) (e : Event)
    (hinv : st.Serialized svc₀) (hstep : st.step e = some st') : st'.Serialized svc₀ := by
  obtain ⟨hsent, hsvc⟩ := hinv
  cases e with
  | send req =>
    simp only [Running.step] at hstep
    split_ifs at hstep
    simp only [Option.some.injEq] at hstep
    subst hstep
    refine ⟨?_, hsvc⟩
    show st.sent ++ [req] = _ ++ _ ++ (st.OCh ++ [req])
    rw [hsent]
    simp
  | receive =>
    simp only [Running.step] at hstep
    cases hc : st.consumer with
    | waiting =>
      cases ho : st.OCh with
      | nil => rw [hc, ho] at hstep; cases hstep
      | cons req rest =>
        rw [hc, ho] at hstep
        simp only [Option.some.injEq] at hstep
        subst hstep
        rw [hc] at hsvc hsent
        rw [ho] at hsent
        refine ⟨?_, hsvc⟩
        show st.sent = _ ++ [req] ++ rest
        rw [hsent]
        simp [Consumer.holding]
    | received r => rw [hc] at hstep; cases hstep
    | saved r o => rw [hc] at hstep; cases hstep
  | save oid now =>
    simp only [Running.step] at hstep
    cases hc : st.consumer with
    | waiting => rw [hc] at hstep; cases hstep
    | saved r o => rw [hc] at hstep; cases hstep
    | received req =>
      rw [hc] at hstep hsvc hsent
      simp only at hstep
      cases hs : st.svc.SaveOrderToStore (createOrderFromOrderReq req oid now) with
      | error e => rw [hs] at hstep; cases hstep
      | ok svc =>
        rw [hs] at hstep
        simp only [Option.some.injEq] at hstep
        subst hstep
        exact ⟨hsent, rfl, st.svc, hsvc, hs⟩
  | execute =>
    simp only [Running.step] at hstep
    cases hc : st.consumer with
    | waiting => rw [hc] at hstep; cases hstep
    | received r => rw [hc] at hstep; cases hstep
    | saved req order =>
      rw [hc] at hstep hsvc hsent
      simp only at hstep
      obtain ⟨hord, svc₁, hall, hsave⟩ := hsvc
      cases he : st.svc.ExecuteOrder order with
      | error e => rw [he] at hstep; cases hstep
      | ok svc =>
        rw [he] at hstep
        simp only [Option.some.injEq] at hstep
        subst hstep
        constructor
        · show st.sent = (st.processed ++ [(req, order.orderId, order.eventAt)]).map
            (fun p => p.1) ++ [] ++ st.OCh
          rw [hsent]
          simp [Consumer.holding]
        · show processAll svc₀ (st.processed ++ [(req, order.orderId, order.eventAt)]) =
            .ok svc
          rw [processAll_append svc₀ svc₁ _ _ hall]
          simp only [OrderMatchingService.ProcessOrderReq]
          rw [← hord, hsave]
          exact he

theorem Serialized_run (svc₀ : OrderMatchingService) (events : List Event) (st st' : Running)
    (hinv : st.Serialized svc₀) (hrun : st.run events = some st') : st'.Serialized svc₀ := by
  induction events generalizing st with
  | nil =>
    simp only [Running.run, Option.some.injEq] at hrun
    subst hrun
    exact hinv
  | cons e es ih =>
    simp only [Running.run] at hrun
    cases hs : st.step e with
    | none => rw [hs] at hrun; cases hrun
    | some st₁ =>
      rw [hs] at hrun
      exact ih st₁ (Serialized_step svc₀ st st₁ e hinv hs) hrun

theorem Consumer.holding_length_le (c : Consumer) : c.holding.length ≤ 1 := by
  cases c <;> simp [Consumer.holding]

/-- C26: submission serialization. In every state that a run of the service reaches from its
start, with producers sending and the one consumer working in any interleaving: the requests
sent are, in the order their sends completed, first those whose turn is complete, then the
one the consumer holds, then those still in the channel. So when the processing of the j-th
request sent has begun, the turn of every request sent before it is complete, and these
turns were taken in the order of the sends. The service state is the one reached by
processing the completed requests one after the other, each saved (reserved), matched and
its residual inserted before the next is taken up; when the consumer has saved the order in
hand, that save follows on this state. -/
theorem submission_serialization (svc₀ : OrderMatchingService) (events : List Event)
    (st : Running) (hrun : (Running.start svc₀).run events = some st) :
    st.sent = st.processed.map (fun p => p.1) ++ st.consumer.holding ++ st.OCh ∧
    (∀ i j, i < j → j < st.processed.length + st.consumer.holding.length →
      i < st.processed.length ∧ st.sent[i]? = (st.processed.map (fun p => p.1))[i]?) ∧
    (∃ svc₁, processAll svc₀ st.processed = .ok svc₁ ∧
      (st.svc = svc₁ ∨
        ∃ req order, st.consumer = .saved req order ∧
          svc₁.SaveOrderToStore order = .ok st.svc)) := by
  obtain ⟨hsent, hsvc⟩ := Serialized_run svc₀ events _ st (Serialized_start svc₀) hrun
  refine ⟨hsent, fun i j hij hj => ?_, ?_⟩
  · have hl := st.consumer.holding_length_le
    have hi : i < st.processed.length := by omega
    refine ⟨hi, ?_⟩
    rw [hsent, List.append_assoc, List.getElem?_append_left (by simpa using hi)]
  · cases hc : st.consumer with
    | waiting =>
      rw [hc] at hsvc
      exact ⟨st.svc, hsvc, Or.inl rfl⟩
    | received req =>
      rw [hc] at hsvc
      exact ⟨st.svc, hsvc, Or.inl rfl⟩
    | saved req order =>
      rw [hc] at hsvc
      obtain ⟨-, svc₁, hall, hsave⟩ := hsvc
      exact ⟨svc₁, hall, Or.inr ⟨req, order, rfl, hsave⟩⟩

/-- C26, instance of the Go test `TestOrderMatchingService_CancelUserOrder`, with a third
request sent while the first is being processed: the BUY at 101 and the SELL at 120 of
userId1 are sent, the first is received and saved, a third request is sent, the first is
executed, the second is received. In that state the first request is the one completed, the
second is in the consumer's hands, the third waits in the channel, and the service state is
the one after the complete processing of the first. -/
theorem submission_serialization_witness :
    ∃ st,
      (Running.start { Store := setupTestData [] [], OrderBooks := newOrderBooks }).run
        [.send { UserId := "userId1", Limit := 101, AssetId := "COIN", Size := 10,
                 BuyOrSell := BUY },
         .send { UserId := "userId1", Limit := 120, AssetId := "COIN", Size := 10,
                 BuyOrSell := SELL },
         .receive, .save "bo1" 1,
         .send { UserId := "userId2", Limit := 130, AssetId := "COIN", Size := 5,
                 BuyOrSell := SELL },
         .execute, .receive] = some st ∧
      st.sent = st.processed.map (fun p => p.1) ++ st.consumer.holding ++ st.OCh ∧
      st.processed.map (fun p => p.1) =
        [{ UserId := "userId1", Limit := 101, AssetId := "COIN", Size := 10,
           BuyOrSell := BUY }] ∧
      st.consumer.holding =
        [{ UserId := "userId1", Limit := 120, AssetId := "COIN", Size := 10,
           BuyOrSell := SELL }] ∧
      st.OCh =
        [{ UserId := "userId2", Limit := 130, AssetId := "COIN", Size := 5,
           BuyOrSell := SELL }] ∧
      processAll { Store := setupTestData [] [], OrderBooks := newOrderBooks } st.processed =
        .ok st.svc := by
  refine ⟨_, rfl, ?_, ?_, ?_, ?_, ?_⟩
  · exact (submission_serialization
      { Store := setupTestData [] [], OrderBooks := newOrderBooks }
      [.send { UserId := "userId1", Limit := 101, AssetId := "COIN", Size := 10,
               BuyOrSell := BUY },
       .send { UserId := "userId1", Limit := 120, AssetId := "COIN", Size := 10,
               BuyOrSell := SELL },
       .receive, .save "bo1" 1,
       .send { UserId := "userId2", Limit := 130, AssetId := "COIN", Size := 5,
               BuyOrSell := SELL },
       .execute, .receive] _ rfl).1
  · decide
  · decide
  · decide
  · rfl

/-! ## Termination of the matching loop -/

theorem UpdateUserAsset_error (s : Store) (order : Order) (price trade side : Int)
    (st : OrderStatus) (e : Fault) (h : UpdateUserAsset s order price trade side st = .error e) :
    e = .nilMapWrite := by
  unfold UpdateUserAsset UpdateUserAssetOnSuccessSell UpdateUserAssetOnSuccessBuy at h
  split_ifs at h <;>
  · cases hg : GoMap.get? s.db order.userId with
    | none => rw [hg] at h; cases h; rfl
    | some ud => rw [hg] at h; cases h

/-- One iteration of the loop that does not exhaust the incoming order: the head is removed
and the loop goes on with the tail, whatever the ids of the tail. -/
theorem executeOrderLoop_step (fuel : Nat) (h : Order) (t : List Order) (newOrder : Order)
    (s s1 s2 : Store) (side : Int)
    (hm : orderMatchAvailable (h :: t) newOrder side = true)
    (hz : newOrder.size - min h.size newOrder.size ≠ 0)
    (e1 : UpdateUserAsset s { newOrder with size := newOrder.size - min h.size newOrder.size }
      (getMatchedPrice side h newOrder) (min h.size newOrder.size) side Working = .ok s1)
    (e2 : UpdateUserAsset s1 { h with size := h.size - min h.size newOrder.size }
      (getMatchedPrice side h newOrder) (min h.size newOrder.size) side Complete = .ok s2) :
    executeOrderLoop (fuel + 1) (h :: t) newOrder s side =
      executeOrderLoop fuel t { newOrder with size := newOrder.size - min h.size newOrder.size }
        s2 side := by
  simp [executeOrderLoop, hm, GetTopOrder, hz, e1, e2, DeleteOrder]

/-- One iteration of the loop that exhausts the incoming order returns without a further
iteration: its result does not depend on the budget left. -/
theorem executeOrderLoop_break (fuel : Nat) (h : Order) (t : List Order) (newOrder : Order)
    (s : Store) (side : Int) (hm : orderMatchAvailable (h :: t) newOrder side = true)
    (hz : newOrder.size - min h.size newOrder.size = 0) :
    executeOrderLoop (fuel + 1) (h :: t) newOrder s side =
      executeOrderLoop 1 (h :: t) newOrder s side := by
  simp only [executeOrderLoop, hm, GetTopOrder, hz, if_true]

/-- With a budget above the length of the list the loop never runs out of budget. -/
theorem executeOrderLoop_fuel (l : List Order) (newOrder : Order) (s : Store) (side : Int)
    (fuel : Nat) (hf : l.length < fuel) :
    executeOrderLoop fuel l newOrder s side ≠ .error .outOfFuel := by
  induction l generalizing newOrder s fuel with
  | nil =>
    obtain ⟨f, rfl⟩ : ∃ f, fuel = f + 1 := ⟨fuel - 1, by omega⟩
    rw [executeOrderLoop_stop f [] newOrder s side (by simp [orderMatchAvailable, isEmpty])]
    intro c; cases c
  | cons h t ih =>
    obtain ⟨f, rfl⟩ : ∃ f, fuel = f + 1 := ⟨fuel - 1, by omega⟩
    have hft : t.length < f := by simpa using hf
    by_cases hm : orderMatchAvailable (h :: t) newOrder side = true
    · by_cases hz : newOrder.size - min h.size newOrder.size = 0
      · simp only [executeOrderLoop, hm, GetTopOrder, hz, if_true]
        by_cases hz' : h.size - min h.size newOrder.size = 0
        · simp only [hz', if_true]
          cases e1 : UpdateUserAsset s { h with size := 0 } (getMatchedPrice side h newOrder)
              (min h.size newOrder.size) side Complete with
          | error e =>
            simp only []
            rw [UpdateUserAsset_error _ _ _ _ _ _ _ e1]
            intro c; cases c
          | ok s1 =>
            simp only []
            cases e2 : UpdateUserAsset s1 { newOrder with size := 0 }
                (getMatchedPrice side h newOrder) (min h.size newOrder.size) side Complete with
            | error e =>
              simp only []
              rw [UpdateUserAsset_error _ _ _ _ _ _ _ e2]
              intro c; cases c
            | ok s2 => simp
        · simp only [hz', if_false]
          cases e1 : UpdateUserAsset s { h with size := h.size - min h.size newOrder.size }
              (getMatchedPrice side h newOrder) (min h.size newOrder.size) side Working with
          | error e =>
            simp only []
            rw [UpdateUserAsset_error _ _ _ _ _ _ _ e1]
            intro c; cases c
          | ok s1 =>
            simp only []
            cases e2 : UpdateUserAsset s1 { newOrder with size := 0 }
                (getMatchedPrice side h newOrder) (min h.size newOrder.size) side Complete with
            | error e =>
              simp only []
              rw [UpdateUserAsset_error _ _ _ _ _ _ _ e2]
              intro c; cases c
            | ok s2 => simp
      · cases e1 : UpdateUserAsset s
            { newOrder with size := newOrder.size - min h.size newOrder.size }
            (getMatchedPrice side h newOrder) (min h.size newOrder.size) side Working with
        | error e =>
          simp only [executeOrderLoop, hm, GetTopOrder, hz, if_true, if_false, e1]
          rw [UpdateUserAsset_error _ _ _ _ _ _ _ e1]
          intro c; cases c
        | ok s1 =>
          cases e2 : UpdateUserAsset s1 { h with size := h.size - min h.size newOrder.size }
              (getMatchedPrice side h newOrder) (min h.size newOrder.size) side Complete with
          | error e =>
            simp only [executeOrderLoop, hm, GetTopOrder, hz, if_true, if_false, e1, e2]
            rw [UpdateUserAsset_error _ _ _ _ _ _ _ e2]
            intro c; cases c
          | ok s2 =>
            rw [executeOrderLoop_step f h t newOrder s s1 s2 side hm hz e1 e2]
            exact ih _ s2 f hft
    · have hm' : orderMatchAvailable (h :: t) newOrder side = false := by simpa using hm
      rw [executeOrderLoop_stop f _ newOrder s side hm']
      intro c; cases c

/-- C31: `executeOrder` terminates on every input, whatever the sizes and the ids: the loop
never uses up its budget of one condition check per resting order plus one (a call either
returns or stops on the panic of a store write for a missing user). An iteration that
exhausts the incoming order returns at once; any other iteration removes exactly the head of
the list and goes on with the tail; so the iterations are at most as many as the list has
orders. The last part runs a list with a duplicate id against an order of negative size. -/
theorem executeOrder_terminates :
    (∀ (l : List Order) (newOrder : Order) (s : Store) (side : Int),
      executeOrder l newOrder s side ≠ .error .outOfFuel) ∧
    (∀ (fuel : Nat) (h : Order) (t : List Order) (newOrder : Order) (s : Store) (side : Int),
      orderMatchAvailable (h :: t) newOrder side = true →
      newOrder.size - min h.size newOrder.size = 0 →
      executeOrderLoop (fuel + 1) (h :: t) newOrder s side =
        executeOrderLoop 1 (h :: t) newOrder s side) ∧
    (∀ (fuel : Nat) (h : Order) (t : List Order) (newOrder : Order) (s s1 s2 : Store)
      (side : Int), orderMatchAvailable (h :: t) newOrder side = true →
      newOrder.size - min h.size newOrder.size ≠ 0 →
      UpdateUserAsset s { newOrder with size := newOrder.size - min h.size newOrder.size }
        (getMatchedPrice side h newOrder) (min h.size newOrder.size) side Working = .ok s1 →
      UpdateUserAsset s1 { h with size := h.size - min h.size newOrder.size }
        (getMatchedPrice side h newOrder) (min h.size newOrder.size) side Complete = .ok s2 →
      executeOrderLoop (fuel + 1) (h :: t) newOrder s side =
        executeOrderLoop fuel t
          { newOrder with size := newOrder.size - min h.size newOrder.size } s2 side) ∧
    (∀ (side : Int) (l : List Order) (newOrder : Order),
      (fillsOf side l newOrder).length ≤ l.length) ∧
    (∃ r, executeOrder
        [testOrder "so1" "userId1" 100 (-7) SELL, testOrder "so1" "userId1" 100 0 SELL,
          testOrder "so1" "userId1" 100 4 SELL]
        (testOrder "bo1" "userId2" 100 (-5) BUY) (setupTestData [] []) BUY = .ok r ∧
      r.1.map (fun o => o.size) = [2] ∧ r.2.1.size = 0) := by
  refine ⟨fun l newOrder s side => ?_, executeOrderLoop_break, executeOrderLoop_step,
    fun side l newOrder => ?_, ⟨_, rfl, by decide, by decide⟩⟩
  · exact executeOrderLoop_fuel l newOrder s side (l.length + 1) (Nat.lt_succ_self _)
  · have := (fillsOf_resting_heads side l newOrder).length_le
    simpa using this

/-! ## Insertion adds one order and loses none -/

/-- C32: `AddOrder` inserts exactly one element and loses none. For every list and order the
list after `AddOrder` is one longer, holds the new order once more than before and every
other order as often as before, and is the original list with the new order put in at one
place: removing that occurrence gives the original list back, every order as it was and in
its place. -/
theorem AddOrder_inserts_one (l : List Order) (o : Order) :
    getSize (AddOrder l o) = getSize l + 1 ∧
    (AddOrder l o).count o = l.count o + 1 ∧
    (∀ x, x ≠ o → (AddOrder l o).count x = l.count x) ∧
    ∃ pre post, l = pre ++ post ∧ AddOrder l o = pre ++ o :: post ∧
      (AddOrder l o).eraseIdx pre.length = l := by
  obtain ⟨pre, post, hl, ha⟩ := AddOrder_split l o
  refine ⟨?_, ?_, fun x hx => ?_, pre, post, hl, ha, ?_⟩
  · rw [ha, hl]
    simp only [getSize, List.length_append, List.length_cons]
    push_cast
    ring
  · rw [ha, hl]
    simp only [List.count_append, List.count_cons_self]
    omega
  · rw [ha, hl]
    rw [List.count_append, List.count_append, List.count_cons_of_ne hx]
  · rw [ha, hl, List.eraseIdx_append_of_length_le (le_refl _)]
    simp

/-! ## The store update of a fill -/

/-- C34, counterexample: the SELL order so1 of userId1, at limit 2^62 for 4, is filled for 4
at 2^62. The amount credited is the 64-bit product of price and size, which is 0: the cash
stays 10000 and does not rise by `matchedPrice × tradeSize` = 2^64. -/
theorem UpdateUserAsset_overflow_counterexample :
    ∃ s', UpdateUserAsset
        (setupTestData [testOrder "so1" "userId1" 4611686018427387904 4 SELL] [])
        (testOrder "so1" "userId1" 4611686018427387904 4 SELL) 4611686018427387904 4 SELL
        Complete = .ok s' ∧
      s'.cashOf "userId1" = 10000 ∧
      s'.cashOf "userId1" ≠
        (setupTestData [testOrder "so1" "userId1" 4611686018427387904 4 SELL] []).cashOf
          "userId1" + 4611686018427387904 * 4 := by
  refine ⟨_, rfl, ?_, ?_⟩ <;> decide

/-- C34, as amended: `UpdateUserAsset` dispatches on the order's own side only: for the order
types BUY and SELL the call is the same. For an owner with a record: when the order's side is
SELL the owner's cash rises by the amount `getTotalAssetCost` computes, which is
`matchedPrice × tradeSize` when that product and the new balance are within 64 bits, and no
inventory changes; otherwise the owner's inventory of the order's asset rises by `tradeSize`,
the other inventories and the cash are unchanged. In both cases the stored order is the one
before with `filled` raised by `tradeSize` and the given status (size, limit and all other
fields as before), the owner's other orders and every other user's cash, inventories, orders
and presence are unchanged. -/
theorem UpdateUserAsset_dispatch :
    (∀ (s : Store) (order : Order) (price trade : Int) (st : OrderStatus),
      UpdateUserAsset s order price trade BUY st =
        UpdateUserAsset s order price trade SELL st) ∧
    (∀ (s : Store) (order : Order) (price trade orderType : Int) (st : OrderStatus),
      orderType = BUY ∨ orderType = SELL → s.hasUser order.userId →
      ∃ s', UpdateUserAsset s order price trade orderType st = .ok s' ∧
        (order.buyOrSell = SELL →
          s'.cashOf order.userId = s.cashOf order.userId + getTotalAssetCost price trade ∧
          (fits64 (price * trade) → fits64 (s.cashOf order.userId + price * trade) →
            s'.cashOf order.userId = s.cashOf order.userId + price * trade) ∧
          ∀ a, s'.assetOf order.userId a = s.assetOf order.userId a) ∧
        (order.buyOrSell ≠ SELL →
          s'.assetOf order.userId order.assetId =
            s.assetOf order.userId order.assetId + trade ∧
          (∀ a, a ≠ order.assetId → s'.assetOf order.userId a = s.assetOf order.userId a) ∧
          s'.cashOf order.userId = s.cashOf order.userId) ∧
        s'.orderOf order.userId order.orderId =
          { s.orderOf order.userId order.orderId with
            status := st,
            filled := (s.orderOf order.userId order.orderId).filled + trade } ∧
        (s'.orderOf order.userId order.orderId).size =
          (s.orderOf order.userId order.orderId).size ∧
        (s'.orderOf order.userId order.orderId).limit =
          (s.orderOf order.userId order.orderId).limit ∧
        (∀ oid, oid ≠ order.orderId →
          s'.orderOf order.userId oid = s.orderOf order.userId oid) ∧
        (∀ v, v ≠ order.userId →
          s'.cashOf v = s.cashOf v ∧ (∀ a, s'.assetOf v a = s.assetOf v a) ∧
          (∀ oid, s'.orderOf v oid = s.orderOf v oid) ∧ (s'.hasUser v ↔ s.hasUser v))) := by
  constructor
  · intro s order price trade st
    unfold UpdateUserAsset
    by_cases hs : order.buyOrSell = SELL <;> simp [hs]
  · intro s order price trade orderType st hside hu
    obtain ⟨s', hs', eff⟩ := UpdateUserAsset_effect s order price trade orderType st hside hu
    refine ⟨s', hs', fun hb => ⟨?_, fun hfit _ => ?_, fun a => ?_⟩,
      fun hb => ⟨?_, fun a ha => ?_, ?_⟩, ?_, ?_, ?_,
      fun oid hoid => ?_, fun v hv => ⟨?_, fun a => ?_, fun oid => ?_, eff.hasUser v⟩⟩
    · rw [eff.cashOf, if_pos ⟨hb, rfl⟩]
    · rw [eff.cashOf, if_pos ⟨hb, rfl⟩, getTotalAssetCost_of_fits hfit]
    · rw [eff.assetOf, if_neg (fun c => c.1 hb)]; ring
    · rw [eff.assetOf, if_pos ⟨hb, rfl, rfl⟩]
    · rw [eff.assetOf, if_neg (fun c => ha c.2.2)]; ring
    · rw [eff.cashOf, if_neg (fun c => hb c.1)]; ring
    · rw [eff.orderOf, if_pos ⟨rfl, rfl⟩]; rfl
    · rw [eff.orderOf, if_pos ⟨rfl, rfl⟩]; rfl
    · rw [eff.orderOf, if_pos ⟨rfl, rfl⟩]; rfl
    · rw [eff.orderOf, if_neg (fun c => hoid c.2)]
    · rw [eff.cashOf, if_neg (fun c => hv c.2)]; ring
    · rw [eff.assetOf, if_neg (fun c => hv c.2.1)]; ring
    · rw [eff.orderOf, if_neg (fun c => hv c.1)]

/-- C34, instance: the SELL order so1 of userId1 (on record) is filled for 10 at 100 with
order type BUY: the call returns, the cash of userId1 is 11000, the inventory of COIN is as
before, and the record has filled 10 and status COMPLETE. -/
theorem UpdateUserAsset_dispatch_witness :
    ∃ s', UpdateUserAsset (setupTestData [testOrder "so1" "userId1" 100 10 SELL] [])
        (testOrder "so1" "userId1" 100 10 SELL) 100 10 BUY Complete = .ok s' ∧
      s'.cashOf "userId1" = 11000 ∧ s'.assetOf "userId1" "COIN" = 100 ∧
      (s'.orderOf "userId1" "so1").filled = 10 ∧
      (s'.orderOf "userId1" "so1").status = Complete ∧
      (s'.orderOf "userId1" "so1").size = 10 := by
  obtain ⟨s', h, hsell, -, hrec, hsize, -⟩ := UpdateUserAsset_dispatch.2
    (setupTestData [testOrder "so1" "userId1" 100 10 SELL] [])
    (testOrder "so1" "userId1" 100 10 SELL) 100 10 BUY Complete (Or.inl rfl) (by decide)
  obtain ⟨-, hc, ha⟩ := hsell rfl
  refine ⟨s', h, (hc (by decide) (by decide)).trans (by decide),
    (ha "COIN").trans (by decide), ?_, ?_,
    hsize.trans (by decide)⟩
  · exact (congrArg Order.filled hrec).trans (by decide)
  · exact congrArg Order.status hrec

/-! ## Deleting when several orders carry the id -/

/-- C35, counterexample. Two orders carry the id "a". When the first is the front of the
list, `DeleteOrder` removes it and returns: the second stays. When the two are neighbours
behind the front, the scan removes the first and steps over the second: it stays. -/
theorem DeleteOrder_duplicates_counterexample :
    DeleteOrder
      [{ Order.zero with orderId := "a", size := 1 },
       { Order.zero with orderId := "a", size := 2 }] "a" =
      [{ Order.zero with orderId := "a", size := 2 }] ∧
    DeleteOrder
      [{ Order.zero with orderId := "b", size := 1 },
       { Order.zero with orderId := "a", size := 2 },
       { Order.zero with orderId := "a", size := 3 }] "a" =
      [{ Order.zero with orderId := "b", size := 1 },
       { Order.zero with orderId := "a", size := 3 }] ∧
    ∃ o ∈ DeleteOrder
      [{ Order.zero with orderId := "a", size := 1 },
       { Order.zero with orderId := "a", size := 2 }] "a", o.orderId = "a" := by
  refine ⟨by decide, by decide, { Order.zero with orderId := "a", size := 2 }, by decide, rfl⟩

theorem DeleteOrder.scan_filter (oid : OrderId) (n : Nat) :
    ∀ (t : Order) (rest : List Order), rest.length ≤ n → t.orderId ≠ oid →
      (t :: rest).Chain' (fun x y => ¬ (x.orderId = oid ∧ y.orderId = oid)) →
      DeleteOrder.scan oid (t :: rest) =
        t :: rest.filter (fun o => decide (o.orderId ≠ oid)) := by
  induction n with
  | zero =>
    intro t rest hlen _ _
    have : rest = [] := List.length_eq_zero.1 (Nat.le_zero.1 hlen)
    subst this
    rfl
  | succ n ih =>
    intro t rest hlen ht hch
    cases rest with
    | nil => rfl
    | cons m rest =>
      have hlen' : rest.length ≤ n := by simpa using hlen
      have hch' := (List.chain'_cons.1 hch).2
      by_cases hm : m.orderId = oid
      · simp only [DeleteOrder.scan, hm, if_true, List.filter_cons, ne_eq, not_true_eq_false,
          decide_False, Bool.false_eq_true, if_false, List.cons.injEq, true_and]
        cases rest with
        | nil => rfl
        | cons k rest =>
          have hk : k.orderId ≠ oid := fun c => (List.chain'_cons.1 hch').1 ⟨hm, c⟩
          rw [ih k rest (by simp at hlen'; omega) hk (List.chain'_cons.1 hch').2]
          simp [hk]
      · simp only [DeleteOrder.scan, hm, if_false, List.cons.injEq, true_and]
        rw [ih m rest hlen' hm hch']
        simp [hm]

/-- C35, as amended: `DeleteOrder` stops after removing a front order that carries the id:
the rest of the list stays as it is. When the front order does not carry the id the scan goes
on after a removal: on a list in which no two orders carrying the id are neighbours a single
call removes all of them, no order with the id remains, and the other orders keep their
order. -/
theorem DeleteOrder_scan_goes_on :
    (∀ (front : Order) (rest : List Order), DeleteOrder (front :: rest) front.orderId = rest) ∧
    (∀ (l : List Order) (oid : OrderId), (∀ front ∈ l.head?, front.orderId ≠ oid) →
      l.Chain' (fun x y => ¬ (x.orderId = oid ∧ y.orderId = oid)) →
      DeleteOrder l oid = l.filter (fun o => decide (o.orderId ≠ oid)) ∧
      ∀ o ∈ DeleteOrder l oid, o.orderId ≠ oid) := by
  refine ⟨DeleteOrder_head, fun l oid hfront hch => ?_⟩
  have hfilter : DeleteOrder l oid = l.filter (fun o => decide (o.orderId ≠ oid)) := by
    cases l with
    | nil => rfl
    | cons f rest =>
      have hf : f.orderId ≠ oid := hfront f (by simp)
      simp only [DeleteOrder, hf, if_false]
      rw [DeleteOrder.scan_filter oid rest.length f rest (le_refl _) hf hch]
      simp [hf]
  refine ⟨hfilter, fun o ho => ?_⟩
  rw [hfilter] at ho
  simpa using (List.mem_filter.1 ho).2

/-- C35, instance of the amended statement: behind the front b, the orders a and a with c
between them are both removed by one call. -/
theorem DeleteOrder_scan_goes_on_witness :
    DeleteOrder
      [{ Order.zero with orderId := "b", size := 1 },
       { Order.zero with orderId := "a", size := 2 },
       { Order.zero with orderId := "c", size := 3 },
       { Order.zero with orderId := "a", size := 4 }] "a" =
      [{ Order.zero with orderId := "b", size := 1 },
       { Order.zero with orderId := "c", size := 3 }] :=
  (DeleteOrder_scan_goes_on.2
    [{ Order.zero with orderId := "b", size := 1 },
     { Order.zero with orderId := "a", size := 2 },
     { Order.zero with orderId := "c", size := 3 },
     { Order.zero with orderId := "a", size := 4 }] "a" (by decide) (by simp)).1.trans
    (by decide)

/-! ## The order record: size and filled -/

/-- C33, counterexample. userId2 buys 10 at 100 and userId1 sells 5 at 100 into it. The
buyer's record is WORKING, the requested size is 10, and the record has size 10 and filled 5:
filled + size is 15. After a second SELL of 5 the record is COMPLETE with size 10 and filled
10: filled + size is 20. -/
theorem order_record_counterexample :
    ∃ svc₁ svc₂ svc₃,
      OrderMatchingService.ProcessOrderReq
        { Store := setupTestData [] [], OrderBooks := newOrderBooks }
        { UserId := "userId2", Limit := 100, AssetId := "COIN", Size := 10, BuyOrSell := BUY }
        "bo1" 1 = .ok svc₁ ∧
      (svc₁.Store.orderOf "userId2" "bo1").filled = 0 ∧
      (svc₁.Store.orderOf "userId2" "bo1").size = 10 ∧
      svc₁.ProcessOrderReq
        { UserId := "userId1", Limit := 100, AssetId := "COIN", Size := 5, BuyOrSell := SELL }
        "so1" 2 = .ok svc₂ ∧
      (svc₂.Store.orderOf "userId2" "bo1").status = Working ∧
      (svc₂.Store.orderOf "userId2" "bo1").filled +
        (svc₂.Store.orderOf "userId2" "bo1").size = 15 ∧
      svc₂.ProcessOrderReq
        { UserId := "userId1", Limit := 100, AssetId := "COIN", Size := 5, BuyOrSell := SELL }
        "so2" 3 = .ok svc₃ ∧
      (svc₃.Store.orderOf "userId2" "bo1").status = Complete ∧
      (svc₃.Store.orderOf "userId2" "bo1").filled +
        (svc₃.Store.orderOf "userId2" "bo1").size = 20 := by
  refine ⟨_, _, _, rfl, ?_, ?_, rfl, ?_, ?_, rfl, ?_, ?_⟩ <;> decide

/-- No fill changes the size of a record of the store. -/
theorem executeOrder_record_size (side : Int) (hside : side = BUY ∨ side = SELL)
    (l : List Order) (newOrder : Order) (s : Store) (hnew : s.hasUser newOrder.userId)
    (hown : ∀ o ∈ l, s.hasUser o.userId)
    (r : List Order × Order × Store) (hr : executeOrder l newOrder s side = .ok r) :
    ∀ v oid, (r.2.2.orderOf v oid).size = (s.orderOf v oid).size := by
  have hfill : ∀ (s s' : Store) (order : Order) (price trade : Int) (st : OrderStatus),
      FillEffect s s' order price trade st →
      ∀ v oid, (s'.orderOf v oid).size = (s.orderOf v oid).size := by
    intro s s' order price trade st eff v oid
    rw [eff.orderOf]
    split_ifs <;> rfl
  refine executeOrder_induct side hside
    (fun _ _ s r => ∀ v oid, (r.2.2.orderOf v oid).size = (s.orderOf v oid).size)
    ?_ ?_ ?_ l newOrder s hnew hown r hr
  · intro l newOrder s _ v oid
    rfl
  · intro h t newOrder s s1 s2 trade _ _ _ e1 e2 v oid
    show (s2.orderOf v oid).size = _
    rw [hfill _ _ _ _ _ _ e2, hfill _ _ _ _ _ _ e1]
  · intro h t newOrder s s1 s2 trade r _ _ _ e1 e2 ih v oid
    rw [ih v oid, hfill _ _ _ _ _ _ e2, hfill _ _ _ _ _ _ e1]

/-- C33, as amended: the order record of the store keeps the requested size, and filled plus
the remaining size is the requested size. At submission the record has filled 0 and the
requested size. A call of `executeOrder` (distinct ids, positive sizes, owners in the store)
changes the size of no record, and keeps filled + remaining for the incoming order (remaining:
the size of the residual returned) and for every resting order (remaining: the size of its
copy in the list left, 0 when it was removed). -/
theorem order_record_invariant :
    (∀ (s : Store) (req : OrderReq) (oid : OrderId) (now : Nat), s.hasUser req.UserId →
      ∃ s', AddUserOrder s (createOrderFromOrderReq req oid now) = .ok s' ∧
        (s'.orderOf req.UserId oid).filled = 0 ∧
        (s'.orderOf req.UserId oid).size = req.Size ∧
        (s'.orderOf req.UserId oid).status = Working) ∧
    (∀ (side : Int) (l : List Order) (newOrder : Order) (s : Store),
      side = BUY ∨ side = SELL → s.hasUser newOrder.userId → (∀ o ∈ l, s.hasUser o.userId) →
      (newOrder.orderId :: l.map (fun o => o.orderId)).Nodup →
      (∀ o ∈ l, 0 < o.size) → 0 < newOrder.size →
      ∃ r, executeOrder l newOrder s side = .ok r ∧
        (∀ v oid, (r.2.2.orderOf v oid).size = (s.orderOf v oid).size) ∧
        (r.2.2.orderOf newOrder.userId newOrder.orderId).filled + r.2.1.size =
          (s.orderOf newOrder.userId newOrder.orderId).filled + newOrder.size ∧
        (∀ o ∈ l, (r.2.2.orderOf o.userId o.orderId).filled + (getOrder r.1 o.orderId).size =
          (s.orderOf o.userId o.orderId).filled + o.size)) := by
  constructor
  · intro s req oid now hu
    obtain ⟨s', hs', hrec, -⟩ := AddUserOrder_effect s (createOrderFromOrderReq req oid now) hu
    have hrec' : s'.orderOf req.UserId oid = createOrderFromOrderReq req oid now := hrec
    exact ⟨s', hs', by rw [hrec']; rfl, by rw [hrec']; rfl, by rw [hrec']; rfl⟩
  · intro side l newOrder s hside hnew hown hnd hpos hsz
    obtain ⟨r, hr⟩ := executeOrder_returns l newOrder s side hside hnew hown
    obtain ⟨hin, hrest⟩ :=
      executeOrder_filled side hside l newOrder s hnew hown hnd hpos hsz r hr
    refine ⟨r, hr, executeOrder_record_size side hside l newOrder s hnew hown r hr, ?_,
      fun o ho => ?_⟩
    · rw [hin]; ring
    · rw [hrest o ho]; ring

/-- C33, instance of the amended statement with the orders of the Go test
`TestOrderBooks_ExecuteOrder_SELL_CASE1`: a SELL at 100 for 35 meets BUYs at 101 (30) and 100
(10); the incoming record keeps filled + remaining at 35. -/
theorem order_record_invariant_witness :
    ∃ r, executeOrder
        [testOrder "bo1" "userId1" 101 30 BUY, testOrder "bo2" "userId1" 100 10 BUY]
        (testOrder "so1" "userId2" 100 35 SELL)
        (setupTestData
          [testOrder "bo1" "userId1" 101 30 BUY, testOrder "bo2" "userId1" 100 10 BUY]
          [testOrder "so1" "userId2" 100 35 SELL]) SELL = .ok r ∧
      (r.2.2.orderOf "userId2" "so1").size = 35 ∧
      (r.2.2.orderOf "userId2" "so1").filled + r.2.1.size = 35 := by
  obtain ⟨r, hr, hsize, hin, -⟩ := order_record_invariant.2 SELL
    [testOrder "bo1" "userId1" 101 30 BUY, testOrder "bo2" "userId1" 100 10 BUY]
    (testOrder "so1" "userId2" 100 35 SELL)
    (setupTestData
      [testOrder "bo1" "userId1" 101 30 BUY, testOrder "bo2" "userId1" 100 10 BUY]
      [testOrder "so1" "userId2" 100 35 SELL]) (Or.inr rfl) (by decide) (by decide)
    (by decide) (by decide) (by decide)
  exact ⟨r, hr, (hsize "userId2" "so1").trans (by decide), hin.trans (by decide)⟩

end Exchange
